import Mathlib

/-!
Shallow embedding of the simple-redis RESP codec and command layer.

Conventions used throughout this development:
* Rust byte buffers (`BytesMut`, `&[u8]`, `Vec<u8>`) are modelled as `List Nat`
  with every element a byte value (< 256 on all reachable inputs).
* Rust `String` values are modelled by their UTF-8 byte sequences (`List Nat`).
* Fallible Rust functions returning `Result<T, RespError>` are modelled in the
  `Res` type below, which also has an explicit `panic` outcome so that Rust
  panics (integer underflow, out-of-bounds indexing) are observable.
* The human-readable detail strings carried by some error variants
  (`RespError::Invalid(String)` etc.) are not modelled: no claim inspects them,
  only the variant.
* Recursive decoding functions are given an explicit fuel parameter (structural
  recursion on the fuel); theorems quantify over all sufficiently large fuels.
-/

namespace SimpleRedis

/-- Embedding of `RespError` from `src/resp/mod.rs` (detail strings dropped). -/
inductive RespError where
  | incomplete
  | invalid
  | invalidFrameLength
  | invalidFrameType
deriving DecidableEq

/-- Outcome of running Rust code that returns `Result<α, ε>` but may also
panic.  `panic` models an aborted execution (e.g. arithmetic underflow on
`usize`, out-of-bounds slice indexing); Rust code never observes or catches
it, so it propagates through every construct below. -/
inductive Res (ε : Type) (α : Type) where
  | ok (a : α)
  | err (e : ε)
  | panic
deriving DecidableEq

/-- Sequencing for `Res`: the meaning of Rust's `?` operator, with panics
propagated unconditionally. -/
def Res.bind {ε α β : Type} : Res ε α → (α → Res ε β) → Res ε β
  | .ok a, f => f a
  | .err e, _ => .err e
  | .panic, _ => .panic

/-! ## Byte-level utilities -/

/-- Carriage return / line feed pair, the RESP in-frame delimiter. -/
def CRLF : List Nat := [13, 10]

/-- True when the byte list contains no adjacent `\r\n` pair. -/
def noCRLF : List Nat → Bool
  | a :: b :: rest => !(a == 13 && b == 10) && noCRLF (b :: rest)
  | _ => true

/-- ASCII-lowercase a byte, as Rust's `u8::to_ascii_lowercase`. -/
def asciiLower (b : Nat) : Nat := if 65 ≤ b ∧ b ≤ 90 then b + 32 else b

/-- ASCII-lowercase a byte string, as `<[u8]>::to_ascii_lowercase`. -/
def toAsciiLower (l : List Nat) : List Nat := l.map asciiLower

/-! ### Decimal rendering and parsing

`natToDigitBytes` embeds the `{}` `Display` formatting of an unsigned integer;
`parse_usize` / `parse_i64` embed `str::parse::<usize>` / `str::parse::<i64>`.
-/

/-- Big-endian decimal digit bytes of `n`, computed with fuel (`fuel ≥ n`
suffices; each step divides by 10). -/
def natDigitsAux : Nat → Nat → List Nat
  | 0, _ => []
  | _ + 1, 0 => []
  | fuel + 1, n => natDigitsAux fuel (n / 10) ++ [n % 10 + 48]

/-- Decimal rendering of a `Nat` as ASCII bytes (`0` renders as `"0"`). -/
def natToDigitBytes (n : Nat) : List Nat :=
  if n = 0 then [48] else natDigitsAux n n

/-- ASCII digit test. -/
def isDigit (d : Nat) : Bool := 48 ≤ d && d ≤ 57

/-- Numeric value of a big-endian ASCII digit string. -/
def digitsVal (l : List Nat) : Nat := l.foldl (fun a d => 10 * a + (d - 48)) 0

/-- Parse a non-empty all-digit byte string, as the digit-consuming core of
Rust's integer `FromStr` implementations. -/
def parseDigits? (l : List Nat) : Option Nat :=
  if l ≠ [] ∧ l.all isDigit then some (digitsVal l) else none

/-- Embedding of `str::parse::<usize>` (64-bit `usize`): an optional leading
`+`, then digits; overflow is an error. -/
def parse_usize (s : List Nat) : Option Nat :=
  match s with
  | 43 :: rest => (parseDigits? rest).bind fun v => if v < 2 ^ 64 then some v else none
  | _ => (parseDigits? s).bind fun v => if v < 2 ^ 64 then some v else none

/-- Embedding of `str::parse::<i64>`: an optional leading sign, then digits;
values outside the `i64` range are an error. -/
def parse_i64 (s : List Nat) : Option Int :=
  match s with
  | 43 :: rest => (parseDigits? rest).bind fun v =>
      if v ≤ 2 ^ 63 - 1 then some (Int.ofNat v) else none
  | 45 :: rest => (parseDigits? rest).bind fun v =>
      if v ≤ 2 ^ 63 then some (-(Int.ofNat v)) else none
  | _ => (parseDigits? s).bind fun v =>
      if v ≤ 2 ^ 63 - 1 then some (Int.ofNat v) else none

/-! ### UTF-8 validation and lossy decoding

Embeds `core::str`'s UTF-8 validation and `String::from_utf8_lossy`
("substitution of maximal subparts": each maximal invalid subsequence is
replaced by one U+FFFD replacement character, whose UTF-8 bytes are
`EF BF BD`). -/

/-- Result of examining the start of a byte string: either a well-formed UTF-8
sequence of `k` bytes, or an invalid/incomplete subpart of `e` bytes to skip. -/
inductive Utf8Step where
  | valid (k : Nat)
  | invalid (e : Nat)
deriving DecidableEq

/-- UTF-8 continuation byte test (`0x80..=0xBF`). -/
def utf8Cont (c : Nat) : Bool := 128 ≤ c && c ≤ 191

/-- Permitted second byte of a three-byte sequence headed by `b`. -/
def utf8Snd3 (b c : Nat) : Bool :=
  if b == 224 then 160 ≤ c && c ≤ 191
  else if b == 237 then 128 ≤ c && c ≤ 159
  else utf8Cont c

/-- Permitted second byte of a four-byte sequence headed by `b`. -/
def utf8Snd4 (b c : Nat) : Bool :=
  if b == 240 then 144 ≤ c && c ≤ 191
  else if b == 244 then 128 ≤ c && c ≤ 143
  else utf8Cont c

/-- Classify the start of a (nonempty) byte string per the UTF-8 validation
automaton; on `[]` (never consulted by the callers below) returns a dummy. -/
def utf8Step : List Nat → Utf8Step
  | [] => .invalid 1
  | b :: rest =>
    if b < 128 then .valid 1
    else if 194 ≤ b ∧ b ≤ 223 then
      match rest with
      | [] => .invalid 1
      | c :: _ => if utf8Cont c then .valid 2 else .invalid 1
    else if 224 ≤ b ∧ b ≤ 239 then
      match rest with
      | [] => .invalid 1
      | c :: rest2 =>
        if utf8Snd3 b c then
          match rest2 with
          | [] => .invalid 2
          | d :: _ => if utf8Cont d then .valid 3 else .invalid 2
        else .invalid 1
    else if 240 ≤ b ∧ b ≤ 244 then
      match rest with
      | [] => .invalid 1
      | c :: rest2 =>
        if utf8Snd4 b c then
          match rest2 with
          | [] => .invalid 2
          | d :: rest3 =>
            if utf8Cont d then
              match rest3 with
              | [] => .invalid 3
              | e :: _ => if utf8Cont e then .valid 4 else .invalid 3
            else .invalid 2
        else .invalid 1
    else .invalid 1

/-- UTF-8 bytes of U+FFFD, the replacement character. -/
def REP : List Nat := [239, 191, 189]

/-- Fueled engine of `String::from_utf8_lossy` (fuel `l.length` suffices since
every step consumes at least one byte). -/
def utf8LossyF : Nat → List Nat → List Nat
  | 0, _ => []
  | _ + 1, [] => []
  | fuel + 1, l =>
    match utf8Step l with
    | .valid k => l.take k ++ utf8LossyF fuel (l.drop k)
    | .invalid e => REP ++ utf8LossyF fuel (l.drop e)

/-- Embedding of `String::from_utf8_lossy` (as a byte transformation). -/
def utf8Lossy (l : List Nat) : List Nat := utf8LossyF l.length l

/-- Fueled engine of UTF-8 validity. -/
def validUtf8F : Nat → List Nat → Bool
  | 0, l => l.isEmpty
  | _ + 1, [] => true
  | fuel + 1, l =>
    match utf8Step l with
    | .valid k => validUtf8F fuel (l.drop k)
    | .invalid _ => false

/-- Embedding of UTF-8 validity (`String::from_utf8` succeeds). -/
def validUtf8 (l : List Nat) : Bool := validUtf8F l.length l

/-! ## The byte scanner (`src/resp/decode.rs`, free functions) -/

/-- Embedding of `find_crlf(buf, nth)`.  The Rust loop iterates
`for i in 0..buf.len() - 1`; on an empty buffer the `usize` subtraction
underflows (panic in debug; in release the wrapped range immediately indexes
out of bounds, also a panic), so the empty-buffer case is `panic`. -/
def find_crlf (buf : List Nat) (nth : Nat) : Res RespError (Option Nat) :=
  if buf.isEmpty then .panic
  else .ok (findCrlfAux nth buf 0 0)
where
  /-- Scan of adjacent byte pairs, tracking the occurrence count and index. -/
  findCrlfAux (nth : Nat) : List Nat → Nat → Nat → Option Nat
  | a :: b :: rest, cnt, i =>
    if a == 13 && b == 10 then
      if cnt + 1 == nth then some i
      else findCrlfAux nth (b :: rest) (cnt + 1) (i + 1)
    else findCrlfAux nth (b :: rest) cnt (i + 1)
  | _, _, _ => none

/-- Embedding of `validate_frame_data(buf, prefix)`; every caller passes a
single-byte prefix string, modelled as the byte `pre`. -/
def validate_frame_data (buf : List Nat) (pre : Nat) : Res RespError Unit :=
  if buf.length < 3 then .err .incomplete
  else if buf.take 1 ≠ [pre] then .err .invalidFrameType
  else if buf.drop (buf.length - 2) ≠ [13, 10] then .err .incomplete
  else .ok ()

/-- The slice `&buf[1 .. buf.len() - 2]` used by the line-oriented decoders. -/
def lineData (buf : List Nat) : List Nat := (buf.drop 1).take (buf.length - 3)

/-- Embedding of `parse_length(buf)`: locate the header CRLF, parse the
declared payload length, and check it against the slice length. -/
def parse_length (buf : List Nat) : Res RespError (Nat × Nat) :=
  Res.bind (find_crlf buf 1) fun o =>
    match o with
    | none => .err .incomplete
    | some len_end =>
      match parse_usize (utf8Lossy ((buf.drop 1).take (len_end - 1))) with
      | none => .err .invalidFrameLength
      | some len =>
        if len_end + 2 + len + 2 ≠ buf.length then .err .invalidFrameLength
        else .ok (len_end, len)

/-! ## The frame model (`src/resp/mod.rs`)

`RespFrame` is the tagged union of the thirteen RESP variants, in source
declaration order (which fixes the derived `Ord`).  `SimpleString`,
`SimpleError` and `RespDouble` store Rust `String`s, modelled by their UTF-8
bytes; `RespMap` is a `BTreeMap<String, RespFrame>` modelled as a key-sorted
association list; `RespSet` is a `BTreeSet<RespFrame>` modelled as a sorted
list. -/

inductive RespFrame where
  | simpleString (s : List Nat)
  | error (s : List Nat)
  | bulkError (b : List Nat)
  | integer (i : Int)
  | bulkString (b : List Nat)
  | nullBulkString
  | array (l : List RespFrame)
  | nullArray
  | null
  | boolean (b : Bool)
  | double (s : List Nat)
  | map (m : List (List Nat × RespFrame))
  | set (s : List RespFrame)

/-- Discriminant of a frame, in source declaration order (the first component
of the derived `Ord`). -/
def RespFrame.tag : RespFrame → Nat
  | .simpleString _ => 0
  | .error _ => 1
  | .bulkError _ => 2
  | .integer _ => 3
  | .bulkString _ => 4
  | .nullBulkString => 5
  | .array _ => 6
  | .nullArray => 7
  | .null => 8
  | .boolean _ => 9
  | .double _ => 10
  | .map _ => 11
  | .set _ => 12

/-- Lexicographic comparison of byte strings: the `Ord` of Rust `String` /
`Vec<u8>` (Rust `str` ordering is byte-wise lexicographic). -/
def cmpBytes : List Nat → List Nat → Ordering
  | [], [] => .eq
  | [], _ :: _ => .lt
  | _ :: _, [] => .gt
  | a :: as, b :: bs =>
    match compare a b with
    | .eq => cmpBytes as bs
    | o => o

mutual

/-- The derived `Ord` on `RespFrame`: discriminant first, then the payload. -/
def cmpFrame : RespFrame → RespFrame → Ordering
  | .simpleString a, .simpleString b => cmpBytes a b
  | .error a, .error b => cmpBytes a b
  | .bulkError a, .bulkError b => cmpBytes a b
  | .integer a, .integer b => compare a b
  | .bulkString a, .bulkString b => cmpBytes a b
  | .nullBulkString, .nullBulkString => .eq
  | .array a, .array b => cmpFrames a b
  | .nullArray, .nullArray => .eq
  | .null, .null => .eq
  | .boolean a, .boolean b => compare a b
  | .double a, .double b => cmpBytes a b
  | .map a, .map b => cmpEntries a b
  | .set a, .set b => cmpFrames a b
  | a, b => compare a.tag b.tag

/-- Lexicographic comparison of frame sequences (`Ord` of `Vec`, and of a
`BTreeSet` viewed through its sorted iterator). -/
def cmpFrames : List RespFrame → List RespFrame → Ordering
  | [], [] => .eq
  | [], _ :: _ => .lt
  | _ :: _, [] => .gt
  | a :: as, b :: bs =>
    match cmpFrame a b with
    | .eq => cmpFrames as bs
    | o => o

/-- Lexicographic comparison of map entries (`Ord` of `BTreeMap` through its
sorted iterator: key first, then value). -/
def cmpEntries : List (List Nat × RespFrame) → List (List Nat × RespFrame) → Ordering
  | [], [] => .eq
  | [], _ :: _ => .lt
  | _ :: _, [] => .gt
  | (k1, v1) :: as, (k2, v2) :: bs =>
    match cmpBytes k1 k2 with
    | .eq =>
      match cmpFrame v1 v2 with
      | .eq => cmpEntries as bs
      | o => o
    | o => o

end

/-- Embedding of `BTreeSet::insert`: place `x` at its sorted position; if an
equal element is present the set is unchanged. -/
def RespSet.insert (x : RespFrame) : List RespFrame → List RespFrame
  | [] => [x]
  | y :: ys =>
    match cmpFrame x y with
    | .lt => x :: y :: ys
    | .eq => y :: ys
    | .gt => y :: RespSet.insert x ys

/-- Embedding of `BTreeMap::insert`: place `(k, v)` at its key-sorted
position; an existing entry with an equal key has its value replaced. -/
def RespMap.insert (k : List Nat) (v : RespFrame) :
    List (List Nat × RespFrame) → List (List Nat × RespFrame)
  | [] => [(k, v)]
  | (k', v') :: rest =>
    match cmpBytes k k' with
    | .lt => (k, v) :: (k', v') :: rest
    | .eq => (k', v) :: rest
    | .gt => (k', v') :: RespMap.insert k v rest

/-- Strict pairwise sortedness under a comparator (every element strictly
below every later one): the invariant of the ordered containers. -/
def pairwiseLtB {α : Type} (cmp : α → α → Ordering) : List α → Bool
  | [] => true
  | x :: xs => xs.all (fun y => cmp x y == Ordering.lt) && pairwiseLtB cmp xs

/-! ## The encoder (`src/resp/encode.rs`)

`encode` is total.  Note two faithful oddities of the source:
`BulkString::encode` and `BulkError::encode` interpolate
`String::from_utf8_lossy(&self.0)` into the output while declaring the
*original* byte length `self.0.len()`, and `i64::encode` prefixes `+` to
non-negative values. -/

mutual

/-- Embedding of `RespEncoder::encode` for every variant. -/
def RespFrame.encode : RespFrame → List Nat
  | .simpleString s => 43 :: (s ++ CRLF)
  | .error s => 45 :: (s ++ CRLF)
  | .bulkError b => 33 :: (natToDigitBytes b.length ++ CRLF ++ utf8Lossy b ++ CRLF)
  | .integer i =>
    58 :: ((if i < 0 then 45 :: natToDigitBytes (-i).toNat
            else 43 :: natToDigitBytes i.toNat) ++ CRLF)
  | .bulkString b => 36 :: (natToDigitBytes b.length ++ CRLF ++ utf8Lossy b ++ CRLF)
  | .nullBulkString => [36, 45, 49, 13, 10]
  | .array l => 42 :: (natToDigitBytes l.length ++ CRLF ++ RespFrame.encodeList l)
  | .nullArray => [42, 45, 49, 13, 10]
  | .null => [95, 13, 10]
  | .boolean b => 35 :: ((if b then [116] else [102]) ++ CRLF)
  | .double s => 44 :: (s ++ CRLF)
  | .map m => 37 :: (natToDigitBytes m.length ++ CRLF ++ RespFrame.encodeEntries m)
  | .set s => 126 :: (natToDigitBytes s.length ++ CRLF ++ RespFrame.encodeList s)

/-- Concatenated encodings of a frame sequence (array/set children). -/
def RespFrame.encodeList : List RespFrame → List Nat
  | [] => []
  | f :: fs => f.encode ++ RespFrame.encodeList fs

/-- Concatenated encodings of map entries: each key as a `SimpleString`,
then the value. -/
def RespFrame.encodeEntries : List (List Nat × RespFrame) → List Nat
  | [] => []
  | (k, v) :: rest => (43 :: (k ++ CRLF)) ++ v.encode ++ RespFrame.encodeEntries rest

end

/-! ## Well-formedness

`wfFrame fm f` states the representation invariants that the Rust types
enforce (strings are valid UTF-8, containers are sorted, machine integers are
in range) together with the conditions under which the codec can round-trip
`f` (no embedded CRLF in textual or bulk payloads — see the corrected claims
C1/C3).  The parameter `fm` is the floating-point model (below); only the
`double` case consults it, requiring the stored text to be canonical. -/

mutual

/-- Well-formedness of a frame (see section comment). -/
def wfFrame (fm : List Nat → Option (List Nat)) : RespFrame → Bool
  | .simpleString s => validUtf8 s && noCRLF s
  | .error s => validUtf8 s && noCRLF s
  | .bulkError b => validUtf8 b && noCRLF b && decide (b.length < 2 ^ 64)
  | .integer i => decide (-(2 ^ 63 : Int) ≤ i ∧ i < 2 ^ 63)
  | .bulkString b => validUtf8 b && noCRLF b && decide (b.length < 2 ^ 64)
  | .nullBulkString => true
  | .array l => decide (l.length < 2 ^ 64) && wfFrames fm l
  | .nullArray => true
  | .null => true
  | .boolean _ => true
  | .double s => validUtf8 s && noCRLF s && (fm s == some s)
  | .map m =>
    decide (m.length < 2 ^ 64) && pairwiseLtB (fun a b => cmpBytes a.1 b.1) m &&
    m.all (fun kv => validUtf8 kv.1 && noCRLF kv.1) && wfEntries fm m
  | .set s => decide (s.length < 2 ^ 64) && pairwiseLtB cmpFrame s && wfFrames fm s

/-- Well-formedness of every frame in a list. -/
def wfFrames (fm : List Nat → Option (List Nat)) : List RespFrame → Bool
  | [] => true
  | f :: fs => wfFrame fm f && wfFrames fm fs

/-- Well-formedness of every value in an entry list. -/
def wfEntries (fm : List Nat → Option (List Nat)) : List (List Nat × RespFrame) → Bool
  | [] => true
  | (_, v) :: rest => wfFrame fm v && wfEntries fm rest

end

mutual

/-- Every set occurring anywhere inside the frame is strictly sorted under
the total frame order (hence duplicate-free). -/
def setsSortedFrame : RespFrame → Bool
  | .array l => setsSortedFrames l
  | .map m => setsSortedEntries m
  | .set s => pairwiseLtB cmpFrame s && setsSortedFrames s
  | _ => true

/-- List version of `setsSortedFrame`. -/
def setsSortedFrames : List RespFrame → Bool
  | [] => true
  | f :: fs => setsSortedFrame f && setsSortedFrames fs

/-- Entry-list version of `setsSortedFrame`. -/
def setsSortedEntries : List (List Nat × RespFrame) → Bool
  | [] => true
  | (_, v) :: rest => setsSortedFrame v && setsSortedEntries rest

end

/-! ## The decoder (`src/resp/decode.rs`)

Rust slice expressions with computed endpoints (`&buf[s..e]`, `&buf[s..]`)
panic when out of range; the two helpers below embed exactly that. -/

/-- Embedding of `&buf[s..e]`. -/
def sliceGet (buf : List Nat) (s e : Nat) : Res RespError (List Nat) :=
  if s ≤ e ∧ e ≤ buf.length then .ok ((buf.drop s).take (e - s)) else .panic

/-- Embedding of `&buf[s..]`. -/
def sliceFrom (buf : List Nat) (s : Nat) : Res RespError (List Nat) :=
  if s ≤ buf.length then .ok (buf.drop s) else .panic

/-- Shared body of the `expect_length` implementations that return
"offset of the first CRLF plus 2" (`SimpleString`, `SimpleError`, `i64`,
`NullBulkString`, `RespNullArray`, `RespNull`, `bool`, `RespDouble`). -/
def expectLenLine1 (buf : List Nat) : Res RespError Nat :=
  Res.bind (find_crlf buf 1) fun o =>
    match o with
    | none => .err .incomplete
    | some e => .ok (e + 2)

/-- Shared body of the `expect_length` implementations that return
"offset of the second CRLF plus 2" (`BulkString`, `BulkError`). -/
def expectLenLine2 (buf : List Nat) : Res RespError Nat :=
  Res.bind (find_crlf buf 2) fun o =>
    match o with
    | none => .err .incomplete
    | some e => .ok (e + 2)

/-- Embedding of `RespDecoder for SimpleString::decode`: whole-buffer line,
decoded lossily.  Note the source validates that the *entire buffer* ends in
CRLF and then takes `&buf[1..buf.len() - 2]` — nothing is consumed. -/
def SimpleString.decode (buf : List Nat) : Res RespError (List Nat) :=
  Res.bind (validate_frame_data buf 43) fun _ => .ok (utf8Lossy (lineData buf))

/-- Embedding of `RespDecoder for SimpleError::decode`. -/
def SimpleError.decode (buf : List Nat) : Res RespError (List Nat) :=
  Res.bind (validate_frame_data buf 45) fun _ => .ok (utf8Lossy (lineData buf))

/-- Embedding of `RespDecoder for i64::decode`. -/
def I64.decode (buf : List Nat) : Res RespError Int :=
  Res.bind (validate_frame_data buf 58) fun _ =>
    match parse_i64 (utf8Lossy (lineData buf)) with
    | none => .err .invalid
    | some v => .ok v

/-- Embedding of `RespDecoder for BulkString::decode`. -/
def BulkString.decode (buf : List Nat) : Res RespError (List Nat) :=
  Res.bind (validate_frame_data buf 36) fun _ =>
  Res.bind (expectLenLine2 buf) fun frame_len =>
  Res.bind (sliceGet buf 0 frame_len) fun sl =>
  Res.bind (parse_length sl) fun p =>
  Res.bind (sliceGet buf (p.1 + 2) (p.1 + 2 + p.2)) fun data =>
  .ok data

/-- Embedding of `RespDecoder for BulkError::decode`. -/
def BulkError.decode (buf : List Nat) : Res RespError (List Nat) :=
  Res.bind (validate_frame_data buf 33) fun _ =>
  Res.bind (expectLenLine2 buf) fun frame_len =>
  Res.bind (sliceGet buf 0 frame_len) fun sl =>
  Res.bind (parse_length sl) fun p =>
  Res.bind (sliceGet buf (p.1 + 2) (p.1 + 2 + p.2)) fun data =>
  .ok data

/-- Embedding of `RespDecoder for NullBulkString::decode`. -/
def NullBulkString.decode (buf : List Nat) : Res RespError Unit :=
  Res.bind (validate_frame_data buf 36) fun _ =>
    if lineData buf ≠ [45, 49] then .err .invalid else .ok ()

/-- Embedding of `RespDecoder for RespNullArray::decode`. -/
def RespNullArray.decode (buf : List Nat) : Res RespError Unit :=
  Res.bind (validate_frame_data buf 42) fun _ =>
    if lineData buf ≠ [45, 49] then .err .invalid else .ok ()

/-- Embedding of `RespDecoder for RespNull::decode`. -/
def RespNull.decode (buf : List Nat) : Res RespError Unit :=
  Res.bind (validate_frame_data buf 95) fun _ =>
    if buf.length ≠ 3 then .err .invalid else .ok ()

/-- Embedding of `RespDecoder for bool::decode`. -/
def Bool.decode (buf : List Nat) : Res RespError Bool :=
  Res.bind (validate_frame_data buf 35) fun _ =>
    match lineData buf with
    | [116] => .ok true
    | [102] => .ok false
    | _ => .err .invalid

/-- Embedding of `RespDecoder for RespDouble::decode`, parametric in the
floating-point model `fm`: `fm data` stands for
`data.parse::<f64>().map(RespDouble::new)` — `none` models a parse error,
`some s` the canonical text produced by `RespDouble::new`.  IEEE-754 parsing
and formatting are outside this embedding; theorems that depend on them state
their assumptions on `fm` explicitly. -/
def RespDouble.decode (fm : List Nat → Option (List Nat)) (buf : List Nat) :
    Res RespError (List Nat) :=
  Res.bind (validate_frame_data buf 44) fun _ =>
    match fm (utf8Lossy (lineData buf)) with
    | none => .err .invalid
    | some s => .ok s

/-- Selector for the mutually recursive `expect_length` family.  The family
is compiled as one fuel-structural function (`eRun`) so that it reduces
definitionally; the per-impl names below are thin wrappers. -/
inductive ESel where
  | frame (buf : List Nat)
  | array (buf : List Nat)
  | map (buf : List Nat)
  | set (buf : List Nat)
  | children (c : Nat) (buf : List Nat) (total : Nat)
  | mapChildren (c : Nat) (buf : List Nat) (total : Nat)

/-- The `expect_length` family.
* `.frame`: `RespDecoder for RespFrame::expect_length` — length guard, then
  dispatch on the first byte (with the `"-1"` special cases for `$`/`*`);
* `.array` / `.map` / `.set`: the aggregate `expect_length` impls — parse the
  count header, then run the sizing loop;
* `.children`: the `for _ in 0..nth` loop of array/set — accumulate
  `RespFrame::expect_length(&buf[total..])`;
* `.mapChildren`: the map loop — two frames per entry. -/
def eRun : Nat → ESel → Res RespError Nat
  | 0, _ => .panic
  | n + 1, sel =>
    match sel with
    | .frame buf =>
      if buf.length < 3 then .err .incomplete
      else
        match buf.head? with
        | some 43 => expectLenLine1 buf
        | some 45 => expectLenLine1 buf
        | some 33 => expectLenLine2 buf
        | some 58 => expectLenLine1 buf
        | some 36 =>
          if (buf.drop 1).take 2 = [45, 49] then expectLenLine1 buf
          else expectLenLine2 buf
        | some 42 =>
          if (buf.drop 1).take 2 = [45, 49] then expectLenLine1 buf
          else eRun n (.array buf)
        | some 95 => expectLenLine1 buf
        | some 35 => expectLenLine1 buf
        | some 44 => expectLenLine1 buf
        | some 37 => eRun n (.map buf)
        | some 126 => eRun n (.set buf)
        | _ => .err .invalidFrameType
    | .array buf =>
      Res.bind (find_crlf buf 1) fun o =>
        match o with
        | none => .err .incomplete
        | some nth_len =>
          Res.bind (sliceGet buf 1 nth_len) fun hdr =>
            match parse_usize (utf8Lossy hdr) with
            | none => .err .invalid
            | some nth => eRun n (.children nth buf (nth_len + 2))
    | .map buf =>
      Res.bind (find_crlf buf 1) fun o =>
        match o with
        | none => .err .incomplete
        | some nth_len =>
          Res.bind (sliceGet buf 1 nth_len) fun hdr =>
            match parse_usize (utf8Lossy hdr) with
            | none => .err .invalid
            | some nth => eRun n (.mapChildren nth buf (nth_len + 2))
    | .set buf =>
      Res.bind (find_crlf buf 1) fun o =>
        match o with
        | none => .err .incomplete
        | some nth_len =>
          Res.bind (sliceGet buf 1 nth_len) fun hdr =>
            match parse_usize (utf8Lossy hdr) with
            | none => .err .invalid
            | some nth => eRun n (.children nth buf (nth_len + 2))
    | .children 0 _ total => .ok total
    | .children (c + 1) buf total =>
      Res.bind (sliceFrom buf total) fun rem =>
      Res.bind (eRun n (.frame rem)) fun fl =>
      eRun n (.children c buf (total + fl))
    | .mapChildren 0 _ total => .ok total
    | .mapChildren (c + 1) buf total =>
      Res.bind (sliceFrom buf total) fun rem =>
      Res.bind (eRun n (.frame rem)) fun key_len =>
      Res.bind (sliceFrom buf (total + key_len)) fun rem2 =>
      Res.bind (eRun n (.frame rem2)) fun value_len =>
      eRun n (.mapChildren c buf (total + key_len + value_len))

/-- Embedding of `RespDecoder for RespFrame::expect_length`, with fuel. -/
def RespFrame.expect_length (n : Nat) (buf : List Nat) : Res RespError Nat :=
  eRun n (.frame buf)

/-- Embedding of `RespDecoder for RespArray::expect_length`. -/
def RespArray.expect_length (n : Nat) (buf : List Nat) : Res RespError Nat :=
  eRun n (.array buf)

/-- Embedding of `RespDecoder for RespMap::expect_length`. -/
def RespMap.expect_length (n : Nat) (buf : List Nat) : Res RespError Nat :=
  eRun n (.map buf)

/-- Embedding of `RespDecoder for RespSet::expect_length` (same loop as the
array version, as in the source). -/
def RespSet.expect_length (n : Nat) (buf : List Nat) : Res RespError Nat :=
  eRun n (.set buf)

/-- Selector for the mutually recursive `decode` family, compiled as one
fuel-structural function (`dRun`) so it reduces definitionally.  Every case
yields a `RespFrame`: the aggregate cases wrap their container in the
corresponding constructor (the source performs the same wrapping at the
`RespFrame::decode` dispatch sites). -/
inductive DSel where
  | frame (buf : List Nat)
  | array (buf : List Nat)
  | map (buf : List Nat)
  | set (buf : List Nat)
  | children (c : Nat) (buf : List Nat) (start : Nat) (acc : List RespFrame)
  | entries (c : Nat) (buf : List Nat) (start : Nat) (acc : List (List Nat × RespFrame))
  | setChildren (c : Nat) (buf : List Nat) (start : Nat) (acc : List RespFrame)

/-- The `decode` family.
* `.frame`: `RespDecoder for RespFrame::decode` — peek at the first byte and
  dispatch; the `$` and `*` arms first try the null decoders and fall
  through to the non-null ones on any error other than `Incomplete` (panics
  propagate);
* `.array` / `.map` / `.set`: the aggregate `decode` impls — validate, parse
  the count header, then run the decode loop from offset `nth_len + 2`;
* `.children`: the array loop — size each child with
  `RespFrame::expect_length(&buf[start..])`, decode it from the exact slice
  `&buf[start..start + frame_len]`, and push it;
* `.entries`: the map loop — key as `SimpleString` (sized by
  `SimpleString::expect_length`), then a value frame, inserted into the
  `BTreeMap`;
* `.setChildren`: the set loop — like the array loop but inserting into the
  `BTreeSet`. -/
def dRun (fm : List Nat → Option (List Nat)) : Nat → DSel → Res RespError RespFrame
  | 0, _ => .panic
  | n + 1, sel =>
    match sel with
    | .frame buf =>
      match buf.head? with
      | some 43 => Res.bind (SimpleString.decode buf) fun s => .ok (.simpleString s)
      | some 45 => Res.bind (SimpleError.decode buf) fun s => .ok (.error s)
      | some 33 => Res.bind (BulkError.decode buf) fun b => .ok (.bulkError b)
      | some 58 => Res.bind (I64.decode buf) fun i => .ok (.integer i)
      | some 36 =>
        match NullBulkString.decode buf with
        | .ok _ => .ok .nullBulkString
        | .err .incomplete => .err .incomplete
        | .err _ => Res.bind (BulkString.decode buf) fun b => .ok (.bulkString b)
        | .panic => .panic
      | some 95 => Res.bind (RespNull.decode buf) fun _ => .ok .null
      | some 35 => Res.bind (Bool.decode buf) fun b => .ok (.boolean b)
      | some 44 => Res.bind (RespDouble.decode fm buf) fun s => .ok (.double s)
      | some 42 =>
        match RespNullArray.decode buf with
        | .ok _ => .ok .nullArray
        | .err .incomplete => .err .incomplete
        | .err _ => dRun fm n (.array buf)
        | .panic => .panic
      | some 37 => dRun fm n (.map buf)
      | some 126 => dRun fm n (.set buf)
      | none => .err .incomplete
      | some _ => .err .invalidFrameType
    | .array buf =>
      Res.bind (validate_frame_data buf 42) fun _ =>
      Res.bind (find_crlf buf 1) fun o =>
      match o with
      | none => .err .incomplete
      | some nth_len =>
        Res.bind (sliceGet buf 1 nth_len) fun hdr =>
        match parse_usize (utf8Lossy hdr) with
        | none => .err .invalid
        | some nth => dRun fm n (.children nth buf (nth_len + 2) [])
    | .map buf =>
      Res.bind (validate_frame_data buf 37) fun _ =>
      Res.bind (find_crlf buf 1) fun o =>
      match o with
      | none => .err .incomplete
      | some nth_len =>
        Res.bind (sliceGet buf 1 nth_len) fun hdr =>
        match parse_usize (utf8Lossy hdr) with
        | none => .err .invalid
        | some nth => dRun fm n (.entries nth buf (nth_len + 2) [])
    | .set buf =>
      Res.bind (validate_frame_data buf 126) fun _ =>
      Res.bind (find_crlf buf 1) fun o =>
      match o with
      | none => .err .incomplete
      | some nth_len =>
        Res.bind (sliceGet buf 1 nth_len) fun hdr =>
        match parse_usize (utf8Lossy hdr) with
        | none => .err .invalid
        | some nth => dRun fm n (.setChildren nth buf (nth_len + 2) [])
    | .children 0 _ _ acc => .ok (.array acc)
    | .children (c + 1) buf start acc =>
      Res.bind (sliceFrom buf start) fun rem =>
      Res.bind (eRun n (.frame rem)) fun frame_len =>
      Res.bind (sliceGet buf start (start + frame_len)) fun sl =>
      Res.bind (dRun fm n (.frame sl)) fun f =>
      dRun fm n (.children c buf (start + frame_len) (acc ++ [f]))
    | .entries 0 _ _ acc => .ok (.map acc)
    | .entries (c + 1) buf start acc =>
      Res.bind (sliceFrom buf start) fun rem =>
      Res.bind (expectLenLine1 rem) fun key_len =>
      Res.bind (sliceGet buf start (start + key_len)) fun ksl =>
      Res.bind (SimpleString.decode ksl) fun key =>
      Res.bind (sliceFrom buf (start + key_len)) fun rem2 =>
      Res.bind (eRun n (.frame rem2)) fun value_len =>
      Res.bind (sliceGet buf (start + key_len) (start + key_len + value_len)) fun vsl =>
      Res.bind (dRun fm n (.frame vsl)) fun value =>
      dRun fm n (.entries c buf (start + key_len + value_len) (RespMap.insert key value acc))
    | .setChildren 0 _ _ acc => .ok (.set acc)
    | .setChildren (c + 1) buf start acc =>
      Res.bind (sliceFrom buf start) fun rem =>
      Res.bind (eRun n (.frame rem)) fun frame_len =>
      Res.bind (sliceGet buf start (start + frame_len)) fun sl =>
      Res.bind (dRun fm n (.frame sl)) fun f =>
      dRun fm n (.setChildren c buf (start + frame_len) (RespSet.insert f acc))

/-- Embedding of `RespDecoder for RespFrame::decode`, with fuel. -/
def RespFrame.decodeF (fm : List Nat → Option (List Nat)) (n : Nat) (buf : List Nat) :
    Res RespError RespFrame :=
  dRun fm n (.frame buf)

/-- Fuel-fixing wrapper for the top-level decoder.  Each level of frame
nesting strictly shrinks the buffer slice passed to `RespFrame::decode`, and
processing one child costs a bounded number of hops, so `2 * buf.length + 4`
fuel is never exhausted on real executions; universal theorems below
quantify over the fuel instead of relying on this bound. -/
def RespFrame.decode (fm : List Nat → Option (List Nat)) (buf : List Nat) :
    Res RespError RespFrame :=
  RespFrame.decodeF fm (2 * buf.length + 4) buf

/-! ## The connection framer (`src/network.rs`) -/

/-- Embedding of `Decoder for RespFrameCodec::decode`.  The RESP decoders
read `src` but never advance it (no `advance`/`split_to` occurs anywhere in
`decode.rs`), so the buffer state after the call equals the input; it is
returned explicitly as the second component so the frame effect on the
buffer is part of the model. -/
def RespFrameCodec.decode (fm : List Nat → Option (List Nat)) (src : List Nat) :
    Res RespError (Option RespFrame × List Nat) :=
  match RespFrame.decode fm src with
  | .ok f => .ok (some f, src)
  | .err .incomplete => .ok (none, src)
  | .err e => .err e
  | .panic => .panic

/-! ## The command layer (`src/cmd/mod.rs`, `src/cmd/map.rs`, `src/cmd/hmap.rs`)

Only the modules declared in `cmd/mod.rs` are compiled into the crate:
`map` (GET/SET) and `hmap` (HGET/HSET/HGETALL, plus the unwired `HMGet`
parser).  `echo.rs` and `set.rs` are not declared as modules and are dead
files; `Echo`, `SAdd` and `SIsMember` are not variants of `Command`. -/

/-- Embedding of `CommandError` (detail strings dropped, as for
`RespError`). -/
inductive CommandError where
  | invalidCommand
  | invalidArguments
  | respError (e : RespError)
  | utf8Error
deriving DecidableEq

/-- Bytes of the lowercase verb `"get"`. -/
def bGET : List Nat := [103, 101, 116]

/-- Bytes of the lowercase verb `"set"`. -/
def bSET : List Nat := [115, 101, 116]

/-- Bytes of the lowercase verb `"hget"`. -/
def bHGET : List Nat := [104, 103, 101, 116]

/-- Bytes of the lowercase verb `"hset"`. -/
def bHSET : List Nat := [104, 115, 101, 116]

/-- Bytes of the lowercase verb `"hgetall"`. -/
def bHGETALL : List Nat := [104, 103, 101, 116, 97, 108, 108]

/-- Bytes of the lowercase verb `"hmget"`. -/
def bHMGET : List Nat := [104, 109, 103, 101, 116]

/-- Bytes of `"OK"` (the `RESP_OK` reply). -/
def bOK : List Nat := [79, 75]

/-- Embedding of `String::from_utf8(bytes)?` in the command parsers, which
propagates as `CommandError::Utf8Error`. -/
def fromUtf8 (b : List Nat) : Res CommandError (List Nat) :=
  if validUtf8 b then .ok b else .err .utf8Error

/-- The key-verification loop of `validate_command`: each expected key must
be matched by an ASCII-lowercased `BulkString` element.  The `[]`-vs-cons
case is the (unreachable after the length check) out-of-bounds index. -/
def validateKeys : List RespFrame → List (List Nat) → Res CommandError Unit
  | _, [] => .ok ()
  | f :: fs, k :: ks =>
    match f with
    | .bulkString c =>
      if toAsciiLower c = k then validateKeys fs ks else .err .invalidCommand
    | _ => .err .invalidCommand
  | [], _ :: _ => .panic

/-- Embedding of `validate_command(frames, keys, n_args)`. -/
def validate_command (frames : List RespFrame) (keys : List (List Nat)) (n_args : Nat) :
    Res CommandError Unit :=
  if frames.length ≠ keys.length + n_args then .err .invalidArguments
  else validateKeys frames keys

/-- Embedding of `Get` (`src/cmd/map.rs`). -/
structure Get where
  key : List Nat

/-- Embedding of `Set` (`src/cmd/map.rs`); named `SetCmd` to avoid clashing
with the Lean `Set`. -/
structure SetCmd where
  key : List Nat
  value : RespFrame

/-- Embedding of `HGet` (`src/cmd/hmap.rs`). -/
structure HGet where
  key : List Nat
  field : List Nat

/-- Embedding of `HSet` (`src/cmd/hmap.rs`). -/
structure HSet where
  key : List Nat
  field : List Nat
  value : RespFrame

/-- Embedding of `HGetAll` (`src/cmd/hmap.rs`). -/
structure HGetAll where
  key : List Nat
  sort : Bool

/-- Embedding of `HMGet` (`src/cmd/hmap.rs`); parsed but not a `Command`
variant. -/
structure HMGet where
  key : List Nat
  fields : List (List Nat)

/-- Embedding of `Command` (`src/cmd/mod.rs`): exactly five variants. -/
inductive Command where
  | get (c : Get)
  | set (c : SetCmd)
  | hget (c : HGet)
  | hset (c : HSet)
  | hgetall (c : HGetAll)

/-- Embedding of `TryFrom<RespArray> for Get`. -/
def Get.tryFrom (arr : List RespFrame) : Res CommandError Get :=
  Res.bind (validate_command arr [bGET] 1) fun _ =>
  if arr.length ≠ 2 then .err .invalidCommand
  else
    match (arr.drop 1).head? with
    | some (.bulkString key) => Res.bind (fromUtf8 key) fun k => .ok ⟨k⟩
    | _ => .err .invalidArguments

/-- Embedding of `TryFrom<RespArray> for Set`. -/
def SetCmd.tryFrom (arr : List RespFrame) : Res CommandError SetCmd :=
  Res.bind (validate_command arr [bSET] 2) fun _ =>
    match arr.drop 1 with
    | .bulkString key :: rest =>
      Res.bind (fromUtf8 key) fun k =>
        match rest.head? with
        | some v => .ok ⟨k, v⟩
        | none => .err .invalidArguments
    | _ => .err .invalidArguments

/-- Embedding of `TryFrom<RespArray> for HGet`. -/
def HGet.tryFrom (arr : List RespFrame) : Res CommandError HGet :=
  Res.bind (validate_command arr [bHGET] 2) fun _ =>
    match arr.drop 1 with
    | .bulkString key :: rest =>
      Res.bind (fromUtf8 key) fun k =>
        match rest with
        | .bulkString f :: _ => Res.bind (fromUtf8 f) fun fd => .ok ⟨k, fd⟩
        | _ => .err .invalidArguments
    | _ => .err .invalidArguments

/-- Embedding of `TryFrom<RespArray> for HSet`. -/
def HSet.tryFrom (arr : List RespFrame) : Res CommandError HSet :=
  Res.bind (validate_command arr [bHSET] 3) fun _ =>
    match arr.drop 1 with
    | .bulkString key :: rest =>
      Res.bind (fromUtf8 key) fun k =>
        match rest with
        | .bulkString f :: rest2 =>
          Res.bind (fromUtf8 f) fun fd =>
            match rest2.head? with
            | some v => .ok ⟨k, fd, v⟩
            | none => .err .invalidArguments
        | _ => .err .invalidArguments
    | _ => .err .invalidArguments

/-- Embedding of `TryFrom<RespArray> for HGetAll`; note `sort: false`. -/
def HGetAll.tryFrom (arr : List RespFrame) : Res CommandError HGetAll :=
  Res.bind (validate_command arr [bHGETALL] 1) fun _ =>
    match (arr.drop 1).head? with
    | some (.bulkString key) => Res.bind (fromUtf8 key) fun k => .ok ⟨k, false⟩
    | _ => .err .invalidArguments

/-- The field-collection loop of `TryFrom<RespArray> for HMGet`: every
remaining element must be a `BulkString` (UTF-8 errors propagate). -/
def hmgetFields : List RespFrame → Res CommandError (List (List Nat))
  | [] => .ok []
  | .bulkString f :: rest =>
    Res.bind (fromUtf8 f) fun s =>
    Res.bind (hmgetFields rest) fun fs => .ok (s :: fs)
  | _ :: _ => .err .invalidArguments

/-- Embedding of `TryFrom<RespArray> for HMGet`.  The call
`validate_command(&arr, &["hmget"], arr_len - 1)` computes `arr_len - 1` in
`usize`, which underflows (panics) on an empty array; its length check
`arr.len() != keys.len() + n_args` is then `arr_len != arr_len` — always
satisfied — so the arity is never restricted. -/
def HMGet.tryFrom (arr : List RespFrame) : Res CommandError HMGet :=
  if arr.length = 0 then .panic
  else
    Res.bind (validate_command arr [bHMGET] (arr.length - 1)) fun _ =>
      match arr.drop 1 with
      | .bulkString key :: rest =>
        Res.bind (fromUtf8 key) fun k =>
        Res.bind (hmgetFields rest) fun fs => .ok ⟨k, fs⟩
      | _ :: _ => .err .invalidArguments
      | [] => .err .invalidArguments

/-- Embedding of `TryFrom<RespArray> for Command`: byte-exact dispatch on
the first element against the five lowercase verbs. -/
def Command.tryFromArray (arr : List RespFrame) : Res CommandError Command :=
  match arr.head? with
  | some (.bulkString cmd) =>
    if cmd = bGET then Res.bind (Get.tryFrom arr) fun c => .ok (.get c)
    else if cmd = bSET then Res.bind (SetCmd.tryFrom arr) fun c => .ok (.set c)
    else if cmd = bHGET then Res.bind (HGet.tryFrom arr) fun c => .ok (.hget c)
    else if cmd = bHSET then Res.bind (HSet.tryFrom arr) fun c => .ok (.hset c)
    else if cmd = bHGETALL then Res.bind (HGetAll.tryFrom arr) fun c => .ok (.hgetall c)
    else .err .invalidCommand
  | _ => .err .invalidCommand

/-- Embedding of `TryFrom<RespFrame> for Command`. -/
def Command.tryFromFrame : RespFrame → Res CommandError Command
  | .array arr => Command.tryFromArray arr
  | _ => .err .invalidCommand

/-! ## The backend store

Modelled from the spec: the crate's `Backend` lives in source files
(`lib.rs`/`backend.rs`) that are not among the provided sources — only its
callers are.  Spec §3.3/§4.6: three independent string-keyed tables; the
hash table of a key is an ordered `field → Frame` mapping, and `hgetall`
returns its entries in deterministic order, sorted by field. -/

/-- Look a key up in an association list. -/
def assocFind {α : Type} (k : List Nat) : List (List Nat × α) → Option α
  | [] => none
  | (k', v) :: rest => if k' = k then some v else assocFind k rest

/-- Insert-or-replace in an association list. -/
def assocPut {α : Type} (k : List Nat) (v : α) :
    List (List Nat × α) → List (List Nat × α)
  | [] => [(k, v)]
  | (k', v') :: rest => if k' = k then (k', v) :: rest else (k', v') :: assocPut k v rest

/-- Modelled from the spec: the `Backend` store (see section comment). -/
structure Backend where
  map : List (List Nat × RespFrame)
  hmap : List (List Nat × List (List Nat × RespFrame))
  setTable : List (List Nat × List RespFrame)

/-- Modelled from the spec: the empty backend (`Backend::new`). -/
def Backend.empty : Backend := ⟨[], [], []⟩

/-- Modelled from the spec: `backend.get(key)`. -/
def Backend.get (b : Backend) (k : List Nat) : Option RespFrame := assocFind k b.map

/-- Modelled from the spec: `backend.set(key, frame)` (unconditional
insert/replace). -/
def Backend.set (b : Backend) (k : List Nat) (v : RespFrame) : Backend :=
  { b with map := assocPut k v b.map }

/-- Modelled from the spec: `backend.hget(key, field)`. -/
def Backend.hget (b : Backend) (k f : List Nat) : Option RespFrame :=
  (assocFind k b.hmap).bind (assocFind f)

/-- Modelled from the spec: `backend.hset(key, field, frame)` — the per-key
table is an ordered mapping, kept field-sorted. -/
def Backend.hset (b : Backend) (k f : List Nat) (v : RespFrame) : Backend :=
  { b with hmap := assocPut k (RespMap.insert f v ((assocFind k b.hmap).getD [])) b.hmap }

/-- Modelled from the spec: `backend.hgetall(key)` returns the ordered view
of the key's hash table (entries sorted by field), or `none` for a missing
key. -/
def Backend.hgetall (b : Backend) (k : List Nat) :
    Option (List (List Nat × RespFrame)) :=
  assocFind k b.hmap

/-! ## Command execution (`src/cmd/map.rs`, `src/cmd/hmap.rs`) -/

/-- Stable insertion used by `sortByKey`. -/
def insertByKey (x : List Nat × RespFrame) :
    List (List Nat × RespFrame) → List (List Nat × RespFrame)
  | [] => [x]
  | y :: ys => if cmpBytes x.1 y.1 = .lt then x :: y :: ys else y :: insertByKey x ys

/-- Embedding of `data.sort_by(|a, b| a.0.cmp(&b.0))` (a stable sort by
key). -/
def sortByKey (l : List (List Nat × RespFrame)) : List (List Nat × RespFrame) :=
  l.foldr insertByKey []

/-- Embedding of `CommandExecutor for Get::execute`. -/
def Get.execute (c : Get) (b : Backend) : RespFrame × Backend :=
  (match b.get c.key with
   | some v => v
   | none => .null, b)

/-- Embedding of `CommandExecutor for Set::execute`. -/
def SetCmd.execute (c : SetCmd) (b : Backend) : RespFrame × Backend :=
  (.simpleString bOK, b.set c.key c.value)

/-- Embedding of `CommandExecutor for HGet::execute`. -/
def HGet.execute (c : HGet) (b : Backend) : RespFrame × Backend :=
  (match b.hget c.key c.field with
   | some v => v
   | none => .null, b)

/-- Embedding of `CommandExecutor for HSet::execute`. -/
def HSet.execute (c : HSet) (b : Backend) : RespFrame × Backend :=
  (.simpleString bOK, b.hset c.key c.field c.value)

/-- Embedding of `CommandExecutor for HGetAll::execute`: collect the entries
of the backend's view, sort them only when `self.sort` is set (it is `false`
on every parsed command), and interleave `[BulkString(field), value]`. -/
def HGetAll.execute (c : HGetAll) (b : Backend) : RespFrame × Backend :=
  (match b.hgetall c.key with
   | some value =>
     let data := if c.sort then sortByKey value else value
     .array (data.map (fun kv => [RespFrame.bulkString kv.1, kv.2])).flatten
   | none => .null, b)

/-- Embedding of `CommandExecutor for Command` (`enum_dispatch`). -/
def Command.execute : Command → Backend → RespFrame × Backend
  | .get c, b => c.execute b
  | .set c, b => c.execute b
  | .hget c, b => c.execute b
  | .hset c, b => c.execute b
  | .hgetall c, b => c.execute b

/-! ## The per-connection loop (`src/network.rs`) -/

/-- Embedding of `frame_handler`: parse the decoded frame into a command
(`?` propagates any `CommandError`) and execute it. -/
def frame_handler (frame : RespFrame) (b : Backend) :
    Res CommandError (RespFrame × Backend) :=
  Res.bind (Command.tryFromFrame frame) fun cmd => .ok (cmd.execute b)

/-- How a connection ends in the model of `process_stream`. -/
inductive ConnOutcome where
  | clean
  | errored (e : CommandError)
  | panicked
deriving DecidableEq

/-- Embedding of the `process_stream` loop over the already-decoded incoming
frames: each successful `frame_handler` result is sent back and the loop
continues; `frame_handler(..)?` propagates an error, which *returns from*
`process_stream` — the loop terminates and nothing is written for the
offending frame. -/
def processFrames : Backend → List RespFrame → List RespFrame × ConnOutcome
  | _, [] => ([], .clean)
  | b, f :: fs =>
    match frame_handler f b with
    | .ok (resp, b') =>
      let r := processFrames b' fs
      (resp :: r.1, r.2)
    | .err e => ([], .errored e)
    | .panic => ([], .panicked)

/-! # Theorems

## Basic lemmas about `Res` -/

@[simp] theorem Res.bind_ok {ε α β : Type} (a : α) (f : α → Res ε β) :
    Res.bind (.ok a) f = f a := rfl

@[simp] theorem Res.bind_err {ε α β : Type} (e : ε) (f : α → Res ε β) :
    Res.bind (.err e) f = .err e := rfl

@[simp] theorem Res.bind_panic {ε α β : Type} (f : α → Res ε β) :
    Res.bind (.panic : Res ε α) f = .panic := rfl

/-! ## The CRLF scanner on structured buffers -/

theorem findCrlfAux_cons10 (nth cnt i : Nat) (t : List Nat) :
    find_crlf.findCrlfAux nth (10 :: t) cnt i = find_crlf.findCrlfAux nth t cnt (i + 1) := by
  cases t with
  | nil => rfl
  | cons x t2 => simp [find_crlf.findCrlfAux]

theorem findCrlfAux_skip (nth cnt : Nat) (s t : List Nat) (hs : noCRLF s = true) (i : Nat) :
    find_crlf.findCrlfAux nth (s ++ 13 :: 10 :: t) cnt i =
      if cnt + 1 = nth then some (i + s.length)
      else find_crlf.findCrlfAux nth (10 :: t) (cnt + 1) (i + s.length + 1) := by
  induction s generalizing i with
  | nil =>
    show find_crlf.findCrlfAux nth (13 :: 10 :: t) cnt i = _
    rw [find_crlf.findCrlfAux]
    rw [if_pos (show ((13 : Nat) == 13 && (10 : Nat) == 10) = true by decide)]
    simp only [beq_iff_eq, List.length_nil, Nat.add_zero]
  | cons a s ih =>
    have hs' : noCRLF s = true := by
      cases s with
      | nil => rfl
      | cons b s2 =>
        simp only [noCRLF, Bool.and_eq_true] at hs
        exact hs.2
    cases s with
    | nil =>
      show find_crlf.findCrlfAux nth (a :: 13 :: 10 :: t) cnt i = _
      rw [find_crlf.findCrlfAux]
      rw [if_neg (by simp)]
      have := ih hs' (i + 1)
      simp only [List.nil_append] at this
      rw [this]
      simp only [List.length_nil, List.length_cons, Nat.add_zero, Nat.zero_add]
    | cons b s2 =>
      show find_crlf.findCrlfAux nth (a :: b :: (s2 ++ 13 :: 10 :: t)) cnt i = _
      rw [find_crlf.findCrlfAux]
      have hab : ¬(a == 13 && b == 10) = true := by
        simp only [noCRLF, Bool.and_eq_true] at hs
        intro hcon
        rw [hcon] at hs
        simp at hs
      rw [if_neg hab]
      have := ih hs' (i + 1)
      simp only [List.cons_append] at this
      rw [this]
      simp only [List.length_cons]
      have e1 : i + 1 + (s2.length + 1) = i + (s2.length + 1 + 1) := by omega
      rw [e1]

theorem find_crlf_first (s t : List Nat) (hs : noCRLF s = true) :
    find_crlf (s ++ 13 :: 10 :: t) 1 = .ok (some s.length) := by
  have hne : ¬ (s ++ 13 :: 10 :: t).isEmpty = true := by simp
  simp only [find_crlf, hne, if_false]
  rw [findCrlfAux_skip 1 0 s t hs 0]
  simp

theorem find_crlf_second (s t u : List Nat) (hs : noCRLF s = true) (ht : noCRLF t = true) :
    find_crlf (s ++ 13 :: 10 :: (t ++ 13 :: 10 :: u)) 2 =
      .ok (some (s.length + 2 + t.length)) := by
  have hne : ¬ (s ++ 13 :: 10 :: (t ++ 13 :: 10 :: u)).isEmpty = true := by simp
  simp only [find_crlf, hne, if_false]
  rw [findCrlfAux_skip 2 0 s _ hs 0]
  rw [if_neg (show ¬(0 + 1 = 2) by omega)]
  rw [findCrlfAux_cons10]
  rw [findCrlfAux_skip 2 1 t u ht (0 + s.length + 1 + 1)]
  rw [if_pos (show 1 + 1 = 2 from by omega)]
  have : 0 + s.length + 1 + 1 + t.length = s.length + 2 + t.length := by omega
  rw [this]
  simp

/-! ## Decimal digits -/

theorem natDigitsAux_bounds (fuel n : Nat) :
    ∀ d ∈ natDigitsAux fuel n, 48 ≤ d ∧ d ≤ 57 := by
  induction fuel generalizing n with
  | zero => simp [natDigitsAux]
  | succ f ih =>
    cases n with
    | zero => simp [natDigitsAux]
    | succ m =>
      simp only [natDigitsAux, List.mem_append, List.mem_singleton]
      rintro d (hd | rfl)
      · exact ih _ d hd
      · have := Nat.mod_lt (m + 1) (y := 10) (by omega)
        omega

theorem natDigitsAux_ne_nil (fuel n : Nat) (h1 : 1 ≤ n) (h2 : n ≤ fuel) :
    natDigitsAux fuel n ≠ [] := by
  cases fuel with
  | zero => omega
  | succ f =>
    cases n with
    | zero => omega
    | succ m => simp [natDigitsAux]

theorem digitsVal_append_singleton (l : List Nat) (d : Nat) :
    digitsVal (l ++ [d]) = 10 * digitsVal l + (d - 48) := by
  simp [digitsVal, List.foldl_append]

theorem digitsVal_natDigitsAux (fuel n : Nat) (h : n ≤ fuel) :
    digitsVal (natDigitsAux fuel n) = n := by
  induction fuel generalizing n with
  | zero =>
    have : n = 0 := by omega
    simp [this, natDigitsAux, digitsVal]
  | succ f ih =>
    cases n with
    | zero => simp [natDigitsAux, digitsVal]
    | succ m =>
      simp only [natDigitsAux]
      rw [digitsVal_append_singleton]
      rw [ih _ (by have := Nat.div_lt_self (n := m + 1) (by omega) (by omega : 1 < 10); omega)]
      have := Nat.div_add_mod (m + 1) 10
      omega

theorem natToDigitBytes_bounds (n : Nat) :
    ∀ d ∈ natToDigitBytes n, 48 ≤ d ∧ d ≤ 57 := by
  unfold natToDigitBytes
  split
  · simp
  · exact natDigitsAux_bounds n n

theorem natToDigitBytes_ne_nil (n : Nat) : natToDigitBytes n ≠ [] := by
  unfold natToDigitBytes
  split
  · simp
  · exact natDigitsAux_ne_nil n n (by omega) le_rfl

theorem parseDigits?_natToDigitBytes (n : Nat) :
    parseDigits? (natToDigitBytes n) = some n := by
  unfold parseDigits?
  rw [if_pos]
  · congr 1
    unfold natToDigitBytes
    split
    · simp [digitsVal]; omega
    · exact digitsVal_natDigitsAux n n le_rfl
  · refine ⟨natToDigitBytes_ne_nil n, ?_⟩
    rw [List.all_eq_true]
    intro d hd
    have := natToDigitBytes_bounds n d hd
    simp [isDigit]; omega

theorem natToDigitBytes_head (n : Nat) :
    ∃ d ds, natToDigitBytes n = d :: ds ∧ 48 ≤ d ∧ d ≤ 57 := by
  rcases hx : natToDigitBytes n with _ | ⟨d, ds⟩
  · exact absurd hx (natToDigitBytes_ne_nil n)
  · refine ⟨d, ds, rfl, ?_⟩
    have := natToDigitBytes_bounds n d (by rw [hx]; exact List.mem_cons_self _ _)
    exact this

theorem parse_usize_cons_of_ne (d : Nat) (ds : List Nat) (h : ¬ d = 43) :
    parse_usize (d :: ds) =
      (parseDigits? (d :: ds)).bind fun v => if v < 2 ^ 64 then some v else none := by
  unfold parse_usize
  split
  · rename_i heq
    injection heq with h1 h2
    omega
  · rfl

theorem parse_usize_natToDigitBytes (n : Nat) (h : n < 2 ^ 64) :
    parse_usize (natToDigitBytes n) = some n := by
  obtain ⟨d, ds, hds, hd1, hd2⟩ := natToDigitBytes_head n
  rw [hds, parse_usize_cons_of_ne d ds (by omega), ← hds,
    parseDigits?_natToDigitBytes n]
  have h' : n < 18446744073709551616 := by
    have : (2 : Nat) ^ 64 = 18446744073709551616 := by norm_num
    omega
  simp [Option.bind, h']

/-! ## UTF-8 lossy decoding -/

theorem utf8LossyF_of_valid (fuel : Nat) (l : List Nat) (h : validUtf8F fuel l = true) :
    utf8LossyF fuel l = l := by
  induction fuel generalizing l with
  | zero =>
    simp only [validUtf8F, List.isEmpty_eq_true] at h
    simp [h, utf8LossyF]
  | succ f ih =>
    cases l with
    | nil => rfl
    | cons b rest =>
      cases hs : utf8Step (b :: rest) with
      | valid k =>
        have h' : validUtf8F f (List.drop k (b :: rest)) = true := by
          simpa only [validUtf8F, hs] using h
        simp only [utf8LossyF, hs]
        rw [ih _ h', List.take_append_drop]
      | invalid e =>
        simp only [validUtf8F, hs] at h
        simp at h

theorem utf8Lossy_of_valid (l : List Nat) (h : validUtf8 l = true) :
    utf8Lossy l = l :=
  utf8LossyF_of_valid l.length l h

theorem validUtf8F_of_ascii (fuel : Nat) (l : List Nat)
    (hl : ∀ b ∈ l, b < 128) (hf : l.length ≤ fuel) : validUtf8F fuel l = true := by
  induction fuel generalizing l with
  | zero =>
    cases l with
    | nil => rfl
    | cons b rest => simp at hf
  | succ f ih =>
    cases l with
    | nil => rfl
    | cons b rest =>
      have hb : b < 128 := hl b (List.mem_cons_self _ _)
      simp only [validUtf8F, utf8Step, if_pos hb]
      exact ih rest (fun x hx => hl x (List.mem_cons_of_mem _ hx))
        (by simp only [List.length_cons] at hf; omega)

theorem validUtf8_of_ascii (l : List Nat) (hl : ∀ b ∈ l, b < 128) :
    validUtf8 l = true :=
  validUtf8F_of_ascii l.length l hl le_rfl

theorem utf8Lossy_ascii (l : List Nat) (hl : ∀ b ∈ l, b < 128) :
    utf8Lossy l = l :=
  utf8Lossy_of_valid l (validUtf8_of_ascii l hl)

/-! ## The total frame order: reflexivity, antisymmetry, transitivity -/

theorem linCompare_swap {α : Type} [LinearOrder α] (a b : α) :
    compare a b = (compare b a).swap := by
  rcases lt_trichotomy a b with h | h | h
  · rw [compare_lt_iff_lt.mpr h, compare_gt_iff_gt.mpr h]; rfl
  · subst h; rw [compare_eq_iff_eq.mpr rfl]; rfl
  · rw [compare_lt_iff_lt.mpr h, compare_gt_iff_gt.mpr h]; rfl

theorem linCompare_trans {α : Type} [LinearOrder α] (a b c : α)
    (h1 : compare a b = .lt) (h2 : compare b c = .lt) : compare a c = .lt :=
  compare_lt_iff_lt.mpr (lt_trans (compare_lt_iff_lt.mp h1) (compare_lt_iff_lt.mp h2))

theorem boolCompare_swap (a b : Bool) : compare a b = (compare b a).swap := by
  cases a <;> cases b <;> rfl

theorem boolCompare_trans (a b c : Bool) (h1 : compare a b = .lt)
    (h2 : compare b c = .lt) : compare a c = .lt := by
  cases a <;> cases b <;> cases c <;> simp_all

theorem boolCompare_eq_iff (a b : Bool) : compare a b = .eq ↔ a = b := by
  cases a <;> cases b <;> simp <;> rfl

theorem cmpBytes_refl (l : List Nat) : cmpBytes l l = .eq := by
  induction l with
  | nil => rfl
  | cons a as ih =>
    show (match compare a a with | .eq => cmpBytes as as | o => o) = .eq
    rw [compare_eq_iff_eq.mpr rfl]
    exact ih

theorem cmpBytes_swap (l1 l2 : List Nat) : cmpBytes l1 l2 = (cmpBytes l2 l1).swap := by
  induction l1 generalizing l2 with
  | nil => cases l2 <;> rfl
  | cons a as ih =>
    cases l2 with
    | nil => rfl
    | cons b bs =>
      show (match compare a b with | .eq => cmpBytes as bs | o => o) =
        (match compare b a with | .eq => cmpBytes bs as | o => o).swap
      rw [linCompare_swap a b]
      rcases h : compare b a with _ | _ | _
      · rfl
      · exact ih bs
      · rfl

theorem cmpBytes_eq_iff (l1 l2 : List Nat) : cmpBytes l1 l2 = .eq ↔ l1 = l2 := by
  induction l1 generalizing l2 with
  | nil => cases l2 <;> simp [cmpBytes]
  | cons a as ih =>
    cases l2 with
    | nil => simp [cmpBytes]
    | cons b bs =>
      show (match compare a b with | .eq => cmpBytes as bs | o => o) = .eq ↔ _
      rcases h : compare a b with _ | _ | _
      · simp only [List.cons.injEq]
        constructor
        · intro hcon; exact absurd hcon (by simp)
        · rintro ⟨rfl, _⟩
          rw [compare_eq_iff_eq.mpr rfl] at h
          exact absurd h (by simp)
      · have hab : a = b := compare_eq_iff_eq.mp h
        subst hab
        simp only [List.cons.injEq, true_and]
        exact ih bs
      · simp only [List.cons.injEq]
        constructor
        · intro hcon; exact absurd hcon (by simp)
        · rintro ⟨rfl, _⟩
          rw [compare_eq_iff_eq.mpr rfl] at h
          exact absurd h (by simp)

theorem cmpBytes_trans (l1 l2 l3 : List Nat) (h1 : cmpBytes l1 l2 = .lt)
    (h2 : cmpBytes l2 l3 = .lt) : cmpBytes l1 l3 = .lt := by
  induction l1 generalizing l2 l3 with
  | nil =>
    cases l2 with
    | nil => exact absurd h1 (by simp [cmpBytes])
    | cons b bs =>
      cases l3 with
      | nil => exact absurd h2 (by simp [cmpBytes])
      | cons c cs => rfl
  | cons a as ih =>
    cases l2 with
    | nil => exact absurd h1 (by simp [cmpBytes])
    | cons b bs =>
      cases l3 with
      | nil => exact absurd h2 (by simp [cmpBytes])
      | cons c cs =>
        rw [show cmpBytes (a :: as) (b :: bs) =
          (match compare a b with | .eq => cmpBytes as bs | o => o) from rfl] at h1
        rw [show cmpBytes (b :: bs) (c :: cs) =
          (match compare b c with | .eq => cmpBytes bs cs | o => o) from rfl] at h2
        show (match compare a c with | .eq => cmpBytes as cs | o => o) = .lt
        rcases hab : compare a b with _ | _ | _ <;> rw [hab] at h1
        · rcases hbc : compare b c with _ | _ | _ <;> rw [hbc] at h2
          · rw [linCompare_trans a b c hab hbc]
          · have : b = c := compare_eq_iff_eq.mp hbc
            subst this
            rw [hab]
          · exact absurd h2 (by simp)
        · have : a = b := compare_eq_iff_eq.mp hab
          subst this
          rcases hbc : compare a c with _ | _ | _
          · rfl
          · rw [hbc] at h2
            exact ih bs cs h1 h2
          · rw [hbc] at h2
            exact absurd h2 (by simp)
        · exact absurd h1 (by simp)

mutual

theorem cmpFrame_refl : ∀ f : RespFrame, cmpFrame f f = .eq
  | .simpleString s => cmpBytes_refl s
  | .error s => cmpBytes_refl s
  | .bulkError b => cmpBytes_refl b
  | .integer _ => compare_eq_iff_eq.mpr rfl
  | .bulkString b => cmpBytes_refl b
  | .nullBulkString => rfl
  | .array l => cmpFrames_refl l
  | .nullArray => rfl
  | .null => rfl
  | .boolean b => by cases b <;> rfl
  | .double s => cmpBytes_refl s
  | .map m => cmpEntries_refl m
  | .set s => cmpFrames_refl s

theorem cmpFrames_refl : ∀ l : List RespFrame, cmpFrames l l = .eq
  | [] => rfl
  | f :: fs => by
    show (match cmpFrame f f with | .eq => cmpFrames fs fs | o => o) = .eq
    rw [cmpFrame_refl f]
    exact cmpFrames_refl fs

theorem cmpEntries_refl : ∀ m : List (List Nat × RespFrame), cmpEntries m m = .eq
  | [] => rfl
  | (k, v) :: rest => by
    show (match cmpBytes k k with
          | .eq => match cmpFrame v v with | .eq => cmpEntries rest rest | o => o
          | o => o) = .eq
    rw [cmpBytes_refl k, cmpFrame_refl v]
    exact cmpEntries_refl rest

end

mutual

theorem cmpFrame_swap : ∀ a b : RespFrame, cmpFrame a b = (cmpFrame b a).swap
  | .simpleString x, .simpleString y => cmpBytes_swap x y
  | .error x, .error y => cmpBytes_swap x y
  | .bulkError x, .bulkError y => cmpBytes_swap x y
  | .integer x, .integer y => linCompare_swap x y
  | .bulkString x, .bulkString y => cmpBytes_swap x y
  | .boolean x, .boolean y => boolCompare_swap x y
  | .double x, .double y => cmpBytes_swap x y
  | .array x, .array y => cmpFrames_swap x y
  | .map x, .map y => cmpEntries_swap x y
  | .set x, .set y => cmpFrames_swap x y
  | .nullBulkString, .nullBulkString => rfl
  | .nullArray, .nullArray => rfl
  | .null, .null => rfl
  | .simpleString _, .error _ => rfl
  | a, b => by
    cases a <;> cases b <;> first
      | rfl
      | exact cmpBytes_swap _ _
      | exact linCompare_swap _ _
      | exact boolCompare_swap _ _
      | exact cmpFrames_swap _ _
      | exact cmpEntries_swap _ _

theorem cmpFrames_swap : ∀ l1 l2 : List RespFrame, cmpFrames l1 l2 = (cmpFrames l2 l1).swap
  | [], [] => rfl
  | [], _ :: _ => rfl
  | _ :: _, [] => rfl
  | a :: as, b :: bs => by
    show (match cmpFrame a b with | .eq => cmpFrames as bs | o => o) =
      (match cmpFrame b a with | .eq => cmpFrames bs as | o => o).swap
    rw [cmpFrame_swap a b]
    rcases cmpFrame b a with _ | _ | _
    · rfl
    · exact cmpFrames_swap as bs
    · rfl

theorem cmpEntries_swap : ∀ m1 m2 : List (List Nat × RespFrame),
    cmpEntries m1 m2 = (cmpEntries m2 m1).swap
  | [], [] => rfl
  | [], _ :: _ => rfl
  | _ :: _, [] => rfl
  | (k1, v1) :: as, (k2, v2) :: bs => by
    show (match cmpBytes k1 k2 with
          | .eq => match cmpFrame v1 v2 with | .eq => cmpEntries as bs | o => o
          | o => o) =
      (match cmpBytes k2 k1 with
          | .eq => match cmpFrame v2 v1 with | .eq => cmpEntries bs as | o => o
          | o => o).swap
    rw [cmpBytes_swap k1 k2]
    rcases cmpBytes k2 k1 with _ | _ | _
    · rfl
    · rw [cmpFrame_swap v1 v2]
      rcases cmpFrame v2 v1 with _ | _ | _
      · rfl
      · exact cmpEntries_swap as bs
      · rfl
    · rfl

end

theorem cmpFrame_tag_ne (a b : RespFrame) (h : a.tag ≠ b.tag) :
    cmpFrame a b = compare a.tag b.tag := by
  cases a <;> cases b <;> first | rfl | exact absurd rfl h

theorem cmpFrame_lt_tag_le (a b : RespFrame) (h : cmpFrame a b = .lt) :
    a.tag ≤ b.tag := by
  by_contra hgt
  push_neg at hgt
  rw [cmpFrame_tag_ne a b (by omega)] at h
  rw [compare_gt_iff_gt.mpr hgt] at h
  exact absurd h (by simp)

theorem cmpFrame_lt_of_tag_lt (a b : RespFrame) (h : a.tag < b.tag) :
    cmpFrame a b = .lt := by
  rw [cmpFrame_tag_ne a b (by omega)]
  exact compare_lt_iff_lt.mpr h

theorem cmpFrame_eq_tag_eq (a b : RespFrame) (h : cmpFrame a b = .eq) :
    a.tag = b.tag := by
  by_contra hne
  rw [cmpFrame_tag_ne a b hne] at h
  rcases Nat.lt_trichotomy a.tag b.tag with hlt | heq | hgt
  · rw [compare_lt_iff_lt.mpr hlt] at h
    exact absurd h (by simp)
  · exact hne heq
  · rw [compare_gt_iff_gt.mpr hgt] at h
    exact absurd h (by simp)

mutual

theorem cmpFrame_eq_iff : ∀ a b : RespFrame, cmpFrame a b = .eq ↔ a = b := fun a b => by
  cases a <;> cases b <;>
    first
    | exact ⟨fun h => absurd (cmpFrame_eq_tag_eq _ _ h) (by simp [RespFrame.tag]),
        fun h => RespFrame.noConfusion h⟩
    | exact ⟨fun _ => rfl, fun _ => cmpFrame_refl _⟩
    | exact ⟨fun h => by rw [(cmpBytes_eq_iff _ _).mp h],
        fun h => by cases h; exact cmpFrame_refl _⟩
    | exact ⟨fun h => by rw [compare_eq_iff_eq.mp h],
        fun h => by cases h; exact cmpFrame_refl _⟩
    | exact ⟨fun h => by rw [(boolCompare_eq_iff _ _).mp h],
        fun h => by cases h; exact cmpFrame_refl _⟩
    | exact ⟨fun h => by rw [(cmpFrames_eq_iff _ _).mp h],
        fun h => by cases h; exact cmpFrame_refl _⟩
    | exact ⟨fun h => by rw [(cmpEntries_eq_iff _ _).mp h],
        fun h => by cases h; exact cmpFrame_refl _⟩

theorem cmpFrames_eq_iff : ∀ l1 l2 : List RespFrame, cmpFrames l1 l2 = .eq ↔ l1 = l2
  | [], [] => by simp [cmpFrames]
  | [], _ :: _ => by simp [cmpFrames]
  | _ :: _, [] => by simp [cmpFrames]
  | a :: as, b :: bs => by
    show (match cmpFrame a b with | .eq => cmpFrames as bs | o => o) = .eq ↔ _
    rcases h : cmpFrame a b with _ | _ | _
    · constructor
      · intro hcon; exact absurd hcon (by simp)
      · rintro ⟨rfl, _⟩
        rw [cmpFrame_refl a] at h
        exact absurd h (by simp)
    · have hab : a = b := (cmpFrame_eq_iff a b).mp h
      subst hab
      simp only [List.cons.injEq, true_and]
      exact cmpFrames_eq_iff as bs
    · constructor
      · intro hcon; exact absurd hcon (by simp)
      · rintro ⟨rfl, _⟩
        rw [cmpFrame_refl a] at h
        exact absurd h (by simp)

theorem cmpEntries_eq_iff : ∀ m1 m2 : List (List Nat × RespFrame),
    cmpEntries m1 m2 = .eq ↔ m1 = m2
  | [], [] => by simp [cmpEntries]
  | [], _ :: _ => by simp [cmpEntries]
  | _ :: _, [] => by simp [cmpEntries]
  | (k1, v1) :: as, (k2, v2) :: bs => by
    show (match cmpBytes k1 k2 with
          | .eq => match cmpFrame v1 v2 with | .eq => cmpEntries as bs | o => o
          | o => o) = .eq ↔ _
    rcases hk : cmpBytes k1 k2 with _ | _ | _
    · constructor
      · intro hcon; exact absurd hcon (by simp)
      · rintro ⟨⟨rfl, _⟩, _⟩
        rw [cmpBytes_refl k1] at hk
        exact absurd hk (by simp)
    · have hkk : k1 = k2 := (cmpBytes_eq_iff k1 k2).mp hk
      subst hkk
      rcases hv : cmpFrame v1 v2 with _ | _ | _
      · constructor
        · intro hcon; exact absurd hcon (by simp)
        · rintro ⟨⟨_, rfl⟩, _⟩
          rw [cmpFrame_refl v1] at hv
          exact absurd hv (by simp)
      · have hvv : v1 = v2 := (cmpFrame_eq_iff v1 v2).mp hv
        subst hvv
        simp only [List.cons.injEq, Prod.mk.injEq, true_and]
        exact cmpEntries_eq_iff as bs
      · constructor
        · intro hcon; exact absurd hcon (by simp)
        · rintro ⟨⟨_, rfl⟩, _⟩
          rw [cmpFrame_refl v1] at hv
          exact absurd hv (by simp)
    · constructor
      · intro hcon; exact absurd hcon (by simp)
      · rintro ⟨⟨rfl, _⟩, _⟩
        rw [cmpBytes_refl k1] at hk
        exact absurd hk (by simp)

end

mutual

theorem cmpFrame_trans : ∀ a b c : RespFrame,
    cmpFrame a b = .lt → cmpFrame b c = .lt → cmpFrame a c = .lt :=
  fun a b c hab hbc => by
  have t1 := cmpFrame_lt_tag_le a b hab
  have t2 := cmpFrame_lt_tag_le b c hbc
  rcases Nat.lt_or_ge a.tag c.tag with h | h
  · exact cmpFrame_lt_of_tag_lt a c h
  · have e1 : a.tag = b.tag := by omega
    have e2 : b.tag = c.tag := by omega
    clear t1 t2 h
    cases a <;> cases b <;> (try simp [RespFrame.tag] at e1) <;>
      cases c <;> (try simp [RespFrame.tag] at e2) <;>
      first
      | exact cmpBytes_trans _ _ _ hab hbc
      | exact linCompare_trans _ _ _ hab hbc
      | exact boolCompare_trans _ _ _ hab hbc
      | exact cmpFrames_trans _ _ _ hab hbc
      | exact cmpEntries_trans _ _ _ hab hbc
      | exact nomatch hab

theorem cmpFrames_trans : ∀ l1 l2 l3 : List RespFrame,
    cmpFrames l1 l2 = .lt → cmpFrames l2 l3 = .lt → cmpFrames l1 l3 = .lt
  | [], l2, l3 => fun h1 h2 => by
    cases l2 with
    | nil => exact absurd h1 (by simp [cmpFrames])
    | cons b bs =>
      cases l3 with
      | nil => exact absurd h2 (by simp [cmpFrames])
      | cons c cs => rfl
  | _ :: _, [], _ => fun h1 _ => absurd h1 (by simp [cmpFrames])
  | _ :: _, _ :: _, [] => fun _ h2 => absurd h2 (by simp [cmpFrames])
  | a :: as, b :: bs, c :: cs => fun h1 h2 => by
    rw [show cmpFrames (a :: as) (b :: bs) =
      (match cmpFrame a b with | .eq => cmpFrames as bs | o => o) from rfl] at h1
    rw [show cmpFrames (b :: bs) (c :: cs) =
      (match cmpFrame b c with | .eq => cmpFrames bs cs | o => o) from rfl] at h2
    show (match cmpFrame a c with | .eq => cmpFrames as cs | o => o) = .lt
    rcases hab : cmpFrame a b with _ | _ | _ <;> rw [hab] at h1
    · rcases hbc : cmpFrame b c with _ | _ | _ <;> rw [hbc] at h2
      · rw [cmpFrame_trans a b c hab hbc]
      · have : b = c := (cmpFrame_eq_iff b c).mp hbc
        subst this
        rw [hab]
      · exact absurd h2 (by simp)
    · have : a = b := (cmpFrame_eq_iff a b).mp hab
      subst this
      rcases hbc : cmpFrame a c with _ | _ | _
      · rfl
      · rw [hbc] at h2
        exact cmpFrames_trans as bs cs h1 h2
      · rw [hbc] at h2
        exact absurd h2 (by simp)
    · exact absurd h1 (by simp)

theorem cmpEntries_trans : ∀ m1 m2 m3 : List (List Nat × RespFrame),
    cmpEntries m1 m2 = .lt → cmpEntries m2 m3 = .lt → cmpEntries m1 m3 = .lt
  | [], m2, m3 => fun h1 h2 => by
    cases m2 with
    | nil => exact absurd h1 (by simp [cmpEntries])
    | cons b bs =>
      cases m3 with
      | nil => exact absurd h2 (by simp [cmpEntries])
      | cons c cs =>
        cases b; cases c
        rfl
  | _ :: _, [], _ => fun h1 _ => absurd h1 (by simp [cmpEntries])
  | x :: _, y :: _, [] => fun _ h2 => by
    cases x; cases y
    exact absurd h2 (by simp [cmpEntries])
  | (k1, v1) :: r1, (k2, v2) :: r2, (k3, v3) :: r3 => fun h1 h2 => by
    rw [show cmpEntries ((k1, v1) :: r1) ((k2, v2) :: r2) =
      (match cmpBytes k1 k2 with
       | .eq => match cmpFrame v1 v2 with | .eq => cmpEntries r1 r2 | o => o
       | o => o) from rfl] at h1
    rw [show cmpEntries ((k2, v2) :: r2) ((k3, v3) :: r3) =
      (match cmpBytes k2 k3 with
       | .eq => match cmpFrame v2 v3 with | .eq => cmpEntries r2 r3 | o => o
       | o => o) from rfl] at h2
    show (match cmpBytes k1 k3 with
          | .eq => match cmpFrame v1 v3 with | .eq => cmpEntries r1 r3 | o => o
          | o => o) = .lt
    rcases hk12 : cmpBytes k1 k2 with _ | _ | _ <;> rw [hk12] at h1
    · rcases hk23 : cmpBytes k2 k3 with _ | _ | _ <;> rw [hk23] at h2
      · rw [cmpBytes_trans k1 k2 k3 hk12 hk23]
      · have : k2 = k3 := (cmpBytes_eq_iff k2 k3).mp hk23
        subst this
        rw [hk12]
      · exact absurd h2 (by simp)
    · have : k1 = k2 := (cmpBytes_eq_iff k1 k2).mp hk12
      subst this
      rcases hk23 : cmpBytes k1 k3 with _ | _ | _
      · rfl
      · rw [hk23] at h2
        rcases hv12 : cmpFrame v1 v2 with _ | _ | _ <;> rw [hv12] at h1
        · rcases hv23 : cmpFrame v2 v3 with _ | _ | _ <;> rw [hv23] at h2
          · rw [cmpFrame_trans v1 v2 v3 hv12 hv23]
          · have : v2 = v3 := (cmpFrame_eq_iff v2 v3).mp hv23
            subst this
            rw [hv12]
          · exact absurd h2 (by simp)
        · have : v1 = v2 := (cmpFrame_eq_iff v1 v2).mp hv12
          subst this
          rcases hv23 : cmpFrame v1 v3 with _ | _ | _
          · rfl
          · rw [hv23] at h2
            exact cmpEntries_trans r1 r2 r3 h1 h2
          · rw [hv23] at h2
            exact absurd h2 (by simp)
        · exact absurd h1 (by simp)
      · rw [hk23] at h2
        exact absurd h2 (by simp)
    · exact absurd h1 (by simp)

end

/-! ## Sorted-insert lemmas for the ordered containers -/

theorem respSet_mem_insert (x z : RespFrame) (l : List RespFrame)
    (h : z ∈ RespSet.insert x l) : z = x ∨ z ∈ l := by
  induction l with
  | nil =>
    simp [RespSet.insert] at h
    exact Or.inl h
  | cons y ys ih =>
    rcases hc : cmpFrame x y with _ | _ | _ <;> simp [RespSet.insert, hc] at h
    · rcases h with h | h | h
      · exact Or.inl h
      · exact Or.inr (by simp [h])
      · exact Or.inr (by simp [h])
    · rcases h with h | h
      · exact Or.inr (by simp [h])
      · exact Or.inr (by simp [h])
    · rcases h with h | h
      · exact Or.inr (by simp [h])
      · rcases ih h with h' | h'
        · exact Or.inl h'
        · exact Or.inr (by simp [h'])

theorem RespSet.insert_pairwise (x : RespFrame) (l : List RespFrame)
    (hl : l.Pairwise (fun a b => cmpFrame a b = .lt)) :
    (RespSet.insert x l).Pairwise (fun a b => cmpFrame a b = .lt) := by
  induction l with
  | nil => simp [RespSet.insert]
  | cons y ys ih =>
    rw [List.pairwise_cons] at hl
    obtain ⟨hy, hys⟩ := hl
    rcases hc : cmpFrame x y with _ | _ | _ <;> simp only [RespSet.insert, hc]
    · rw [List.pairwise_cons]
      refine ⟨?_, by rw [List.pairwise_cons]; exact ⟨hy, hys⟩⟩
      intro z hz
      rcases List.mem_cons.mp hz with heq | hz'
      · subst heq; exact hc
      · exact cmpFrame_trans x y z hc (hy z hz')
    · rw [List.pairwise_cons]
      exact ⟨hy, hys⟩
    · rw [List.pairwise_cons]
      refine ⟨?_, ih hys⟩
      intro z hz
      rcases respSet_mem_insert x z ys hz with heq | hz'
      · subst heq
        rw [cmpFrame_swap y z, hc]
        rfl
      · exact hy z hz'

theorem respSet_insert_append (x : RespFrame) (l : List RespFrame)
    (h : ∀ y ∈ l, cmpFrame y x = .lt) : RespSet.insert x l = l ++ [x] := by
  induction l with
  | nil => rfl
  | cons y ys ih =>
    have hxy : cmpFrame x y = .gt := by
      rw [cmpFrame_swap x y, h y (List.mem_cons_self _ _)]
      rfl
    show (match cmpFrame x y with
          | .lt => x :: y :: ys
          | .eq => y :: ys
          | .gt => y :: RespSet.insert x ys) = _
    rw [hxy]
    rw [ih (fun z hz => h z (List.mem_cons_of_mem _ hz))]
    rfl

theorem pairwiseLt_nodup (l : List RespFrame)
    (h : l.Pairwise (fun a b => cmpFrame a b = .lt)) : l.Nodup := by
  refine h.imp ?_
  intro a b hab
  intro heq
  subst heq
  rw [cmpFrame_refl a] at hab
  exact absurd hab (by simp)

theorem respMap_insert_append (k : List Nat) (v : RespFrame)
    (l : List (List Nat × RespFrame))
    (h : ∀ kv ∈ l, cmpBytes kv.1 k = .lt) : RespMap.insert k v l = l ++ [(k, v)] := by
  induction l with
  | nil => rfl
  | cons y ys ih =>
    obtain ⟨k', v'⟩ := y
    have hk : cmpBytes k k' = .gt := by
      rw [cmpBytes_swap k k', h (k', v') (List.mem_cons_self _ _)]
      rfl
    show (match cmpBytes k k' with
          | .lt => (k, v) :: (k', v') :: ys
          | .eq => (k', v) :: ys
          | .gt => (k', v') :: RespMap.insert k v ys) = _
    rw [hk]
    rw [ih (fun z hz => h z (List.mem_cons_of_mem _ hz))]
    rfl

/-! ## Structured-buffer computation lemmas for the scanner and leaf decoders -/

theorem noCRLF_of_no13 (l : List Nat) (h : ∀ b ∈ l, b ≠ 13) : noCRLF l = true := by
  induction l with
  | nil => rfl
  | cons a t ih =>
    cases t with
    | nil => rfl
    | cons b t2 =>
      show (!(a == 13 && b == 10) && noCRLF (b :: t2)) = true
      rw [ih (fun x hx => h x (List.mem_cons_of_mem _ hx))]
      have ha : a ≠ 13 := h a (List.mem_cons_self _ _)
      simp [ha]

theorem noCRLF_cons_of_ne (b : Nat) (s : List Nat) (hb : b ≠ 13)
    (hs : noCRLF s = true) : noCRLF (b :: s) = true := by
  cases s with
  | nil => rfl
  | cons c s2 =>
    show (!(b == 13 && c == 10) && noCRLF (c :: s2)) = true
    rw [hs]
    simp [hb]

theorem digits_no13 (n : Nat) : ∀ b ∈ natToDigitBytes n, b ≠ 13 := by
  intro b hb
  have := natToDigitBytes_bounds n b hb
  omega

theorem digits_ascii (n : Nat) : ∀ b ∈ natToDigitBytes n, b < 128 := by
  intro b hb
  have := natToDigitBytes_bounds n b hb
  omega

theorem validate_ok (x : Nat) (mid : List Nat) :
    validate_frame_data (x :: (mid ++ [13, 10])) x = .ok () := by
  unfold validate_frame_data
  rw [if_neg (by simp)]
  rw [if_neg (by simp)]
  rw [if_neg ?_]
  have hl : (x :: (mid ++ [13, 10])).length - 2 = mid.length + 1 := by simp
  rw [hl]
  show ¬ (mid ++ [13, 10]).drop mid.length ≠ [13, 10]
  rw [List.drop_left]
  simp

theorem lineData_calc (x : Nat) (mid : List Nat) :
    lineData (x :: (mid ++ [13, 10])) = mid := by
  unfold lineData
  have hl : (x :: (mid ++ [13, 10])).length - 3 = mid.length := by simp
  rw [hl]
  show (mid ++ [13, 10]).take mid.length = mid
  rw [List.take_left]

theorem sliceFrom_calc (a b : List Nat) : sliceFrom (a ++ b) a.length = .ok b := by
  unfold sliceFrom
  rw [if_pos (by simp)]
  rw [List.drop_left]

theorem sliceGet_mid (a b c : List Nat) :
    sliceGet (a ++ (b ++ c)) a.length (a.length + b.length) = .ok b := by
  unfold sliceGet
  rw [if_pos (by constructor <;> simp)]
  rw [List.drop_left]
  have : a.length + b.length - a.length = b.length := by omega
  rw [this, List.take_left]

theorem sliceGet_all (l : List Nat) : sliceGet l 0 l.length = .ok l := by
  unfold sliceGet
  rw [if_pos (by omega)]
  simp

theorem expectLenLine1_calc (s rest : List Nat) (hs : noCRLF s = true) :
    expectLenLine1 (s ++ 13 :: 10 :: rest) = .ok (s.length + 2) := by
  unfold expectLenLine1
  rw [find_crlf_first s rest hs]
  rfl

theorem expectLenLine2_calc (s t rest : List Nat) (hs : noCRLF s = true)
    (ht : noCRLF t = true) :
    expectLenLine2 (s ++ 13 :: 10 :: (t ++ 13 :: 10 :: rest)) =
      .ok (s.length + 2 + t.length + 2) := by
  unfold expectLenLine2
  rw [find_crlf_second s t rest hs ht]
  rfl

theorem parse_i64_pos (v : Nat) (h : v ≤ 2 ^ 63 - 1) :
    parse_i64 (43 :: natToDigitBytes v) = some v := by
  show (parseDigits? (natToDigitBytes v)).bind
    (fun w => if w ≤ 2 ^ 63 - 1 then some (Int.ofNat w) else none) = some v
  rw [parseDigits?_natToDigitBytes v]
  show (if v ≤ 2 ^ 63 - 1 then some (Int.ofNat v) else none) = some v
  rw [if_pos h]
  rfl

theorem parse_i64_neg (v : Nat) (h : v ≤ 2 ^ 63) :
    parse_i64 (45 :: natToDigitBytes v) = some (-(v : Int)) := by
  show (parseDigits? (natToDigitBytes v)).bind
    (fun w => if w ≤ 2 ^ 63 then some (-Int.ofNat w) else none) = some (-(v : Int))
  rw [parseDigits?_natToDigitBytes v]
  show (if v ≤ 2 ^ 63 then some (-Int.ofNat v) else none) = some (-(v : Int))
  rw [if_pos h]
  rfl

theorem simpleString_decode_calc (k : List Nat) (hk : validUtf8 k = true) :
    SimpleString.decode (43 :: (k ++ [13, 10])) = .ok k := by
  unfold SimpleString.decode
  rw [validate_ok 43 k]
  simp only [Res.bind_ok]
  rw [lineData_calc 43 k, utf8Lossy_of_valid k hk]

/-! ## Structure of encodings -/

theorem encode_length_ge (f : RespFrame) : 3 ≤ (RespFrame.encode f).length := by
  cases f <;> simp [RespFrame.encode, CRLF] <;> omega

mutual

theorem encode_ends_crlf : ∀ f : RespFrame, ∃ p, RespFrame.encode f = p ++ [13, 10]
  | .simpleString s => ⟨43 :: s, by simp [RespFrame.encode, CRLF]⟩
  | .error s => ⟨45 :: s, by simp [RespFrame.encode, CRLF]⟩
  | .bulkError b =>
    ⟨33 :: (natToDigitBytes b.length ++ CRLF ++ utf8Lossy b),
      by simp [RespFrame.encode, CRLF]⟩
  | .integer i =>
    ⟨58 :: (if i < 0 then 45 :: natToDigitBytes (-i).toNat
            else 43 :: natToDigitBytes i.toNat), by simp [RespFrame.encode, CRLF]⟩
  | .bulkString b =>
    ⟨36 :: (natToDigitBytes b.length ++ CRLF ++ utf8Lossy b),
      by simp [RespFrame.encode, CRLF]⟩
  | .nullBulkString => ⟨[36, 45, 49], rfl⟩
  | .array l => by
    rcases encodeList_ends l with h | ⟨p, hp⟩
    · exact ⟨42 :: natToDigitBytes l.length,
        by simp [RespFrame.encode, CRLF, h, RespFrame.encodeList]⟩
    · exact ⟨42 :: (natToDigitBytes l.length ++ CRLF ++ p),
        by simp [RespFrame.encode, CRLF, hp]⟩
  | .nullArray => ⟨[42, 45, 49], rfl⟩
  | .null => ⟨[95], rfl⟩
  | .boolean b => ⟨35 :: (if b then [116] else [102]), by cases b <;> rfl⟩
  | .double s => ⟨44 :: s, by simp [RespFrame.encode, CRLF]⟩
  | .map m => by
    rcases encodeEntries_ends m with h | ⟨p, hp⟩
    · exact ⟨37 :: natToDigitBytes m.length,
        by simp [RespFrame.encode, CRLF, h, RespFrame.encodeEntries]⟩
    · exact ⟨37 :: (natToDigitBytes m.length ++ CRLF ++ p),
        by simp [RespFrame.encode, CRLF, hp]⟩
  | .set s => by
    rcases encodeList_ends s with h | ⟨p, hp⟩
    · exact ⟨126 :: natToDigitBytes s.length,
        by simp [RespFrame.encode, CRLF, h, RespFrame.encodeList]⟩
    · exact ⟨126 :: (natToDigitBytes s.length ++ CRLF ++ p),
        by simp [RespFrame.encode, CRLF, hp]⟩

theorem encodeList_ends : ∀ cs : List RespFrame,
    cs = [] ∨ ∃ p, RespFrame.encodeList cs = p ++ [13, 10]
  | [] => Or.inl rfl
  | f :: fs => by
    right
    rcases encodeList_ends fs with h | ⟨p, hp⟩
    · obtain ⟨q, hq⟩ := encode_ends_crlf f
      exact ⟨q, by simp [RespFrame.encodeList, h, hq]⟩
    · exact ⟨RespFrame.encode f ++ p, by simp [RespFrame.encodeList, hp]⟩

theorem encodeEntries_ends : ∀ m : List (List Nat × RespFrame),
    m = [] ∨ ∃ p, RespFrame.encodeEntries m = p ++ [13, 10]
  | [] => Or.inl rfl
  | (k, v) :: rest => by
    right
    rcases encodeEntries_ends rest with h | ⟨p, hp⟩
    · obtain ⟨q, hq⟩ := encode_ends_crlf v
      exact ⟨(43 :: (k ++ CRLF)) ++ q,
        by simp [RespFrame.encodeEntries, h, hq]⟩
    · exact ⟨(43 :: (k ++ CRLF)) ++ RespFrame.encode v ++ p,
        by simp [RespFrame.encodeEntries, hp]⟩

end

theorem encode_shape_of_head (f : RespFrame) (x : Nat) (t : List Nat)
    (h : RespFrame.encode f = x :: t) :
    ∃ mid, RespFrame.encode f = x :: (mid ++ [13, 10]) := by
  obtain ⟨p, hp⟩ := encode_ends_crlf f
  cases p with
  | nil =>
    have := encode_length_ge f
    rw [hp] at this
    simp at this
  | cons q qs =>
    rw [hp] at h
    injection h with h1 _
    subst h1
    exact ⟨qs, hp⟩

/-! ## Dispatch and header lemmas for the sizing and decoding interpreters -/

theorem digits_front_ne (n : Nat) (X : List Nat) : natToDigitBytes n ++ X ≠ [45, 49] := by
  obtain ⟨d, ds, hds, hd1, hd2⟩ := natToDigitBytes_head n
  rw [hds, List.cons_append]
  intro hc
  injection hc with h1 _
  omega

theorem digits_take2_ne (n : Nat) (X : List Nat) :
    ¬ (natToDigitBytes n ++ X).take 2 = [45, 49] := by
  obtain ⟨d, ds, hds, hd1, hd2⟩ := natToDigitBytes_head n
  rw [hds, List.cons_append]
  cases h2 : ds ++ X with
  | nil =>
    intro hc
    simp at hc
  | cons e t =>
    intro hc
    simp at hc
    omega

theorem noCRLF_sentinel_digits (x n : Nat) (hx : x ≠ 13) :
    noCRLF (x :: natToDigitBytes n) = true :=
  noCRLF_cons_of_ne x _ hx (noCRLF_of_no13 _ (digits_no13 n))

theorem sliceGet_hdr (x : Nat) (D rest : List Nat) :
    sliceGet ((x :: D) ++ rest) 1 (D.length + 1) = .ok D := by
  have h1 : (x :: D) ++ rest = [x] ++ (D ++ rest) := by simp
  have h2 : D.length + 1 = [x].length + D.length := by
    simp only [List.length_cons, List.length_nil]
    omega
  rw [h1, h2]
  exact sliceGet_mid [x] D rest

theorem eRun_step_line1 (n x : Nat) (t : List Nat)
    (hx : x = 43 ∨ x = 45 ∨ x = 58 ∨ x = 95 ∨ x = 35 ∨ x = 44)
    (h3 : ¬ (x :: t).length < 3) :
    eRun (n + 1) (.frame (x :: t)) = expectLenLine1 (x :: t) := by
  rcases hx with h | h | h | h | h | h <;> subst h <;> exact if_neg h3

theorem eRun_step_33 (n : Nat) (t : List Nat) (h3 : ¬ (33 :: t).length < 3) :
    eRun (n + 1) (.frame (33 :: t)) = expectLenLine2 (33 :: t) :=
  if_neg h3

theorem eRun_step_36 (n : Nat) (t : List Nat) (h3 : ¬ (36 :: t).length < 3)
    (h45 : ¬ t.take 2 = [45, 49]) :
    eRun (n + 1) (.frame (36 :: t)) = expectLenLine2 (36 :: t) :=
  (if_neg h3).trans (if_neg h45)

theorem eRun_step_36_null (n : Nat) (t : List Nat) (h3 : ¬ (36 :: t).length < 3)
    (h45 : t.take 2 = [45, 49]) :
    eRun (n + 1) (.frame (36 :: t)) = expectLenLine1 (36 :: t) :=
  (if_neg h3).trans (if_pos h45)

theorem eRun_step_42 (n : Nat) (t : List Nat) (h3 : ¬ (42 :: t).length < 3)
    (h45 : ¬ t.take 2 = [45, 49]) :
    eRun (n + 1) (.frame (42 :: t)) = eRun n (.array (42 :: t)) :=
  (if_neg h3).trans (if_neg h45)

theorem eRun_step_42_null (n : Nat) (t : List Nat) (h3 : ¬ (42 :: t).length < 3)
    (h45 : t.take 2 = [45, 49]) :
    eRun (n + 1) (.frame (42 :: t)) = expectLenLine1 (42 :: t) :=
  (if_neg h3).trans (if_pos h45)

theorem eRun_step_37 (n : Nat) (t : List Nat) (h3 : ¬ (37 :: t).length < 3) :
    eRun (n + 1) (.frame (37 :: t)) = eRun n (.map (37 :: t)) :=
  if_neg h3

theorem eRun_step_126 (n : Nat) (t : List Nat) (h3 : ¬ (126 :: t).length < 3) :
    eRun (n + 1) (.frame (126 :: t)) = eRun n (.set (126 :: t)) :=
  if_neg h3

theorem dRun_step_43 (fm : List Nat → Option (List Nat)) (n : Nat) (t : List Nat) :
    dRun fm (n + 1) (.frame (43 :: t)) =
      Res.bind (SimpleString.decode (43 :: t)) (fun s => .ok (.simpleString s)) := rfl

theorem dRun_step_45 (fm : List Nat → Option (List Nat)) (n : Nat) (t : List Nat) :
    dRun fm (n + 1) (.frame (45 :: t)) =
      Res.bind (SimpleError.decode (45 :: t)) (fun s => .ok (.error s)) := rfl

theorem dRun_step_33 (fm : List Nat → Option (List Nat)) (n : Nat) (t : List Nat) :
    dRun fm (n + 1) (.frame (33 :: t)) =
      Res.bind (BulkError.decode (33 :: t)) (fun b => .ok (.bulkError b)) := rfl

theorem dRun_step_58 (fm : List Nat → Option (List Nat)) (n : Nat) (t : List Nat) :
    dRun fm (n + 1) (.frame (58 :: t)) =
      Res.bind (I64.decode (58 :: t)) (fun i => .ok (.integer i)) := rfl

theorem dRun_step_36 (fm : List Nat → Option (List Nat)) (n : Nat) (t : List Nat) :
    dRun fm (n + 1) (.frame (36 :: t)) =
      match NullBulkString.decode (36 :: t) with
      | .ok _ => .ok .nullBulkString
      | .err .incomplete => .err .incomplete
      | .err _ => Res.bind (BulkString.decode (36 :: t)) (fun b => .ok (.bulkString b))
      | .panic => .panic := rfl

theorem dRun_step_95 (fm : List Nat → Option (List Nat)) (n : Nat) (t : List Nat) :
    dRun fm (n + 1) (.frame (95 :: t)) =
      Res.bind (RespNull.decode (95 :: t)) (fun _ => .ok .null) := rfl

theorem dRun_step_35 (fm : List Nat → Option (List Nat)) (n : Nat) (t : List Nat) :
    dRun fm (n + 1) (.frame (35 :: t)) =
      Res.bind (Bool.decode (35 :: t)) (fun b => .ok (.boolean b)) := rfl

theorem dRun_step_44 (fm : List Nat → Option (List Nat)) (n : Nat) (t : List Nat) :
    dRun fm (n + 1) (.frame (44 :: t)) =
      Res.bind (RespDouble.decode fm (44 :: t)) (fun s => .ok (.double s)) := rfl

theorem dRun_step_42 (fm : List Nat → Option (List Nat)) (n : Nat) (t : List Nat) :
    dRun fm (n + 1) (.frame (42 :: t)) =
      match RespNullArray.decode (42 :: t) with
      | .ok _ => .ok .nullArray
      | .err .incomplete => .err .incomplete
      | .err _ => dRun fm n (.array (42 :: t))
      | .panic => .panic := rfl

theorem dRun_step_37 (fm : List Nat → Option (List Nat)) (n : Nat) (t : List Nat) :
    dRun fm (n + 1) (.frame (37 :: t)) = dRun fm n (.map (37 :: t)) := rfl

theorem dRun_step_126 (fm : List Nat → Option (List Nat)) (n : Nat) (t : List Nat) :
    dRun fm (n + 1) (.frame (126 :: t)) = dRun fm n (.set (126 :: t)) := rfl

theorem nullBulkString_decode_notnull (mid : List Nat) (h : mid ≠ [45, 49]) :
    NullBulkString.decode (36 :: (mid ++ [13, 10])) = .err .invalid := by
  unfold NullBulkString.decode
  rw [validate_ok 36 mid]
  simp only [Res.bind_ok]
  rw [lineData_calc 36 mid, if_pos h]

theorem respNullArray_decode_notnull (mid : List Nat) (h : mid ≠ [45, 49]) :
    RespNullArray.decode (42 :: (mid ++ [13, 10])) = .err .invalid := by
  unfold RespNullArray.decode
  rw [validate_ok 42 mid]
  simp only [Res.bind_ok]
  rw [lineData_calc 42 mid, if_pos h]

theorem validate_hdr (x : Nat) (D body : List Nat)
    (h : body = [] ∨ ∃ p, body = p ++ [13, 10]) :
    validate_frame_data ((x :: D) ++ 13 :: 10 :: body) x = .ok () := by
  rcases h with h | ⟨p, hp⟩
  · subst h
    rw [show (x :: D) ++ 13 :: 10 :: ([] : List Nat) = x :: (D ++ [13, 10]) by simp]
    exact validate_ok x D
  · subst hp
    rw [show (x :: D) ++ 13 :: 10 :: (p ++ [13, 10]) =
          x :: ((D ++ 13 :: 10 :: p) ++ [13, 10]) by simp]
    exact validate_ok x (D ++ 13 :: 10 :: p)

theorem eRun_hdr_array (n cnt : Nat) (D body : List Nat) (hD : noCRLF (42 :: D) = true)
    (hp : parse_usize (utf8Lossy D) = some cnt) :
    eRun (n + 1) (.array ((42 :: D) ++ 13 :: 10 :: body)) =
      eRun n (.children cnt ((42 :: D) ++ 13 :: 10 :: body) (D.length + 3)) := by
  have e : eRun (n + 1) (ESel.array ((42 :: D) ++ 13 :: 10 :: body)) =
      Res.bind (find_crlf ((42 :: D) ++ 13 :: 10 :: body) 1) (fun o =>
        match o with
        | none => Res.err RespError.incomplete
        | some nth_len =>
          Res.bind (sliceGet ((42 :: D) ++ 13 :: 10 :: body) 1 nth_len) (fun hdr =>
            match parse_usize (utf8Lossy hdr) with
            | none => Res.err RespError.invalid
            | some nth =>
              eRun n (ESel.children nth ((42 :: D) ++ 13 :: 10 :: body) (nth_len + 2)))) := rfl
  rw [e, find_crlf_first (42 :: D) body hD]
  simp only [Res.bind_ok, List.length_cons]
  rw [sliceGet_hdr 42 D (13 :: 10 :: body)]
  simp only [Res.bind_ok]
  rw [hp]

theorem eRun_hdr_map (n cnt : Nat) (D body : List Nat) (hD : noCRLF (37 :: D) = true)
    (hp : parse_usize (utf8Lossy D) = some cnt) :
    eRun (n + 1) (.map ((37 :: D) ++ 13 :: 10 :: body)) =
      eRun n (.mapChildren cnt ((37 :: D) ++ 13 :: 10 :: body) (D.length + 3)) := by
  have e : eRun (n + 1) (ESel.map ((37 :: D) ++ 13 :: 10 :: body)) =
      Res.bind (find_crlf ((37 :: D) ++ 13 :: 10 :: body) 1) (fun o =>
        match o with
        | none => Res.err RespError.incomplete
        | some nth_len =>
          Res.bind (sliceGet ((37 :: D) ++ 13 :: 10 :: body) 1 nth_len) (fun hdr =>
            match parse_usize (utf8Lossy hdr) with
            | none => Res.err RespError.invalid
            | some nth =>
              eRun n (ESel.mapChildren nth ((37 :: D) ++ 13 :: 10 :: body) (nth_len + 2)))) := rfl
  rw [e, find_crlf_first (37 :: D) body hD]
  simp only [Res.bind_ok, List.length_cons]
  rw [sliceGet_hdr 37 D (13 :: 10 :: body)]
  simp only [Res.bind_ok]
  rw [hp]

theorem eRun_hdr_set (n cnt : Nat) (D body : List Nat) (hD : noCRLF (126 :: D) = true)
    (hp : parse_usize (utf8Lossy D) = some cnt) :
    eRun (n + 1) (.set ((126 :: D) ++ 13 :: 10 :: body)) =
      eRun n (.children cnt ((126 :: D) ++ 13 :: 10 :: body) (D.length + 3)) := by
  have e : eRun (n + 1) (ESel.set ((126 :: D) ++ 13 :: 10 :: body)) =
      Res.bind (find_crlf ((126 :: D) ++ 13 :: 10 :: body) 1) (fun o =>
        match o with
        | none => Res.err RespError.incomplete
        | some nth_len =>
          Res.bind (sliceGet ((126 :: D) ++ 13 :: 10 :: body) 1 nth_len) (fun hdr =>
            match parse_usize (utf8Lossy hdr) with
            | none => Res.err RespError.invalid
            | some nth =>
              eRun n (ESel.children nth ((126 :: D) ++ 13 :: 10 :: body) (nth_len + 2)))) := rfl
  rw [e, find_crlf_first (126 :: D) body hD]
  simp only [Res.bind_ok, List.length_cons]
  rw [sliceGet_hdr 126 D (13 :: 10 :: body)]
  simp only [Res.bind_ok]
  rw [hp]

theorem dRun_hdr_array (fm : List Nat → Option (List Nat)) (n cnt : Nat)
    (D body : List Nat) (hD : noCRLF (42 :: D) = true)
    (hv : validate_frame_data ((42 :: D) ++ 13 :: 10 :: body) 42 = .ok ())
    (hp : parse_usize (utf8Lossy D) = some cnt) :
    dRun fm (n + 1) (.array ((42 :: D) ++ 13 :: 10 :: body)) =
      dRun fm n (.children cnt ((42 :: D) ++ 13 :: 10 :: body) (D.length + 3) []) := by
  have e : dRun fm (n + 1) (DSel.array ((42 :: D) ++ 13 :: 10 :: body)) =
      Res.bind (validate_frame_data ((42 :: D) ++ 13 :: 10 :: body) 42) (fun _ =>
        Res.bind (find_crlf ((42 :: D) ++ 13 :: 10 :: body) 1) (fun o =>
          match o with
          | none => Res.err RespError.incomplete
          | some nth_len =>
            Res.bind (sliceGet ((42 :: D) ++ 13 :: 10 :: body) 1 nth_len) (fun hdr =>
              match parse_usize (utf8Lossy hdr) with
              | none => Res.err RespError.invalid
              | some nth =>
                dRun fm n
                  (DSel.children nth ((42 :: D) ++ 13 :: 10 :: body) (nth_len + 2) [])))) :=
    rfl
  rw [e, hv]
  simp only [Res.bind_ok]
  rw [find_crlf_first (42 :: D) body hD]
  simp only [Res.bind_ok, List.length_cons]
  rw [sliceGet_hdr 42 D (13 :: 10 :: body)]
  simp only [Res.bind_ok]
  rw [hp]

theorem dRun_hdr_map (fm : List Nat → Option (List Nat)) (n cnt : Nat)
    (D body : List Nat) (hD : noCRLF (37 :: D) = true)
    (hv : validate_frame_data ((37 :: D) ++ 13 :: 10 :: body) 37 = .ok ())
    (hp : parse_usize (utf8Lossy D) = some cnt) :
    dRun fm (n + 1) (.map ((37 :: D) ++ 13 :: 10 :: body)) =
      dRun fm n (.entries cnt ((37 :: D) ++ 13 :: 10 :: body) (D.length + 3) []) := by
  have e : dRun fm (n + 1) (DSel.map ((37 :: D) ++ 13 :: 10 :: body)) =
      Res.bind (validate_frame_data ((37 :: D) ++ 13 :: 10 :: body) 37) (fun _ =>
        Res.bind (find_crlf ((37 :: D) ++ 13 :: 10 :: body) 1) (fun o =>
          match o with
          | none => Res.err RespError.incomplete
          | some nth_len =>
            Res.bind (sliceGet ((37 :: D) ++ 13 :: 10 :: body) 1 nth_len) (fun hdr =>
              match parse_usize (utf8Lossy hdr) with
              | none => Res.err RespError.invalid
              | some nth =>
                dRun fm n
                  (DSel.entries nth ((37 :: D) ++ 13 :: 10 :: body) (nth_len + 2) [])))) :=
    rfl
  rw [e, hv]
  simp only [Res.bind_ok]
  rw [find_crlf_first (37 :: D) body hD]
  simp only [Res.bind_ok, List.length_cons]
  rw [sliceGet_hdr 37 D (13 :: 10 :: body)]
  simp only [Res.bind_ok]
  rw [hp]

theorem dRun_hdr_set (fm : List Nat → Option (List Nat)) (n cnt : Nat)
    (D body : List Nat) (hD : noCRLF (126 :: D) = true)
    (hv : validate_frame_data ((126 :: D) ++ 13 :: 10 :: body) 126 = .ok ())
    (hp : parse_usize (utf8Lossy D) = some cnt) :
    dRun fm (n + 1) (.set ((126 :: D) ++ 13 :: 10 :: body)) =
      dRun fm n (.setChildren cnt ((126 :: D) ++ 13 :: 10 :: body) (D.length + 3) []) := by
  have e : dRun fm (n + 1) (DSel.set ((126 :: D) ++ 13 :: 10 :: body)) =
      Res.bind (validate_frame_data ((126 :: D) ++ 13 :: 10 :: body) 126) (fun _ =>
        Res.bind (find_crlf ((126 :: D) ++ 13 :: 10 :: body) 1) (fun o =>
          match o with
          | none => Res.err RespError.incomplete
          | some nth_len =>
            Res.bind (sliceGet ((126 :: D) ++ 13 :: 10 :: body) 1 nth_len) (fun hdr =>
              match parse_usize (utf8Lossy hdr) with
              | none => Res.err RespError.invalid
              | some nth =>
                dRun fm n
                  (DSel.setChildren nth ((126 :: D) ++ 13 :: 10 :: body) (nth_len + 2) [])))) :=
    rfl
  rw [e, hv]
  simp only [Res.bind_ok]
  rw [find_crlf_first (126 :: D) body hD]
  simp only [Res.bind_ok, List.length_cons]
  rw [sliceGet_hdr 126 D (13 :: 10 :: body)]
  simp only [Res.bind_ok]
  rw [hp]

/-! ## Leaf decoder computations on canonical buffers -/

theorem simpleError_decode_calc (k : List Nat) (hk : validUtf8 k = true) :
    SimpleError.decode (45 :: (k ++ [13, 10])) = .ok k := by
  unfold SimpleError.decode
  rw [validate_ok 45 k]
  simp only [Res.bind_ok]
  rw [lineData_calc 45 k, utf8Lossy_of_valid k hk]

theorem respDouble_decode_calc (fm : List Nat → Option (List Nat)) (s : List Nat)
    (h1 : validUtf8 s = true) (hfm : fm s = some s) :
    RespDouble.decode fm (44 :: (s ++ [13, 10])) = .ok s := by
  unfold RespDouble.decode
  rw [validate_ok 44 s]
  simp only [Res.bind_ok]
  rw [lineData_calc 44 s, utf8Lossy_of_valid s h1, hfm]

theorem i64_decode_calc (i : Int) (hlo : -(2 ^ 63 : Int) ≤ i) (hhi : i < 2 ^ 63) :
    I64.decode (58 :: ((if i < 0 then 45 :: natToDigitBytes (-i).toNat
                        else 43 :: natToDigitBytes i.toNat) ++ [13, 10])) = .ok i := by
  by_cases hi : i < 0
  · rw [if_pos hi]
    unfold I64.decode
    rw [validate_ok 58 (45 :: natToDigitBytes (-i).toNat)]
    simp only [Res.bind_ok]
    rw [lineData_calc 58 (45 :: natToDigitBytes (-i).toNat)]
    rw [utf8Lossy_ascii (45 :: natToDigitBytes (-i).toNat) (by
      intro c hc
      rcases List.mem_cons.mp hc with h | h
      · omega
      · have := natToDigitBytes_bounds (-i).toNat c h
        omega)]
    rw [parse_i64_neg (-i).toNat (by omega)]
    have hv : (-(((-i).toNat : Nat) : Int)) = i := by omega
    rw [hv]
  · rw [if_neg hi]
    unfold I64.decode
    rw [validate_ok 58 (43 :: natToDigitBytes i.toNat)]
    simp only [Res.bind_ok]
    rw [lineData_calc 58 (43 :: natToDigitBytes i.toNat)]
    rw [utf8Lossy_ascii (43 :: natToDigitBytes i.toNat) (by
      intro c hc
      rcases List.mem_cons.mp hc with h | h
      · omega
      · have := natToDigitBytes_bounds i.toNat c h
        omega)]
    rw [parse_i64_pos i.toNat (by omega)]
    have hv : ((i.toNat : Nat) : Int) = i := by omega
    show Res.ok ((i.toNat : Nat) : Int) = Res.ok i
    rw [hv]

theorem bulkString_decode_calc (b : List Nat) (h2 : noCRLF b = true)
    (h3 : b.length < 2 ^ 64) :
    BulkString.decode
      (36 :: (((natToDigitBytes b.length ++ [13, 10]) ++ b) ++ [13, 10])) = .ok b := by
  unfold BulkString.decode
  rw [validate_ok 36 ((natToDigitBytes b.length ++ [13, 10]) ++ b)]
  simp only [Res.bind_ok]
  have e1 : expectLenLine2
      (36 :: (((natToDigitBytes b.length ++ [13, 10]) ++ b) ++ [13, 10])) =
      .ok ((36 :: (((natToDigitBytes b.length ++ [13, 10]) ++ b) ++ [13, 10])).length) := by
    rw [show (36 : Nat) :: (((natToDigitBytes b.length ++ [13, 10]) ++ b) ++ [13, 10]) =
          (36 :: natToDigitBytes b.length) ++ 13 :: 10 :: (b ++ 13 :: 10 :: []) by simp]
    rw [expectLenLine2_calc (36 :: natToDigitBytes b.length) b []
          (noCRLF_sentinel_digits 36 b.length (by omega)) h2]
    congr 1
    simp only [List.length_cons, List.length_append, List.length_nil]
    omega
  rw [e1]
  simp only [Res.bind_ok]
  rw [sliceGet_all]
  simp only [Res.bind_ok]
  have e2 : parse_length
      (36 :: (((natToDigitBytes b.length ++ [13, 10]) ++ b) ++ [13, 10])) =
      .ok ((natToDigitBytes b.length).length + 1, b.length) := by
    unfold parse_length
    rw [show (36 : Nat) :: (((natToDigitBytes b.length ++ [13, 10]) ++ b) ++ [13, 10]) =
          (36 :: natToDigitBytes b.length) ++ 13 :: 10 :: (b ++ [13, 10]) by simp]
    rw [find_crlf_first (36 :: natToDigitBytes b.length) (b ++ [13, 10])
          (noCRLF_sentinel_digits 36 b.length (by omega))]
    simp only [Res.bind_ok, List.length_cons]
    have e3 : ((((36 : Nat) :: natToDigitBytes b.length) ++
        13 :: 10 :: (b ++ [13, 10])).drop 1).take
        ((natToDigitBytes b.length).length + 1 - 1) = natToDigitBytes b.length := by
      simp
    rw [e3]
    rw [utf8Lossy_ascii _ (digits_ascii b.length), parse_usize_natToDigitBytes b.length h3]
    have hlen : (natToDigitBytes b.length).length + 1 + 2 + b.length + 2 =
        ((36 :: natToDigitBytes b.length) ++ 13 :: 10 :: (b ++ [13, 10])).length := by
      simp only [List.length_cons, List.length_append, List.length_nil]
      omega
    show (if (natToDigitBytes b.length).length + 1 + 2 + b.length + 2 ≠
        ((36 : Nat) :: natToDigitBytes b.length ++ 13 :: 10 :: (b ++ [13, 10])).length then
        Res.err RespError.invalidFrameLength
      else Res.ok ((natToDigitBytes b.length).length + 1, b.length)) =
      Res.ok ((natToDigitBytes b.length).length + 1, b.length)
    rw [if_neg (by omega)]
  rw [e2]
  simp only [Res.bind_ok]
  have e4 : sliceGet (36 :: (((natToDigitBytes b.length ++ [13, 10]) ++ b) ++ [13, 10]))
      ((natToDigitBytes b.length).length + 1 + 2)
      ((natToDigitBytes b.length).length + 1 + 2 + b.length) = .ok b := by
    rw [show (36 : Nat) :: (((natToDigitBytes b.length ++ [13, 10]) ++ b) ++ [13, 10]) =
          (36 :: (natToDigitBytes b.length ++ [13, 10])) ++ (b ++ [13, 10]) by simp]
    rw [show (natToDigitBytes b.length).length + 1 + 2 =
          (36 :: (natToDigitBytes b.length ++ [13, 10])).length by simp]
    exact sliceGet_mid (36 :: (natToDigitBytes b.length ++ [13, 10])) b [13, 10]
  rw [e4]
  rfl

theorem bulkError_decode_calc (b : List Nat) (h2 : noCRLF b = true)
    (h3 : b.length < 2 ^ 64) :
    BulkError.decode
      (33 :: (((natToDigitBytes b.length ++ [13, 10]) ++ b) ++ [13, 10])) = .ok b := by
  unfold BulkError.decode
  rw [validate_ok 33 ((natToDigitBytes b.length ++ [13, 10]) ++ b)]
  simp only [Res.bind_ok]
  have e1 : expectLenLine2
      (33 :: (((natToDigitBytes b.length ++ [13, 10]) ++ b) ++ [13, 10])) =
      .ok ((33 :: (((natToDigitBytes b.length ++ [13, 10]) ++ b) ++ [13, 10])).length) := by
    rw [show (33 : Nat) :: (((natToDigitBytes b.length ++ [13, 10]) ++ b) ++ [13, 10]) =
          (33 :: natToDigitBytes b.length) ++ 13 :: 10 :: (b ++ 13 :: 10 :: []) by simp]
    rw [expectLenLine2_calc (33 :: natToDigitBytes b.length) b []
          (noCRLF_sentinel_digits 33 b.length (by omega)) h2]
    congr 1
    simp only [List.length_cons, List.length_append, List.length_nil]
    omega
  rw [e1]
  simp only [Res.bind_ok]
  rw [sliceGet_all]
  simp only [Res.bind_ok]
  have e2 : parse_length
      (33 :: (((natToDigitBytes b.length ++ [13, 10]) ++ b) ++ [13, 10])) =
      .ok ((natToDigitBytes b.length).length + 1, b.length) := by
    unfold parse_length
    rw [show (33 : Nat) :: (((natToDigitBytes b.length ++ [13, 10]) ++ b) ++ [13, 10]) =
          (33 :: natToDigitBytes b.length) ++ 13 :: 10 :: (b ++ [13, 10]) by simp]
    rw [find_crlf_first (33 :: natToDigitBytes b.length) (b ++ [13, 10])
          (noCRLF_sentinel_digits 33 b.length (by omega))]
    simp only [Res.bind_ok, List.length_cons]
    have e3 : ((((33 : Nat) :: natToDigitBytes b.length) ++
        13 :: 10 :: (b ++ [13, 10])).drop 1).take
        ((natToDigitBytes b.length).length + 1 - 1) = natToDigitBytes b.length := by
      simp
    rw [e3]
    rw [utf8Lossy_ascii _ (digits_ascii b.length), parse_usize_natToDigitBytes b.length h3]
    have hlen : (natToDigitBytes b.length).length + 1 + 2 + b.length + 2 =
        ((33 :: natToDigitBytes b.length) ++ 13 :: 10 :: (b ++ [13, 10])).length := by
      simp only [List.length_cons, List.length_append, List.length_nil]
      omega
    show (if (natToDigitBytes b.length).length + 1 + 2 + b.length + 2 ≠
        ((33 : Nat) :: natToDigitBytes b.length ++ 13 :: 10 :: (b ++ [13, 10])).length then
        Res.err RespError.invalidFrameLength
      else Res.ok ((natToDigitBytes b.length).length + 1, b.length)) =
      Res.ok ((natToDigitBytes b.length).length + 1, b.length)
    rw [if_neg (by omega)]
  rw [e2]
  simp only [Res.bind_ok]
  have e4 : sliceGet (33 :: (((natToDigitBytes b.length ++ [13, 10]) ++ b) ++ [13, 10]))
      ((natToDigitBytes b.length).length + 1 + 2)
      ((natToDigitBytes b.length).length + 1 + 2 + b.length) = .ok b := by
    rw [show (33 : Nat) :: (((natToDigitBytes b.length ++ [13, 10]) ++ b) ++ [13, 10]) =
          (33 :: (natToDigitBytes b.length ++ [13, 10])) ++ (b ++ [13, 10]) by simp]
    rw [show (natToDigitBytes b.length).length + 1 + 2 =
          (33 :: (natToDigitBytes b.length ++ [13, 10])).length by simp]
    exact sliceGet_mid (33 :: (natToDigitBytes b.length ++ [13, 10])) b [13, 10]
  rw [e4]
  rfl

/-! ## The sizing and decoding loops on encoded children

Each loop lemma is parameterized by the induction hypotheses of the main
round-trip theorem (strong induction on fuel): `ihE` says that sizing a
well-formed encoded frame followed by anything returns the encoding's length,
`ihD` that decoding an exactly-sliced well-formed encoding returns the frame. -/

theorem eRun_children_calc (N : Nat)
    (ihE : ∀ m, m < N → ∀ (fm : List Nat → Option (List Nat)) (f : RespFrame)
      (rest : List Nat), wfFrame fm f = true →
      (RespFrame.encode f).length + 1 ≤ m →
      eRun m (.frame (RespFrame.encode f ++ rest)) = .ok (RespFrame.encode f).length) :
    ∀ (cs : List RespFrame) (n : Nat) (fm : List Nat → Option (List Nat))
      (pre rest : List Nat), n ≤ N → wfFrames fm cs = true →
      (RespFrame.encodeList cs).length + 2 ≤ n →
      eRun n (.children cs.length (pre ++ (RespFrame.encodeList cs ++ rest)) pre.length) =
        .ok (pre.length + (RespFrame.encodeList cs).length) := by
  intro cs
  induction cs with
  | nil =>
    intro n fm pre rest hnN hwf hfuel
    obtain ⟨m, rfl⟩ : ∃ m, n = m + 1 := ⟨n - 1, by omega⟩
    rfl
  | cons c cs ih =>
    intro n fm pre rest hnN hwf hfuel
    obtain ⟨m, rfl⟩ : ∃ m, n = m + 1 := ⟨n - 1, by omega⟩
    have hwf2 : wfFrame fm c = true ∧ wfFrames fm cs = true := by
      have h := hwf
      simp [wfFrames] at h
      exact h
    have hencl : (RespFrame.encodeList (c :: cs)).length =
        (RespFrame.encode c).length + (RespFrame.encodeList cs).length := by
      simp [RespFrame.encodeList]
    have hlen3 := encode_length_ge c
    have hfuel2 : (RespFrame.encode c).length + (RespFrame.encodeList cs).length + 2 ≤
        m + 1 := by
      rw [hencl] at hfuel
      exact hfuel
    have estep : eRun (m + 1)
        (.children (c :: cs).length
          (pre ++ (RespFrame.encodeList (c :: cs) ++ rest)) pre.length) =
        Res.bind (sliceFrom (pre ++ (RespFrame.encodeList (c :: cs) ++ rest)) pre.length)
          (fun rem => Res.bind (eRun m (.frame rem)) (fun fl =>
            eRun m (.children cs.length
              (pre ++ (RespFrame.encodeList (c :: cs) ++ rest)) (pre.length + fl)))) := rfl
    rw [estep, sliceFrom_calc pre (RespFrame.encodeList (c :: cs) ++ rest)]
    simp only [Res.bind_ok]
    rw [show RespFrame.encodeList (c :: cs) ++ rest =
          RespFrame.encode c ++ (RespFrame.encodeList cs ++ rest) by
        simp [RespFrame.encodeList]]
    rw [ihE m (by omega) fm c (RespFrame.encodeList cs ++ rest) hwf2.1 (by omega)]
    simp only [Res.bind_ok]
    rw [show pre ++ (RespFrame.encode c ++ (RespFrame.encodeList cs ++ rest)) =
          (pre ++ RespFrame.encode c) ++ (RespFrame.encodeList cs ++ rest) by simp]
    rw [show pre.length + (RespFrame.encode c).length =
          (pre ++ RespFrame.encode c).length by simp]
    rw [ih m fm (pre ++ RespFrame.encode c) rest (by omega) hwf2.2 (by omega)]
    congr 1
    simp only [List.length_append, hencl]
    omega

theorem eRun_mapChildren_calc (N : Nat)
    (ihE : ∀ m, m < N → ∀ (fm : List Nat → Option (List Nat)) (f : RespFrame)
      (rest : List Nat), wfFrame fm f = true →
      (RespFrame.encode f).length + 1 ≤ m →
      eRun m (.frame (RespFrame.encode f ++ rest)) = .ok (RespFrame.encode f).length) :
    ∀ (ms : List (List Nat × RespFrame)) (n : Nat) (fm : List Nat → Option (List Nat))
      (pre rest : List Nat), n ≤ N → wfEntries fm ms = true →
      (∀ kv ∈ ms, (validUtf8 kv.1 && noCRLF kv.1) = true) →
      (RespFrame.encodeEntries ms).length + 2 ≤ n →
      eRun n (.mapChildren ms.length
        (pre ++ (RespFrame.encodeEntries ms ++ rest)) pre.length) =
        .ok (pre.length + (RespFrame.encodeEntries ms).length) := by
  intro ms
  induction ms with
  | nil =>
    intro n fm pre rest hnN hwf hkeys hfuel
    obtain ⟨m, rfl⟩ : ∃ m, n = m + 1 := ⟨n - 1, by omega⟩
    rfl
  | cons e ms ih =>
    obtain ⟨k, v⟩ := e
    intro n fm pre rest hnN hwf hkeys hfuel
    obtain ⟨m, rfl⟩ : ∃ m, n = m + 1 := ⟨n - 1, by omega⟩
    have hwf2 : wfFrame fm v = true ∧ wfEntries fm ms = true := by
      have h := hwf
      simp [wfEntries] at h
      exact h
    have hk : validUtf8 k = true ∧ noCRLF k = true := by
      have h := hkeys (k, v) (List.mem_cons_self _ _)
      simpa using h
    have hkey_wf : wfFrame fm (.simpleString k) = true := by
      simp [wfFrame, hk.1, hk.2]
    have hkey_len : (RespFrame.encode (.simpleString k)).length = k.length + 3 := by
      simp only [RespFrame.encode, CRLF, List.length_cons, List.length_append,
        List.length_nil]
    have hencE : (RespFrame.encodeEntries ((k, v) :: ms)).length =
        (k.length + 3) + (RespFrame.encode v).length +
          (RespFrame.encodeEntries ms).length := by
      simp only [RespFrame.encodeEntries, CRLF, List.length_append, List.length_cons,
        List.length_nil]
    have hlen3 := encode_length_ge v
    have hfuel2 : (k.length + 3) + (RespFrame.encode v).length +
        (RespFrame.encodeEntries ms).length + 2 ≤ m + 1 := by
      rw [hencE] at hfuel
      exact hfuel
    have estep : eRun (m + 1)
        (.mapChildren ((k, v) :: ms).length
          (pre ++ (RespFrame.encodeEntries ((k, v) :: ms) ++ rest)) pre.length) =
        Res.bind (sliceFrom
            (pre ++ (RespFrame.encodeEntries ((k, v) :: ms) ++ rest)) pre.length)
          (fun rem => Res.bind (eRun m (.frame rem)) (fun key_len =>
            Res.bind (sliceFrom
                (pre ++ (RespFrame.encodeEntries ((k, v) :: ms) ++ rest))
                (pre.length + key_len))
              (fun rem2 => Res.bind (eRun m (.frame rem2)) (fun value_len =>
                eRun m (.mapChildren ms.length
                  (pre ++ (RespFrame.encodeEntries ((k, v) :: ms) ++ rest))
                  (pre.length + key_len + value_len)))))) := rfl
    rw [estep, sliceFrom_calc pre (RespFrame.encodeEntries ((k, v) :: ms) ++ rest)]
    simp only [Res.bind_ok]
    rw [show RespFrame.encodeEntries ((k, v) :: ms) ++ rest =
          RespFrame.encode (.simpleString k) ++
            (RespFrame.encode v ++ (RespFrame.encodeEntries ms ++ rest)) by
        simp [RespFrame.encodeEntries, RespFrame.encode, CRLF]]
    rw [ihE m (by omega) fm (.simpleString k)
          (RespFrame.encode v ++ (RespFrame.encodeEntries ms ++ rest)) hkey_wf
          (by rw [hkey_len]; omega)]
    simp only [Res.bind_ok]
    rw [show pre ++ (RespFrame.encode (.simpleString k) ++
            (RespFrame.encode v ++ (RespFrame.encodeEntries ms ++ rest))) =
          (pre ++ RespFrame.encode (.simpleString k)) ++
            (RespFrame.encode v ++ (RespFrame.encodeEntries ms ++ rest)) by simp]
    rw [show pre.length + (RespFrame.encode (.simpleString k)).length =
          (pre ++ RespFrame.encode (.simpleString k)).length by simp]
    rw [sliceFrom_calc (pre ++ RespFrame.encode (.simpleString k))
          (RespFrame.encode v ++ (RespFrame.encodeEntries ms ++ rest))]
    simp only [Res.bind_ok]
    rw [ihE m (by omega) fm v (RespFrame.encodeEntries ms ++ rest) hwf2.1
          (by omega)]
    simp only [Res.bind_ok]
    rw [show (pre ++ RespFrame.encode (.simpleString k)) ++
            (RespFrame.encode v ++ (RespFrame.encodeEntries ms ++ rest)) =
          ((pre ++ RespFrame.encode (.simpleString k)) ++ RespFrame.encode v) ++
            (RespFrame.encodeEntries ms ++ rest) by simp]
    rw [show (pre ++ RespFrame.encode (.simpleString k)).length +
            (RespFrame.encode v).length =
          ((pre ++ RespFrame.encode (.simpleString k)) ++ RespFrame.encode v).length
        by simp only [List.length_append]]
    rw [ih m fm ((pre ++ RespFrame.encode (.simpleString k)) ++ RespFrame.encode v) rest
          (by omega) hwf2.2 (fun kv hkv => hkeys kv (List.mem_cons_of_mem _ hkv))
          (by omega)]
    congr 1
    simp only [List.length_append, hencE, hkey_len]
    omega

theorem beq_ord_lt (o : Ordering) (h : (o == Ordering.lt) = true) : o = .lt := by
  cases o
  · rfl
  · exact absurd h (by decide)
  · exact absurd h (by decide)

theorem dRun_children_calc (N : Nat)
    (ihE : ∀ m, m < N → ∀ (fm : List Nat → Option (List Nat)) (f : RespFrame)
      (rest : List Nat), wfFrame fm f = true →
      (RespFrame.encode f).length + 1 ≤ m →
      eRun m (.frame (RespFrame.encode f ++ rest)) = .ok (RespFrame.encode f).length)
    (ihD : ∀ m, m < N → ∀ (fm : List Nat → Option (List Nat)) (f : RespFrame),
      wfFrame fm f = true → (RespFrame.encode f).length + 1 ≤ m →
      dRun fm m (.frame (RespFrame.encode f)) = .ok f) :
    ∀ (cs : List RespFrame) (n : Nat) (fm : List Nat → Option (List Nat))
      (pre : List Nat) (acc : List RespFrame),
      n ≤ N → wfFrames fm cs = true →
      (RespFrame.encodeList cs).length + 2 ≤ n →
      dRun fm n (.children cs.length (pre ++ RespFrame.encodeList cs) pre.length acc) =
        .ok (.array (acc ++ cs)) := by
  intro cs
  induction cs with
  | nil =>
    intro n fm pre acc hnN hwf hfuel
    obtain ⟨m, rfl⟩ : ∃ m, n = m + 1 := ⟨n - 1, by omega⟩
    show Res.ok (RespFrame.array acc) = Res.ok (.array (acc ++ []))
    rw [List.append_nil]
  | cons c cs ih =>
    intro n fm pre acc hnN hwf hfuel
    obtain ⟨m, rfl⟩ : ∃ m, n = m + 1 := ⟨n - 1, by omega⟩
    have hwf2 : wfFrame fm c = true ∧ wfFrames fm cs = true := by
      have h := hwf
      simp [wfFrames] at h
      exact h
    have hencl : (RespFrame.encodeList (c :: cs)).length =
        (RespFrame.encode c).length + (RespFrame.encodeList cs).length := by
      simp [RespFrame.encodeList]
    have hlen3 := encode_length_ge c
    have hfuel2 : (RespFrame.encode c).length + (RespFrame.encodeList cs).length + 2 ≤
        m + 1 := by
      rw [hencl] at hfuel
      exact hfuel
    have estep : dRun fm (m + 1)
        (.children (c :: cs).length (pre ++ RespFrame.encodeList (c :: cs))
          pre.length acc) =
        Res.bind (sliceFrom (pre ++ RespFrame.encodeList (c :: cs)) pre.length)
          (fun rem => Res.bind (eRun m (.frame rem)) (fun frame_len =>
            Res.bind (sliceGet (pre ++ RespFrame.encodeList (c :: cs)) pre.length
                (pre.length + frame_len))
              (fun sl => Res.bind (dRun fm m (.frame sl)) (fun f =>
                dRun fm m (.children cs.length (pre ++ RespFrame.encodeList (c :: cs))
                  (pre.length + frame_len) (acc ++ [f])))))) := rfl
    rw [estep, sliceFrom_calc pre (RespFrame.encodeList (c :: cs))]
    simp only [Res.bind_ok]
    rw [show RespFrame.encodeList (c :: cs) =
          RespFrame.encode c ++ RespFrame.encodeList cs by simp [RespFrame.encodeList]]
    rw [ihE m (by omega) fm c (RespFrame.encodeList cs) hwf2.1 (by omega)]
    simp only [Res.bind_ok]
    rw [sliceGet_mid pre (RespFrame.encode c) (RespFrame.encodeList cs)]
    simp only [Res.bind_ok]
    rw [ihD m (by omega) fm c hwf2.1 (by omega)]
    simp only [Res.bind_ok]
    rw [show pre ++ (RespFrame.encode c ++ RespFrame.encodeList cs) =
          (pre ++ RespFrame.encode c) ++ RespFrame.encodeList cs by simp]
    rw [show pre.length + (RespFrame.encode c).length =
          (pre ++ RespFrame.encode c).length by simp]
    rw [ih m fm (pre ++ RespFrame.encode c) (acc ++ [c]) (by omega) hwf2.2 (by omega)]
    simp

theorem dRun_setChildren_calc (N : Nat)
    (ihE : ∀ m, m < N → ∀ (fm : List Nat → Option (List Nat)) (f : RespFrame)
      (rest : List Nat), wfFrame fm f = true →
      (RespFrame.encode f).length + 1 ≤ m →
      eRun m (.frame (RespFrame.encode f ++ rest)) = .ok (RespFrame.encode f).length)
    (ihD : ∀ m, m < N → ∀ (fm : List Nat → Option (List Nat)) (f : RespFrame),
      wfFrame fm f = true → (RespFrame.encode f).length + 1 ≤ m →
      dRun fm m (.frame (RespFrame.encode f)) = .ok f) :
    ∀ (cs : List RespFrame) (n : Nat) (fm : List Nat → Option (List Nat))
      (pre : List Nat) (acc : List RespFrame),
      n ≤ N → wfFrames fm cs = true → pairwiseLtB cmpFrame cs = true →
      (∀ y ∈ acc, ∀ x ∈ cs, cmpFrame y x = .lt) →
      (RespFrame.encodeList cs).length + 2 ≤ n →
      dRun fm n (.setChildren cs.length (pre ++ RespFrame.encodeList cs)
        pre.length acc) = .ok (.set (acc ++ cs)) := by
  intro cs
  induction cs with
  | nil =>
    intro n fm pre acc hnN hwf hpair hlt hfuel
    obtain ⟨m, rfl⟩ : ∃ m, n = m + 1 := ⟨n - 1, by omega⟩
    show Res.ok (RespFrame.set acc) = Res.ok (.set (acc ++ []))
    rw [List.append_nil]
  | cons c cs ih =>
    intro n fm pre acc hnN hwf hpair hlt hfuel
    obtain ⟨m, rfl⟩ : ∃ m, n = m + 1 := ⟨n - 1, by omega⟩
    have hwf2 : wfFrame fm c = true ∧ wfFrames fm cs = true := by
      have h := hwf
      simp [wfFrames] at h
      exact h
    have hpair2 : (∀ x ∈ cs, cmpFrame c x = .lt) ∧ pairwiseLtB cmpFrame cs = true := by
      have h := hpair
      simp [pairwiseLtB] at h
      exact ⟨fun x hx => beq_ord_lt _ (h.1 x hx), h.2⟩
    have hencl : (RespFrame.encodeList (c :: cs)).length =
        (RespFrame.encode c).length + (RespFrame.encodeList cs).length := by
      simp [RespFrame.encodeList]
    have hlen3 := encode_length_ge c
    have hfuel2 : (RespFrame.encode c).length + (RespFrame.encodeList cs).length + 2 ≤
        m + 1 := by
      rw [hencl] at hfuel
      exact hfuel
    have estep : dRun fm (m + 1)
        (.setChildren (c :: cs).length (pre ++ RespFrame.encodeList (c :: cs))
          pre.length acc) =
        Res.bind (sliceFrom (pre ++ RespFrame.encodeList (c :: cs)) pre.length)
          (fun rem => Res.bind (eRun m (.frame rem)) (fun frame_len =>
            Res.bind (sliceGet (pre ++ RespFrame.encodeList (c :: cs)) pre.length
                (pre.length + frame_len))
              (fun sl => Res.bind (dRun fm m (.frame sl)) (fun f =>
                dRun fm m (.setChildren cs.length
                  (pre ++ RespFrame.encodeList (c :: cs))
                  (pre.length + frame_len) (RespSet.insert f acc)))))) := rfl
    rw [estep, sliceFrom_calc pre (RespFrame.encodeList (c :: cs))]
    simp only [Res.bind_ok]
    rw [show RespFrame.encodeList (c :: cs) =
          RespFrame.encode c ++ RespFrame.encodeList cs by simp [RespFrame.encodeList]]
    rw [ihE m (by omega) fm c (RespFrame.encodeList cs) hwf2.1 (by omega)]
    simp only [Res.bind_ok]
    rw [sliceGet_mid pre (RespFrame.encode c) (RespFrame.encodeList cs)]
    simp only [Res.bind_ok]
    rw [ihD m (by omega) fm c hwf2.1 (by omega)]
    simp only [Res.bind_ok]
    rw [respSet_insert_append c acc (fun y hy => hlt y hy c (List.mem_cons_self _ _))]
    rw [show pre ++ (RespFrame.encode c ++ RespFrame.encodeList cs) =
          (pre ++ RespFrame.encode c) ++ RespFrame.encodeList cs by simp]
    rw [show pre.length + (RespFrame.encode c).length =
          (pre ++ RespFrame.encode c).length by simp]
    rw [ih m fm (pre ++ RespFrame.encode c) (acc ++ [c]) (by omega) hwf2.2 hpair2.2
          (by
            intro y hy x hx
            rcases List.mem_append.mp hy with h | h
            · exact hlt y h x (List.mem_cons_of_mem _ hx)
            · have hyc : y = c := by simpa using h
              subst hyc
              exact hpair2.1 x hx)
          (by omega)]
    simp

theorem dRun_entries_calc (N : Nat)
    (ihE : ∀ m, m < N → ∀ (fm : List Nat → Option (List Nat)) (f : RespFrame)
      (rest : List Nat), wfFrame fm f = true →
      (RespFrame.encode f).length + 1 ≤ m →
      eRun m (.frame (RespFrame.encode f ++ rest)) = .ok (RespFrame.encode f).length)
    (ihD : ∀ m, m < N → ∀ (fm : List Nat → Option (List Nat)) (f : RespFrame),
      wfFrame fm f = true → (RespFrame.encode f).length + 1 ≤ m →
      dRun fm m (.frame (RespFrame.encode f)) = .ok f) :
    ∀ (ms : List (List Nat × RespFrame)) (n : Nat) (fm : List Nat → Option (List Nat))
      (pre : List Nat) (acc : List (List Nat × RespFrame)),
      n ≤ N → wfEntries fm ms = true →
      (∀ kv ∈ ms, (validUtf8 kv.1 && noCRLF kv.1) = true) →
      pairwiseLtB (fun a b => cmpBytes a.1 b.1) ms = true →
      (∀ kv ∈ acc, ∀ e ∈ ms, cmpBytes kv.1 e.1 = .lt) →
      (RespFrame.encodeEntries ms).length + 2 ≤ n →
      dRun fm n (.entries ms.length (pre ++ RespFrame.encodeEntries ms)
        pre.length acc) = .ok (.map (acc ++ ms)) := by
  intro ms
  induction ms with
  | nil =>
    intro n fm pre acc hnN hwf hkeys hpair hlt hfuel
    obtain ⟨m, rfl⟩ : ∃ m, n = m + 1 := ⟨n - 1, by omega⟩
    show Res.ok (RespFrame.map acc) = Res.ok (.map (acc ++ []))
    rw [List.append_nil]
  | cons e ms ih =>
    obtain ⟨k, v⟩ := e
    intro n fm pre acc hnN hwf hkeys hpair hlt hfuel
    obtain ⟨m, rfl⟩ : ∃ m, n = m + 1 := ⟨n - 1, by omega⟩
    have hwf2 : wfFrame fm v = true ∧ wfEntries fm ms = true := by
      have h := hwf
      simp [wfEntries] at h
      exact h
    have hk : validUtf8 k = true ∧ noCRLF k = true := by
      have h := hkeys (k, v) (List.mem_cons_self _ _)
      simpa using h
    have hpair2 : (∀ e ∈ ms, cmpBytes k e.1 = .lt) ∧
        pairwiseLtB (fun a b => cmpBytes a.1 b.1) ms = true := by
      have h := hpair
      simp [pairwiseLtB] at h
      exact ⟨fun e he => beq_ord_lt _ (h.1 e.1 e.2 he), h.2⟩
    have hencE : (RespFrame.encodeEntries ((k, v) :: ms)).length =
        (k.length + 3) + (RespFrame.encode v).length +
          (RespFrame.encodeEntries ms).length := by
      simp only [RespFrame.encodeEntries, CRLF, List.length_append, List.length_cons,
        List.length_nil]
    have hlen3 := encode_length_ge v
    have hfuel2 : (k.length + 3) + (RespFrame.encode v).length +
        (RespFrame.encodeEntries ms).length + 2 ≤ m + 1 := by
      rw [hencE] at hfuel
      exact hfuel
    have estep : dRun fm (m + 1)
        (.entries ((k, v) :: ms).length (pre ++ RespFrame.encodeEntries ((k, v) :: ms))
          pre.length acc) =
        Res.bind (sliceFrom (pre ++ RespFrame.encodeEntries ((k, v) :: ms)) pre.length)
          (fun rem => Res.bind (expectLenLine1 rem) (fun key_len =>
            Res.bind (sliceGet (pre ++ RespFrame.encodeEntries ((k, v) :: ms))
                pre.length (pre.length + key_len))
              (fun ksl => Res.bind (SimpleString.decode ksl) (fun key =>
                Res.bind (sliceFrom (pre ++ RespFrame.encodeEntries ((k, v) :: ms))
                    (pre.length + key_len))
                  (fun rem2 => Res.bind (eRun m (.frame rem2)) (fun value_len =>
                    Res.bind (sliceGet (pre ++ RespFrame.encodeEntries ((k, v) :: ms))
                        (pre.length + key_len) (pre.length + key_len + value_len))
                      (fun vsl => Res.bind (dRun fm m (.frame vsl)) (fun value =>
                        dRun fm m (.entries ms.length
                          (pre ++ RespFrame.encodeEntries ((k, v) :: ms))
                          (pre.length + key_len + value_len)
                          (RespMap.insert key value acc)))))))))) := rfl
    rw [estep, sliceFrom_calc pre (RespFrame.encodeEntries ((k, v) :: ms))]
    simp only [Res.bind_ok]
    rw [show RespFrame.encodeEntries ((k, v) :: ms) =
          (43 :: k) ++ 13 :: 10 :: (RespFrame.encode v ++ RespFrame.encodeEntries ms)
        by simp [RespFrame.encodeEntries, CRLF]]
    rw [expectLenLine1_calc (43 :: k)
          (RespFrame.encode v ++ RespFrame.encodeEntries ms)
          (noCRLF_cons_of_ne 43 k (by omega) hk.2)]
    simp only [Res.bind_ok, List.length_cons]
    rw [show (43 :: k) ++ 13 :: 10 :: (RespFrame.encode v ++ RespFrame.encodeEntries ms)
          = (43 :: (k ++ [13, 10])) ++
            (RespFrame.encode v ++ RespFrame.encodeEntries ms) by simp]
    rw [show k.length + 1 + 2 = (43 :: (k ++ [13, 10])).length by
        simp only [List.length_cons, List.length_append, List.length_nil]]
    rw [sliceGet_mid pre (43 :: (k ++ [13, 10]))
          (RespFrame.encode v ++ RespFrame.encodeEntries ms)]
    simp only [Res.bind_ok]
    rw [simpleString_decode_calc k hk.1]
    simp only [Res.bind_ok]
    rw [show pre ++ ((43 :: (k ++ [13, 10])) ++
            (RespFrame.encode v ++ RespFrame.encodeEntries ms)) =
          (pre ++ (43 :: (k ++ [13, 10]))) ++
            (RespFrame.encode v ++ RespFrame.encodeEntries ms) by simp]
    rw [show pre.length + (43 :: (k ++ [13, 10])).length =
          (pre ++ (43 :: (k ++ [13, 10]))).length by simp]
    rw [sliceFrom_calc (pre ++ (43 :: (k ++ [13, 10])))
          (RespFrame.encode v ++ RespFrame.encodeEntries ms)]
    simp only [Res.bind_ok]
    rw [ihE m (by omega) fm v (RespFrame.encodeEntries ms) hwf2.1 (by omega)]
    simp only [Res.bind_ok]
    rw [sliceGet_mid (pre ++ (43 :: (k ++ [13, 10]))) (RespFrame.encode v)
          (RespFrame.encodeEntries ms)]
    simp only [Res.bind_ok]
    rw [ihD m (by omega) fm v hwf2.1 (by omega)]
    simp only [Res.bind_ok]
    rw [respMap_insert_append k v acc
          (fun kv hkv => hlt kv hkv (k, v) (List.mem_cons_self _ _))]
    rw [show (pre ++ (43 :: (k ++ [13, 10]))) ++
            (RespFrame.encode v ++ RespFrame.encodeEntries ms) =
          ((pre ++ (43 :: (k ++ [13, 10]))) ++ RespFrame.encode v) ++
            RespFrame.encodeEntries ms by simp]
    have hlen_merge : (pre ++ (43 :: (k ++ [13, 10]))).length +
        (RespFrame.encode v).length =
        ((pre ++ (43 :: (k ++ [13, 10]))) ++ RespFrame.encode v).length := by
      simp only [List.length_append]
    rw [hlen_merge]
    rw [ih m fm ((pre ++ (43 :: (k ++ [13, 10]))) ++ RespFrame.encode v)
          (acc ++ [(k, v)]) (by omega) hwf2.2
          (fun kv hkv => hkeys kv (List.mem_cons_of_mem _ hkv)) hpair2.2
          (by
            intro kv hkv e he
            rcases List.mem_append.mp hkv with h | h
            · exact hlt kv h e (List.mem_cons_of_mem _ he)
            · have hkveq : kv = (k, v) := by simpa using h
              subst hkveq
              exact hpair2.1 e he)
          (by omega)]
    simp


theorem natToDigitBytes_len_pos (n : Nat) : 1 ≤ (natToDigitBytes n).length := by
  cases h : natToDigitBytes n with
  | nil => exact absurd h (natToDigitBytes_ne_nil n)
  | cons a t => simp

/-! ## The sizing round trip: `expect_length (encode f ++ rest) = len (encode f)`

Proved by strong induction on the fuel; the claim holds for any fuel at least
`len (encode f) + 1`, which the wrapper `RespFrame.decode` always supplies. -/

theorem expect_length_encode (N : Nat) :
    ∀ (fm : List Nat → Option (List Nat)) (f : RespFrame) (rest : List Nat),
      wfFrame fm f = true → (RespFrame.encode f).length + 1 ≤ N →
      eRun N (.frame (RespFrame.encode f ++ rest)) = .ok (RespFrame.encode f).length := by
  induction N using Nat.strong_induction_on with
  | _ N ih =>
  intro fm f rest hwf hfuel
  have hge := encode_length_ge f
  rcases N with _ | n
  · omega
  cases f with
  | simpleString s =>
    obtain ⟨h1, h2⟩ : validUtf8 s = true ∧ noCRLF s = true := by
      simpa [wfFrame] using hwf
    have hshape : RespFrame.encode (.simpleString s) ++ rest =
        43 :: (s ++ 13 :: 10 :: rest) := by
      simp [RespFrame.encode, CRLF]
    rw [hshape]
    rw [eRun_step_line1 n 43 (s ++ 13 :: 10 :: rest) (by simp)
          (by simp only [List.length_cons, List.length_append]; omega)]
    have hsh2 : (43 : Nat) :: (s ++ 13 :: 10 :: rest) = (43 :: s) ++ 13 :: 10 :: rest := by
      simp
    rw [hsh2, expectLenLine1_calc (43 :: s) rest (noCRLF_cons_of_ne 43 s (by omega) h2)]
    congr 1
    simp [RespFrame.encode, CRLF] <;> omega
  | error s =>
    obtain ⟨h1, h2⟩ : validUtf8 s = true ∧ noCRLF s = true := by
      simpa [wfFrame] using hwf
    have hshape : RespFrame.encode (.error s) ++ rest =
        45 :: (s ++ 13 :: 10 :: rest) := by
      simp [RespFrame.encode, CRLF]
    rw [hshape]
    rw [eRun_step_line1 n 45 (s ++ 13 :: 10 :: rest) (by simp)
          (by simp only [List.length_cons, List.length_append]; omega)]
    have hsh2 : (45 : Nat) :: (s ++ 13 :: 10 :: rest) = (45 :: s) ++ 13 :: 10 :: rest := by
      simp
    rw [hsh2, expectLenLine1_calc (45 :: s) rest (noCRLF_cons_of_ne 45 s (by omega) h2)]
    congr 1
    simp [RespFrame.encode, CRLF] <;> omega
  | bulkError b =>
    obtain ⟨⟨h1, h2⟩, h3⟩ : (validUtf8 b = true ∧ noCRLF b = true) ∧
        b.length < 18446744073709551616 := by simpa [wfFrame] using hwf
    have hL : utf8Lossy b = b := utf8Lossy_of_valid b h1
    have hshape : RespFrame.encode (.bulkError b) ++ rest =
        33 :: (natToDigitBytes b.length ++ 13 :: 10 :: (b ++ 13 :: 10 :: rest)) := by
      simp [RespFrame.encode, CRLF, hL]
    rw [hshape]
    rw [eRun_step_33 n _ (by simp only [List.length_cons, List.length_append]; omega)]
    have hsh2 : (33 : Nat) :: (natToDigitBytes b.length ++ 13 :: 10 :: (b ++ 13 :: 10 :: rest)) =
        (33 :: natToDigitBytes b.length) ++ 13 :: 10 :: (b ++ 13 :: 10 :: rest) := by
      simp
    rw [hsh2, expectLenLine2_calc (33 :: natToDigitBytes b.length) b rest
          (noCRLF_sentinel_digits 33 b.length (by omega)) h2]
    congr 1
    simp [RespFrame.encode, CRLF, hL] <;> omega
  | integer i =>
    by_cases hi : i < 0
    · have hshape : RespFrame.encode (.integer i) ++ rest =
          58 :: (45 :: (natToDigitBytes (-i).toNat ++ 13 :: 10 :: rest)) := by
        simp [RespFrame.encode, CRLF, hi]
      rw [hshape]
      rw [eRun_step_line1 n 58 (45 :: (natToDigitBytes (-i).toNat ++ 13 :: 10 :: rest))
            (by simp) (by simp only [List.length_cons, List.length_append]; omega)]
      have hsh2 : (58 : Nat) :: 45 :: (natToDigitBytes (-i).toNat ++ 13 :: 10 :: rest) =
          (58 :: 45 :: natToDigitBytes (-i).toNat) ++ 13 :: 10 :: rest := by
        simp
      rw [hsh2, expectLenLine1_calc (58 :: 45 :: natToDigitBytes (-i).toNat) rest
            (noCRLF_cons_of_ne 58 _ (by omega)
              (noCRLF_cons_of_ne 45 _ (by omega)
                (noCRLF_of_no13 _ (digits_no13 _))))]
      congr 1
      simp [RespFrame.encode, CRLF, hi] <;> omega
    · have hshape : RespFrame.encode (.integer i) ++ rest =
          58 :: (43 :: (natToDigitBytes i.toNat ++ 13 :: 10 :: rest)) := by
        simp [RespFrame.encode, CRLF, hi]
      rw [hshape]
      rw [eRun_step_line1 n 58 (43 :: (natToDigitBytes i.toNat ++ 13 :: 10 :: rest))
            (by simp) (by simp only [List.length_cons, List.length_append]; omega)]
      have hsh2 : (58 : Nat) :: 43 :: (natToDigitBytes i.toNat ++ 13 :: 10 :: rest) =
          (58 :: 43 :: natToDigitBytes i.toNat) ++ 13 :: 10 :: rest := by
        simp
      rw [hsh2, expectLenLine1_calc (58 :: 43 :: natToDigitBytes i.toNat) rest
            (noCRLF_cons_of_ne 58 _ (by omega)
              (noCRLF_cons_of_ne 43 _ (by omega)
                (noCRLF_of_no13 _ (digits_no13 _))))]
      congr 1
      simp [RespFrame.encode, CRLF, hi] <;> omega
  | bulkString b =>
    obtain ⟨⟨h1, h2⟩, h3⟩ : (validUtf8 b = true ∧ noCRLF b = true) ∧
        b.length < 18446744073709551616 := by simpa [wfFrame] using hwf
    have hL : utf8Lossy b = b := utf8Lossy_of_valid b h1
    have hshape : RespFrame.encode (.bulkString b) ++ rest =
        36 :: (natToDigitBytes b.length ++ 13 :: 10 :: (b ++ 13 :: 10 :: rest)) := by
      simp [RespFrame.encode, CRLF, hL]
    rw [hshape]
    rw [eRun_step_36 n _ (by simp only [List.length_cons, List.length_append]; omega)
          (digits_take2_ne b.length (13 :: 10 :: (b ++ 13 :: 10 :: rest)))]
    have hsh2 : (36 : Nat) :: (natToDigitBytes b.length ++ 13 :: 10 :: (b ++ 13 :: 10 :: rest)) =
        (36 :: natToDigitBytes b.length) ++ 13 :: 10 :: (b ++ 13 :: 10 :: rest) := by
      simp
    rw [hsh2, expectLenLine2_calc (36 :: natToDigitBytes b.length) b rest
          (noCRLF_sentinel_digits 36 b.length (by omega)) h2]
    congr 1
    simp [RespFrame.encode, CRLF, hL] <;> omega
  | nullBulkString =>
    have hshape : RespFrame.encode .nullBulkString ++ rest =
        36 :: (45 :: 49 :: 13 :: 10 :: rest) := by
      simp [RespFrame.encode]
    rw [hshape]
    rw [eRun_step_36_null n (45 :: 49 :: 13 :: 10 :: rest)
          (by simp only [List.length_cons]; omega) rfl]
    have hsh2 : (36 : Nat) :: 45 :: 49 :: 13 :: 10 :: rest =
        [36, 45, 49] ++ 13 :: 10 :: rest := by simp
    rw [hsh2, expectLenLine1_calc [36, 45, 49] rest (by decide)]
    rfl
  | array l =>
    obtain ⟨hm1, hm2⟩ : l.length < 18446744073709551616 ∧ wfFrames fm l = true := by
      simpa [wfFrame] using hwf
    have hp64 : (2 : Nat) ^ 64 = 18446744073709551616 := by norm_num
    have hD : noCRLF (42 :: natToDigitBytes l.length) = true :=
      noCRLF_sentinel_digits 42 l.length (by omega)
    have hp : parse_usize (utf8Lossy (natToDigitBytes l.length)) = some l.length := by
      rw [utf8Lossy_ascii _ (digits_ascii _)]
      exact parse_usize_natToDigitBytes l.length (by omega)
    have hDlen := natToDigitBytes_len_pos l.length
    have hencLen : (RespFrame.encode (.array l)).length =
        (natToDigitBytes l.length).length + 3 + (RespFrame.encodeList l).length := by
      simp [RespFrame.encode, CRLF] <;> omega
    have hshape : RespFrame.encode (.array l) ++ rest =
        42 :: (natToDigitBytes l.length ++ 13 :: 10 :: (RespFrame.encodeList l ++ rest)) := by
      simp [RespFrame.encode, CRLF]
    rw [hshape]
    rw [eRun_step_42 n _ (by simp only [List.length_cons, List.length_append]; omega)
          (digits_take2_ne l.length _)]
    obtain ⟨n2, rfl⟩ : ∃ n2, n = n2 + 1 := ⟨n - 1, by omega⟩
    have hsh2 : (42 : Nat) :: (natToDigitBytes l.length ++ 13 :: 10 ::
          (RespFrame.encodeList l ++ rest)) =
        (42 :: natToDigitBytes l.length) ++ 13 :: 10 ::
          (RespFrame.encodeList l ++ rest) := by simp
    rw [hsh2, eRun_hdr_array n2 l.length _ _ hD hp]
    have hB : (42 :: natToDigitBytes l.length) ++ 13 :: 10 ::
          (RespFrame.encodeList l ++ rest) =
        ((42 :: natToDigitBytes l.length) ++ [13, 10]) ++
          (RespFrame.encodeList l ++ rest) := by simp
    rw [hB]
    have hpre : (natToDigitBytes l.length).length + 3 =
        ((42 :: natToDigitBytes l.length) ++ [13, 10]).length := by
      simp only [List.length_append, List.length_cons, List.length_nil]
    rw [hpre]
    rw [eRun_children_calc (n2 + 1 + 1) (fun m hm => (ih m hm)) l n2 fm
          ((42 :: natToDigitBytes l.length) ++ [13, 10]) rest (by omega) hm2 (by omega)]
    congr 1
    simp only [List.length_append, List.length_cons, List.length_nil, hencLen] <;> omega
  | nullArray =>
    have hshape : RespFrame.encode .nullArray ++ rest =
        42 :: (45 :: 49 :: 13 :: 10 :: rest) := by
      simp [RespFrame.encode]
    rw [hshape]
    rw [eRun_step_42_null n (45 :: 49 :: 13 :: 10 :: rest)
          (by simp only [List.length_cons]; omega) rfl]
    have hsh2 : (42 : Nat) :: 45 :: 49 :: 13 :: 10 :: rest =
        [42, 45, 49] ++ 13 :: 10 :: rest := by simp
    rw [hsh2, expectLenLine1_calc [42, 45, 49] rest (by decide)]
    rfl
  | null =>
    have hshape : RespFrame.encode .null ++ rest = 95 :: (13 :: 10 :: rest) := by
      simp [RespFrame.encode]
    rw [hshape]
    rw [eRun_step_line1 n 95 (13 :: 10 :: rest) (by simp)
          (by simp only [List.length_cons]; omega)]
    have hsh2 : (95 : Nat) :: 13 :: 10 :: rest = [95] ++ 13 :: 10 :: rest := by simp
    rw [hsh2, expectLenLine1_calc [95] rest (by decide)]
    rfl
  | boolean b =>
    cases b
    · have hshape : RespFrame.encode (.boolean false) ++ rest =
          35 :: (102 :: 13 :: 10 :: rest) := by
        simp [RespFrame.encode, CRLF]
      rw [hshape]
      rw [eRun_step_line1 n 35 (102 :: 13 :: 10 :: rest) (by simp)
            (by simp only [List.length_cons]; omega)]
      have hsh2 : (35 : Nat) :: 102 :: 13 :: 10 :: rest =
          [35, 102] ++ 13 :: 10 :: rest := by simp
      rw [hsh2, expectLenLine1_calc [35, 102] rest (by decide)]
      rfl
    · have hshape : RespFrame.encode (.boolean true) ++ rest =
          35 :: (116 :: 13 :: 10 :: rest) := by
        simp [RespFrame.encode, CRLF]
      rw [hshape]
      rw [eRun_step_line1 n 35 (116 :: 13 :: 10 :: rest) (by simp)
            (by simp only [List.length_cons]; omega)]
      have hsh2 : (35 : Nat) :: 116 :: 13 :: 10 :: rest =
          [35, 116] ++ 13 :: 10 :: rest := by simp
      rw [hsh2, expectLenLine1_calc [35, 116] rest (by decide)]
      rfl
  | double s =>
    obtain ⟨⟨h1, h2⟩, h3⟩ : (validUtf8 s = true ∧ noCRLF s = true) ∧ fm s = some s := by
      simpa [wfFrame] using hwf
    have hshape : RespFrame.encode (.double s) ++ rest =
        44 :: (s ++ 13 :: 10 :: rest) := by
      simp [RespFrame.encode, CRLF]
    rw [hshape]
    rw [eRun_step_line1 n 44 (s ++ 13 :: 10 :: rest) (by simp)
          (by simp only [List.length_cons, List.length_append]; omega)]
    have hsh2 : (44 : Nat) :: (s ++ 13 :: 10 :: rest) = (44 :: s) ++ 13 :: 10 :: rest := by
      simp
    rw [hsh2, expectLenLine1_calc (44 :: s) rest (noCRLF_cons_of_ne 44 s (by omega) h2)]
    congr 1
    simp [RespFrame.encode, CRLF] <;> omega
  | map m =>
    obtain ⟨⟨⟨hm1, hm2⟩, hm3⟩, hm4⟩ :
        ((m.length < 18446744073709551616 ∧
          pairwiseLtB (fun a b => cmpBytes a.1 b.1) m = true) ∧
          ∀ (a : List Nat) (b : RespFrame), (a, b) ∈ m →
            validUtf8 a = true ∧ noCRLF a = true) ∧
        wfEntries fm m = true := by simpa [wfFrame] using hwf
    have hkeys : ∀ kv ∈ m, (validUtf8 kv.1 && noCRLF kv.1) = true := by
      intro kv hkv
      have h2 := hm3 kv.1 kv.2 hkv
      simp [h2.1, h2.2]
    have hD : noCRLF (37 :: natToDigitBytes m.length) = true :=
      noCRLF_sentinel_digits 37 m.length (by omega)
    have hp : parse_usize (utf8Lossy (natToDigitBytes m.length)) = some m.length := by
      rw [utf8Lossy_ascii _ (digits_ascii _)]
      refine parse_usize_natToDigitBytes m.length ?_
      have hp64 : (2 : Nat) ^ 64 = 18446744073709551616 := by norm_num
      omega
    have hDlen := natToDigitBytes_len_pos m.length
    have hencLen : (RespFrame.encode (.map m)).length =
        (natToDigitBytes m.length).length + 3 + (RespFrame.encodeEntries m).length := by
      simp [RespFrame.encode, CRLF] <;> omega
    have hshape : RespFrame.encode (.map m) ++ rest =
        37 :: (natToDigitBytes m.length ++ 13 :: 10 ::
          (RespFrame.encodeEntries m ++ rest)) := by
      simp [RespFrame.encode, CRLF]
    rw [hshape]
    rw [eRun_step_37 n _ (by simp only [List.length_cons, List.length_append]; omega)]
    obtain ⟨n2, rfl⟩ : ∃ n2, n = n2 + 1 := ⟨n - 1, by omega⟩
    have hsh2 : (37 : Nat) :: (natToDigitBytes m.length ++ 13 :: 10 ::
          (RespFrame.encodeEntries m ++ rest)) =
        (37 :: natToDigitBytes m.length) ++ 13 :: 10 ::
          (RespFrame.encodeEntries m ++ rest) := by simp
    rw [hsh2, eRun_hdr_map n2 m.length _ _ hD hp]
    have hB : (37 :: natToDigitBytes m.length) ++ 13 :: 10 ::
          (RespFrame.encodeEntries m ++ rest) =
        ((37 :: natToDigitBytes m.length) ++ [13, 10]) ++
          (RespFrame.encodeEntries m ++ rest) := by simp
    rw [hB]
    have hpre : (natToDigitBytes m.length).length + 3 =
        ((37 :: natToDigitBytes m.length) ++ [13, 10]).length := by
      simp only [List.length_append, List.length_cons, List.length_nil]
    rw [hpre]
    rw [eRun_mapChildren_calc (n2 + 1 + 1) (fun m2 hm => (ih m2 hm)) m n2 fm
          ((37 :: natToDigitBytes m.length) ++ [13, 10]) rest (by omega) hm4 hkeys
          (by omega)]
    congr 1
    simp only [List.length_append, List.length_cons, List.length_nil, hencLen] <;> omega
  | set s =>
    obtain ⟨⟨hs1, hs2⟩, hs3⟩ :
        (s.length < 18446744073709551616 ∧ pairwiseLtB cmpFrame s = true) ∧
        wfFrames fm s = true := by simpa [wfFrame] using hwf
    have hD : noCRLF (126 :: natToDigitBytes s.length) = true :=
      noCRLF_sentinel_digits 126 s.length (by omega)
    have hp : parse_usize (utf8Lossy (natToDigitBytes s.length)) = some s.length := by
      rw [utf8Lossy_ascii _ (digits_ascii _)]
      refine parse_usize_natToDigitBytes s.length ?_
      have hp64 : (2 : Nat) ^ 64 = 18446744073709551616 := by norm_num
      omega
    have hDlen := natToDigitBytes_len_pos s.length
    have hencLen : (RespFrame.encode (.set s)).length =
        (natToDigitBytes s.length).length + 3 + (RespFrame.encodeList s).length := by
      simp [RespFrame.encode, CRLF] <;> omega
    have hshape : RespFrame.encode (.set s) ++ rest =
        126 :: (natToDigitBytes s.length ++ 13 :: 10 ::
          (RespFrame.encodeList s ++ rest)) := by
      simp [RespFrame.encode, CRLF]
    rw [hshape]
    rw [eRun_step_126 n _ (by simp only [List.length_cons, List.length_append]; omega)]
    obtain ⟨n2, rfl⟩ : ∃ n2, n = n2 + 1 := ⟨n - 1, by omega⟩
    have hsh2 : (126 : Nat) :: (natToDigitBytes s.length ++ 13 :: 10 ::
          (RespFrame.encodeList s ++ rest)) =
        (126 :: natToDigitBytes s.length) ++ 13 :: 10 ::
          (RespFrame.encodeList s ++ rest) := by simp
    rw [hsh2, eRun_hdr_set n2 s.length _ _ hD hp]
    have hB : (126 :: natToDigitBytes s.length) ++ 13 :: 10 ::
          (RespFrame.encodeList s ++ rest) =
        ((126 :: natToDigitBytes s.length) ++ [13, 10]) ++
          (RespFrame.encodeList s ++ rest) := by simp
    rw [hB]
    have hpre : (natToDigitBytes s.length).length + 3 =
        ((126 :: natToDigitBytes s.length) ++ [13, 10]).length := by
      simp only [List.length_append, List.length_cons, List.length_nil]
    rw [hpre]
    rw [eRun_children_calc (n2 + 1 + 1) (fun m hm => (ih m hm)) s n2 fm
          ((126 :: natToDigitBytes s.length) ++ [13, 10]) rest (by omega) hs3 (by omega)]
    congr 1
    simp only [List.length_append, List.length_cons, List.length_nil, hencLen] <;> omega


/-! ## The decoding round trip: `decode (encode f) = f` for well-formed `f` -/

theorem decodeF_encode (N : Nat) :
    ∀ (fm : List Nat → Option (List Nat)) (f : RespFrame),
      wfFrame fm f = true → (RespFrame.encode f).length + 1 ≤ N →
      dRun fm N (.frame (RespFrame.encode f)) = .ok f := by
  induction N using Nat.strong_induction_on with
  | _ N ih =>
  intro fm f hwf hfuel
  have hge := encode_length_ge f
  rcases N with _ | n
  · omega
  cases f with
  | simpleString s =>
    obtain ⟨h1, h2⟩ : validUtf8 s = true ∧ noCRLF s = true := by
      simpa [wfFrame] using hwf
    have hb : RespFrame.encode (.simpleString s) = 43 :: (s ++ [13, 10]) := rfl
    rw [hb, dRun_step_43, simpleString_decode_calc s h1]
    rfl
  | error s =>
    obtain ⟨h1, h2⟩ : validUtf8 s = true ∧ noCRLF s = true := by
      simpa [wfFrame] using hwf
    have hb : RespFrame.encode (.error s) = 45 :: (s ++ [13, 10]) := rfl
    rw [hb, dRun_step_45, simpleError_decode_calc s h1]
    rfl
  | bulkError b =>
    obtain ⟨⟨h1, h2⟩, h3⟩ : (validUtf8 b = true ∧ noCRLF b = true) ∧
        b.length < 18446744073709551616 := by simpa [wfFrame] using hwf
    have hL : utf8Lossy b = b := utf8Lossy_of_valid b h1
    have hb : RespFrame.encode (.bulkError b) =
        33 :: (((natToDigitBytes b.length ++ [13, 10]) ++ b) ++ [13, 10]) := by
      simp [RespFrame.encode, CRLF, hL]
    rw [hb, dRun_step_33, bulkError_decode_calc b h2
          (by
            have hp64 : (2 : Nat) ^ 64 = 18446744073709551616 := by norm_num
            omega)]
    rfl
  | integer i =>
    obtain ⟨hlo, hhi⟩ : -9223372036854775808 ≤ i ∧ i < 9223372036854775808 := by
      simpa [wfFrame] using hwf
    have hb : RespFrame.encode (.integer i) =
        58 :: ((if i < 0 then 45 :: natToDigitBytes (-i).toNat
                else 43 :: natToDigitBytes i.toNat) ++ [13, 10]) := rfl
    rw [hb, dRun_step_58, i64_decode_calc i
          (by
            have h63 : (2 : Int) ^ 63 = 9223372036854775808 := by norm_num
            omega)
          (by
            have h63 : (2 : Int) ^ 63 = 9223372036854775808 := by norm_num
            omega)]
    rfl
  | bulkString b =>
    obtain ⟨⟨h1, h2⟩, h3⟩ : (validUtf8 b = true ∧ noCRLF b = true) ∧
        b.length < 18446744073709551616 := by simpa [wfFrame] using hwf
    have hL : utf8Lossy b = b := utf8Lossy_of_valid b h1
    have hb : RespFrame.encode (.bulkString b) =
        36 :: (((natToDigitBytes b.length ++ [13, 10]) ++ b) ++ [13, 10]) := by
      simp [RespFrame.encode, CRLF, hL]
    rw [hb, dRun_step_36]
    rw [nullBulkString_decode_notnull ((natToDigitBytes b.length ++ [13, 10]) ++ b)
          (by rw [List.append_assoc]; exact digits_front_ne b.length ([13, 10] ++ b))]
    rw [bulkString_decode_calc b h2
          (by
            have hp64 : (2 : Nat) ^ 64 = 18446744073709551616 := by norm_num
            omega)]
    rfl
  | nullBulkString => rfl
  | array l =>
    obtain ⟨hm1, hm2⟩ : l.length < 18446744073709551616 ∧ wfFrames fm l = true := by
      simpa [wfFrame] using hwf
    have hp64 : (2 : Nat) ^ 64 = 18446744073709551616 := by norm_num
    have hD : noCRLF (42 :: natToDigitBytes l.length) = true :=
      noCRLF_sentinel_digits 42 l.length (by omega)
    have hp : parse_usize (utf8Lossy (natToDigitBytes l.length)) = some l.length := by
      rw [utf8Lossy_ascii _ (digits_ascii _)]
      exact parse_usize_natToDigitBytes l.length (by omega)
    have hDlen := natToDigitBytes_len_pos l.length
    have hencLen : (RespFrame.encode (.array l)).length =
        (natToDigitBytes l.length).length + 3 + (RespFrame.encodeList l).length := by
      simp [RespFrame.encode, CRLF] <;> omega
    have hb : RespFrame.encode (.array l) =
        42 :: (natToDigitBytes l.length ++ 13 :: 10 :: RespFrame.encodeList l) := by
      simp [RespFrame.encode, CRLF]
    rw [hb, dRun_step_42]
    have hreject : RespNullArray.decode
        (42 :: (natToDigitBytes l.length ++ 13 :: 10 :: RespFrame.encodeList l)) =
        .err .invalid := by
      rcases encodeList_ends l with hnil | ⟨p, hp2⟩
      · subst hnil
        rw [show RespFrame.encodeList ([] : List RespFrame) = [] from rfl]
        exact respNullArray_decode_notnull _
          (by simpa using digits_front_ne (List.length ([] : List RespFrame)) [])
      · rw [hp2]
        rw [show (42 : Nat) :: (natToDigitBytes l.length ++ 13 :: 10 :: (p ++ [13, 10])) =
              42 :: ((natToDigitBytes l.length ++ 13 :: 10 :: p) ++ [13, 10]) by simp]
        exact respNullArray_decode_notnull _ (digits_front_ne l.length (13 :: 10 :: p))
    rw [hreject]
    obtain ⟨n2, rfl⟩ : ∃ n2, n = n2 + 1 := ⟨n - 1, by omega⟩
    have hsh2 : (42 : Nat) :: (natToDigitBytes l.length ++ 13 :: 10 ::
          RespFrame.encodeList l) =
        (42 :: natToDigitBytes l.length) ++ 13 :: 10 :: RespFrame.encodeList l := by simp
    rw [hsh2]
    have hval : validate_frame_data ((42 :: natToDigitBytes l.length) ++ 13 :: 10 ::
        RespFrame.encodeList l) 42 = .ok () := by
      refine validate_hdr 42 _ _ ?_
      rcases encodeList_ends l with h | h
      · exact Or.inl (by subst h; rfl)
      · exact Or.inr h
    rw [dRun_hdr_array fm n2 l.length _ _ hD hval hp]
    have hB : (42 :: natToDigitBytes l.length) ++ 13 :: 10 :: RespFrame.encodeList l =
        ((42 :: natToDigitBytes l.length) ++ [13, 10]) ++ RespFrame.encodeList l := by
      simp
    rw [hB]
    have hpre : (natToDigitBytes l.length).length + 3 =
        ((42 :: natToDigitBytes l.length) ++ [13, 10]).length := by
      simp only [List.length_append, List.length_cons, List.length_nil]
    rw [hpre]
    rw [dRun_children_calc (n2 + 1 + 1) (fun m2 _ => expect_length_encode m2)
          (fun m2 hm => ih m2 hm) l n2 fm
          ((42 :: natToDigitBytes l.length) ++ [13, 10]) [] (by omega) hm2 (by omega)]
    simp
  | nullArray => rfl
  | null => rfl
  | boolean b => cases b <;> rfl
  | double s =>
    obtain ⟨⟨h1, h2⟩, hfm⟩ : (validUtf8 s = true ∧ noCRLF s = true) ∧ fm s = some s := by
      simpa [wfFrame] using hwf
    have hb : RespFrame.encode (.double s) = 44 :: (s ++ [13, 10]) := rfl
    rw [hb, dRun_step_44, respDouble_decode_calc fm s h1 hfm]
    rfl
  | map m =>
    obtain ⟨⟨⟨hm1, hm2⟩, hm3⟩, hm4⟩ :
        ((m.length < 18446744073709551616 ∧
          pairwiseLtB (fun a b => cmpBytes a.1 b.1) m = true) ∧
          ∀ (a : List Nat) (b : RespFrame), (a, b) ∈ m →
            validUtf8 a = true ∧ noCRLF a = true) ∧
        wfEntries fm m = true := by simpa [wfFrame] using hwf
    have hkeys : ∀ kv ∈ m, (validUtf8 kv.1 && noCRLF kv.1) = true := by
      intro kv hkv
      have h2 := hm3 kv.1 kv.2 hkv
      simp [h2.1, h2.2]
    have hp64 : (2 : Nat) ^ 64 = 18446744073709551616 := by norm_num
    have hD : noCRLF (37 :: natToDigitBytes m.length) = true :=
      noCRLF_sentinel_digits 37 m.length (by omega)
    have hp : parse_usize (utf8Lossy (natToDigitBytes m.length)) = some m.length := by
      rw [utf8Lossy_ascii _ (digits_ascii _)]
      exact parse_usize_natToDigitBytes m.length (by omega)
    have hDlen := natToDigitBytes_len_pos m.length
    have hencLen : (RespFrame.encode (.map m)).length =
        (natToDigitBytes m.length).length + 3 + (RespFrame.encodeEntries m).length := by
      simp [RespFrame.encode, CRLF] <;> omega
    have hb : RespFrame.encode (.map m) =
        37 :: (natToDigitBytes m.length ++ 13 :: 10 :: RespFrame.encodeEntries m) := by
      simp [RespFrame.encode, CRLF]
    rw [hb, dRun_step_37]
    obtain ⟨n2, rfl⟩ : ∃ n2, n = n2 + 1 := ⟨n - 1, by omega⟩
    have hsh2 : (37 : Nat) :: (natToDigitBytes m.length ++ 13 :: 10 ::
          RespFrame.encodeEntries m) =
        (37 :: natToDigitBytes m.length) ++ 13 :: 10 :: RespFrame.encodeEntries m := by
      simp
    rw [hsh2]
    have hval : validate_frame_data ((37 :: natToDigitBytes m.length) ++ 13 :: 10 ::
        RespFrame.encodeEntries m) 37 = .ok () := by
      refine validate_hdr 37 _ _ ?_
      rcases encodeEntries_ends m with h | h
      · exact Or.inl (by subst h; rfl)
      · exact Or.inr h
    rw [dRun_hdr_map fm n2 m.length _ _ hD hval hp]
    have hB : (37 :: natToDigitBytes m.length) ++ 13 :: 10 :: RespFrame.encodeEntries m =
        ((37 :: natToDigitBytes m.length) ++ [13, 10]) ++ RespFrame.encodeEntries m := by
      simp
    rw [hB]
    have hpre : (natToDigitBytes m.length).length + 3 =
        ((37 :: natToDigitBytes m.length) ++ [13, 10]).length := by
      simp only [List.length_append, List.length_cons, List.length_nil]
    rw [hpre]
    rw [dRun_entries_calc (n2 + 1 + 1) (fun m2 _ => expect_length_encode m2)
          (fun m2 hm => ih m2 hm) m n2 fm
          ((37 :: natToDigitBytes m.length) ++ [13, 10]) [] (by omega) hm4 hkeys hm2
          (fun kv hkv => absurd hkv (List.not_mem_nil kv)) (by omega)]
    simp
  | set s =>
    obtain ⟨⟨hs1, hs2⟩, hs3⟩ :
        (s.length < 18446744073709551616 ∧ pairwiseLtB cmpFrame s = true) ∧
        wfFrames fm s = true := by simpa [wfFrame] using hwf
    have hp64 : (2 : Nat) ^ 64 = 18446744073709551616 := by norm_num
    have hD : noCRLF (126 :: natToDigitBytes s.length) = true :=
      noCRLF_sentinel_digits 126 s.length (by omega)
    have hp : parse_usize (utf8Lossy (natToDigitBytes s.length)) = some s.length := by
      rw [utf8Lossy_ascii _ (digits_ascii _)]
      exact parse_usize_natToDigitBytes s.length (by omega)
    have hDlen := natToDigitBytes_len_pos s.length
    have hencLen : (RespFrame.encode (.set s)).length =
        (natToDigitBytes s.length).length + 3 + (RespFrame.encodeList s).length := by
      simp [RespFrame.encode, CRLF] <;> omega
    have hb : RespFrame.encode (.set s) =
        126 :: (natToDigitBytes s.length ++ 13 :: 10 :: RespFrame.encodeList s) := by
      simp [RespFrame.encode, CRLF]
    rw [hb, dRun_step_126]
    obtain ⟨n2, rfl⟩ : ∃ n2, n = n2 + 1 := ⟨n - 1, by omega⟩
    have hsh2 : (126 : Nat) :: (natToDigitBytes s.length ++ 13 :: 10 ::
          RespFrame.encodeList s) =
        (126 :: natToDigitBytes s.length) ++ 13 :: 10 :: RespFrame.encodeList s := by
      simp
    rw [hsh2]
    have hval : validate_frame_data ((126 :: natToDigitBytes s.length) ++ 13 :: 10 ::
        RespFrame.encodeList s) 126 = .ok () := by
      refine validate_hdr 126 _ _ ?_
      rcases encodeList_ends s with h | h
      · exact Or.inl (by subst h; rfl)
      · exact Or.inr h
    rw [dRun_hdr_set fm n2 s.length _ _ hD hval hp]
    have hB : (126 :: natToDigitBytes s.length) ++ 13 :: 10 :: RespFrame.encodeList s =
        ((126 :: natToDigitBytes s.length) ++ [13, 10]) ++ RespFrame.encodeList s := by
      simp
    rw [hB]
    have hpre : (natToDigitBytes s.length).length + 3 =
        ((126 :: natToDigitBytes s.length) ++ [13, 10]).length := by
      simp only [List.length_append, List.length_cons, List.length_nil]
    rw [hpre]
    rw [dRun_setChildren_calc (n2 + 1 + 1) (fun m2 _ => expect_length_encode m2)
          (fun m2 hm => ih m2 hm) s n2 fm
          ((126 :: natToDigitBytes s.length) ++ [13, 10]) [] (by omega) hs3 hs2
          (fun y hy => absurd hy (List.not_mem_nil y)) (by omega)]
    simp


/-! ## Top-level decode/encode round trip -/

theorem decode_encode (fm : List Nat → Option (List Nat)) (f : RespFrame)
    (hwf : wfFrame fm f = true) :
    RespFrame.decode fm (RespFrame.encode f) = .ok f := by
  unfold RespFrame.decode RespFrame.decodeF
  exact decodeF_encode (2 * (RespFrame.encode f).length + 4) fm f hwf
    (by have := encode_length_ge f; omega)

/-! ## Sortedness of decoded sets (the `BTreeSet` invariant) -/

theorem beq_ord_lt_iff (o : Ordering) : (o == Ordering.lt) = true ↔ o = .lt :=
  ⟨beq_ord_lt o, fun h => by subst h; rfl⟩

theorem pairwiseLtB_iff (l : List RespFrame) :
    pairwiseLtB cmpFrame l = true ↔ l.Pairwise (fun a b => cmpFrame a b = .lt) := by
  induction l with
  | nil => simp [pairwiseLtB]
  | cons x xs ih => simp [pairwiseLtB, List.pairwise_cons, ih, beq_ord_lt_iff]

theorem setsSortedFrames_append (l1 l2 : List RespFrame) :
    setsSortedFrames (l1 ++ l2) = (setsSortedFrames l1 && setsSortedFrames l2) := by
  induction l1 with
  | nil => simp [setsSortedFrames]
  | cons x xs ih => simp [setsSortedFrames, ih, Bool.and_assoc]

theorem setsSortedFrames_all (l : List RespFrame) :
    setsSortedFrames l = true ↔ ∀ x ∈ l, setsSortedFrame x = true := by
  induction l with
  | nil => simp [setsSortedFrames]
  | cons x xs ih => simp [setsSortedFrames, ih]

theorem setsSortedEntries_insert (k : List Nat) (v : RespFrame) :
    ∀ acc : List (List Nat × RespFrame), setsSortedEntries acc = true →
      setsSortedFrame v = true → setsSortedEntries (RespMap.insert k v acc) = true := by
  intro acc
  induction acc with
  | nil =>
    intro _ hv
    simp [RespMap.insert, setsSortedEntries, hv]
  | cons e rest ih =>
    obtain ⟨k2, v2⟩ := e
    intro hacc hv
    have hparts : setsSortedFrame v2 = true ∧ setsSortedEntries rest = true := by
      simpa [setsSortedEntries] using hacc
    rcases hc : cmpBytes k k2 with _ | _ | _ <;>
      simp only [RespMap.insert, hc]
    · simp [setsSortedEntries, hv, hparts.1, hparts.2]
    · simp [setsSortedEntries, hv, hparts.2]
    · simp [setsSortedEntries, hparts.1, ih hparts.2 hv]

theorem setsSortedFrames_insert (g : RespFrame) (acc : List RespFrame)
    (hacc : setsSortedFrames acc = true) (hg : setsSortedFrame g = true) :
    setsSortedFrames (RespSet.insert g acc) = true := by
  rw [setsSortedFrames_all]
  intro x hx
  rcases respSet_mem_insert g x acc hx with h | h
  · subst h
    exact hg
  · exact (setsSortedFrames_all acc).mp hacc x h

/-- Invariant of the decoding interpreter: every frame it returns has all its
sets strictly sorted (hence duplicate-free), for every selector. -/
theorem dRun_setsSorted (fm : List Nat → Option (List Nat)) : ∀ n : Nat,
    (∀ buf f, dRun fm n (.frame buf) = .ok f → setsSortedFrame f = true)
    ∧ (∀ buf f, dRun fm n (.array buf) = .ok f → setsSortedFrame f = true)
    ∧ (∀ buf f, dRun fm n (.map buf) = .ok f → setsSortedFrame f = true)
    ∧ (∀ buf f, dRun fm n (.set buf) = .ok f → setsSortedFrame f = true)
    ∧ (∀ c buf st acc f, dRun fm n (.children c buf st acc) = .ok f →
        setsSortedFrames acc = true → setsSortedFrame f = true)
    ∧ (∀ c buf st acc f, dRun fm n (.entries c buf st acc) = .ok f →
        setsSortedEntries acc = true → setsSortedFrame f = true)
    ∧ (∀ c buf st acc f, dRun fm n (.setChildren c buf st acc) = .ok f →
        setsSortedFrames acc = true →
        acc.Pairwise (fun a b => cmpFrame a b = .lt) → setsSortedFrame f = true) := by
  intro n
  induction n with
  | zero =>
    refine ⟨?_, ?_, ?_, ?_, ?_, ?_, ?_⟩
    · intro buf f h
      exact nomatch h
    · intro buf f h
      exact nomatch h
    · intro buf f h
      exact nomatch h
    · intro buf f h
      exact nomatch h
    · intro c buf st acc f h hacc
      exact nomatch h
    · intro c buf st acc f h hacc
      exact nomatch h
    · intro c buf st acc f h hacc hpw
      exact nomatch h
  | succ n ih =>
    obtain ⟨ihF, ihA, ihM, ihS, ihC, ihE2, ihSC⟩ := ih
    refine ⟨?_, ?_, ?_, ?_, ?_, ?_, ?_⟩
    · -- frame dispatch
      intro buf f h
      have e : dRun fm (n + 1) (.frame buf) =
          match buf.head? with
          | some 43 =>
            Res.bind (SimpleString.decode buf) fun s => Res.ok (RespFrame.simpleString s)
          | some 45 =>
            Res.bind (SimpleError.decode buf) fun s => Res.ok (RespFrame.error s)
          | some 33 =>
            Res.bind (BulkError.decode buf) fun b => Res.ok (RespFrame.bulkError b)
          | some 58 => Res.bind (I64.decode buf) fun i => Res.ok (RespFrame.integer i)
          | some 36 =>
            match NullBulkString.decode buf with
            | .ok _ => Res.ok RespFrame.nullBulkString
            | .err .incomplete => Res.err RespError.incomplete
            | .err _ =>
              Res.bind (BulkString.decode buf) fun b => Res.ok (RespFrame.bulkString b)
            | .panic => Res.panic
          | some 95 => Res.bind (RespNull.decode buf) fun _ => Res.ok RespFrame.null
          | some 35 => Res.bind (Bool.decode buf) fun b => Res.ok (RespFrame.boolean b)
          | some 44 =>
            Res.bind (RespDouble.decode fm buf) fun s => Res.ok (RespFrame.double s)
          | some 42 =>
            match RespNullArray.decode buf with
            | .ok _ => Res.ok RespFrame.nullArray
            | .err .incomplete => Res.err RespError.incomplete
            | .err _ => dRun fm n (.array buf)
            | .panic => Res.panic
          | some 37 => dRun fm n (.map buf)
          | some 126 => dRun fm n (.set buf)
          | none => Res.err RespError.incomplete
          | some _ => Res.err RespError.invalidFrameType := rfl
      rw [e] at h
      split at h
      · -- 43
        cases hd : SimpleString.decode buf with
        | ok s =>
          rw [hd] at h
          simp only [Res.bind_ok] at h
          injection h with h2
          rw [← h2]
          rfl
        | err er =>
          rw [hd] at h
          simp only [Res.bind_err] at h
          exact nomatch h
        | panic =>
          rw [hd] at h
          simp only [Res.bind_panic] at h
          exact nomatch h
      · -- 45
        cases hd : SimpleError.decode buf with
        | ok s =>
          rw [hd] at h
          simp only [Res.bind_ok] at h
          injection h with h2
          rw [← h2]
          rfl
        | err er =>
          rw [hd] at h
          simp only [Res.bind_err] at h
          exact nomatch h
        | panic =>
          rw [hd] at h
          simp only [Res.bind_panic] at h
          exact nomatch h
      · -- 33
        cases hd : BulkError.decode buf with
        | ok b =>
          rw [hd] at h
          simp only [Res.bind_ok] at h
          injection h with h2
          rw [← h2]
          rfl
        | err er =>
          rw [hd] at h
          simp only [Res.bind_err] at h
          exact nomatch h
        | panic =>
          rw [hd] at h
          simp only [Res.bind_panic] at h
          exact nomatch h
      · -- 58
        cases hd : I64.decode buf with
        | ok i =>
          rw [hd] at h
          simp only [Res.bind_ok] at h
          injection h with h2
          rw [← h2]
          rfl
        | err er =>
          rw [hd] at h
          simp only [Res.bind_err] at h
          exact nomatch h
        | panic =>
          rw [hd] at h
          simp only [Res.bind_panic] at h
          exact nomatch h
      · -- 36
        split at h
        · injection h with h2
          rw [← h2]
          rfl
        · exact nomatch h
        · cases hd : BulkString.decode buf with
          | ok b =>
            rw [hd] at h
            simp only [Res.bind_ok] at h
            injection h with h2
            rw [← h2]
            rfl
          | err er =>
            rw [hd] at h
            simp only [Res.bind_err] at h
            exact nomatch h
          | panic =>
            rw [hd] at h
            simp only [Res.bind_panic] at h
            exact nomatch h
        · exact nomatch h
      · -- 95
        cases hd : RespNull.decode buf with
        | ok u =>
          rw [hd] at h
          simp only [Res.bind_ok] at h
          injection h with h2
          rw [← h2]
          rfl
        | err er =>
          rw [hd] at h
          simp only [Res.bind_err] at h
          exact nomatch h
        | panic =>
          rw [hd] at h
          simp only [Res.bind_panic] at h
          exact nomatch h
      · -- 35
        cases hd : Bool.decode buf with
        | ok b =>
          rw [hd] at h
          simp only [Res.bind_ok] at h
          injection h with h2
          rw [← h2]
          rfl
        | err er =>
          rw [hd] at h
          simp only [Res.bind_err] at h
          exact nomatch h
        | panic =>
          rw [hd] at h
          simp only [Res.bind_panic] at h
          exact nomatch h
      · -- 44
        cases hd : RespDouble.decode fm buf with
        | ok s =>
          rw [hd] at h
          simp only [Res.bind_ok] at h
          injection h with h2
          rw [← h2]
          rfl
        | err er =>
          rw [hd] at h
          simp only [Res.bind_err] at h
          exact nomatch h
        | panic =>
          rw [hd] at h
          simp only [Res.bind_panic] at h
          exact nomatch h
      · -- 42
        split at h
        · injection h with h2
          rw [← h2]
          rfl
        · exact nomatch h
        · exact ihA buf f h
        · exact nomatch h
      · -- 37
        exact ihM buf f h
      · -- 126
        exact ihS buf f h
      · -- none
        exact nomatch h
      · -- other byte
        exact nomatch h
    · -- array
      intro buf f h
      have e2 : dRun fm (n + 1) (.array buf) =
          Res.bind (validate_frame_data buf 42) (fun _ =>
            Res.bind (find_crlf buf 1) (fun o =>
              match o with
              | none => Res.err RespError.incomplete
              | some nth_len =>
                Res.bind (sliceGet buf 1 nth_len) (fun hdr =>
                  match parse_usize (utf8Lossy hdr) with
                  | none => Res.err RespError.invalid
                  | some nth => dRun fm n (.children nth buf (nth_len + 2) [])))) := rfl
      rw [e2] at h
      cases hv : validate_frame_data buf 42 with
      | ok u =>
        rw [hv] at h
        simp only [Res.bind_ok] at h
        cases hf : find_crlf buf 1 with
        | ok o =>
          rw [hf] at h
          simp only [Res.bind_ok] at h
          split at h
          · exact nomatch h
          · rename_i nth_len
            cases hs : sliceGet buf 1 nth_len with
            | ok hdr =>
              rw [hs] at h
              simp only [Res.bind_ok] at h
              split at h
              · exact nomatch h
              · rename_i nth hn
                exact ihC nth buf (nth_len + 2) [] f h rfl
            | err er =>
              rw [hs] at h
              simp only [Res.bind_err] at h
              exact nomatch h
            | panic =>
              rw [hs] at h
              simp only [Res.bind_panic] at h
              exact nomatch h
        | err er =>
          rw [hf] at h
          simp only [Res.bind_err] at h
          exact nomatch h
        | panic =>
          rw [hf] at h
          simp only [Res.bind_panic] at h
          exact nomatch h
      | err er =>
        rw [hv] at h
        simp only [Res.bind_err] at h
        exact nomatch h
      | panic =>
        rw [hv] at h
        simp only [Res.bind_panic] at h
        exact nomatch h
    · -- map
      intro buf f h
      have e2 : dRun fm (n + 1) (.map buf) =
          Res.bind (validate_frame_data buf 37) (fun _ =>
            Res.bind (find_crlf buf 1) (fun o =>
              match o with
              | none => Res.err RespError.incomplete
              | some nth_len =>
                Res.bind (sliceGet buf 1 nth_len) (fun hdr =>
                  match parse_usize (utf8Lossy hdr) with
                  | none => Res.err RespError.invalid
                  | some nth => dRun fm n (.entries nth buf (nth_len + 2) [])))) := rfl
      rw [e2] at h
      cases hv : validate_frame_data buf 37 with
      | ok u =>
        rw [hv] at h
        simp only [Res.bind_ok] at h
        cases hf : find_crlf buf 1 with
        | ok o =>
          rw [hf] at h
          simp only [Res.bind_ok] at h
          split at h
          · exact nomatch h
          · rename_i nth_len
            cases hs : sliceGet buf 1 nth_len with
            | ok hdr =>
              rw [hs] at h
              simp only [Res.bind_ok] at h
              split at h
              · exact nomatch h
              · rename_i nth hn
                exact ihE2 nth buf (nth_len + 2) [] f h rfl
            | err er =>
              rw [hs] at h
              simp only [Res.bind_err] at h
              exact nomatch h
            | panic =>
              rw [hs] at h
              simp only [Res.bind_panic] at h
              exact nomatch h
        | err er =>
          rw [hf] at h
          simp only [Res.bind_err] at h
          exact nomatch h
        | panic =>
          rw [hf] at h
          simp only [Res.bind_panic] at h
          exact nomatch h
      | err er =>
        rw [hv] at h
        simp only [Res.bind_err] at h
        exact nomatch h
      | panic =>
        rw [hv] at h
        simp only [Res.bind_panic] at h
        exact nomatch h
    · -- set
      intro buf f h
      have e2 : dRun fm (n + 1) (.set buf) =
          Res.bind (validate_frame_data buf 126) (fun _ =>
            Res.bind (find_crlf buf 1) (fun o =>
              match o with
              | none => Res.err RespError.incomplete
              | some nth_len =>
                Res.bind (sliceGet buf 1 nth_len) (fun hdr =>
                  match parse_usize (utf8Lossy hdr) with
                  | none => Res.err RespError.invalid
                  | some nth =>
                    dRun fm n (.setChildren nth buf (nth_len + 2) [])))) := rfl
      rw [e2] at h
      cases hv : validate_frame_data buf 126 with
      | ok u =>
        rw [hv] at h
        simp only [Res.bind_ok] at h
        cases hf : find_crlf buf 1 with
        | ok o =>
          rw [hf] at h
          simp only [Res.bind_ok] at h
          split at h
          · exact nomatch h
          · rename_i nth_len
            cases hs : sliceGet buf 1 nth_len with
            | ok hdr =>
              rw [hs] at h
              simp only [Res.bind_ok] at h
              split at h
              · exact nomatch h
              · rename_i nth hn
                exact ihSC nth buf (nth_len + 2) [] f h rfl List.Pairwise.nil
            | err er =>
              rw [hs] at h
              simp only [Res.bind_err] at h
              exact nomatch h
            | panic =>
              rw [hs] at h
              simp only [Res.bind_panic] at h
              exact nomatch h
        | err er =>
          rw [hf] at h
          simp only [Res.bind_err] at h
          exact nomatch h
        | panic =>
          rw [hf] at h
          simp only [Res.bind_panic] at h
          exact nomatch h
      | err er =>
        rw [hv] at h
        simp only [Res.bind_err] at h
        exact nomatch h
      | panic =>
        rw [hv] at h
        simp only [Res.bind_panic] at h
        exact nomatch h
    · -- children loop
      intro c buf st acc f h hacc
      cases c with
      | zero =>
        have h2 : Res.ok (RespFrame.array acc) = Res.ok f := h
        injection h2 with h3
        rw [← h3]
        exact hacc
      | succ c =>
        have e3 : dRun fm (n + 1) (.children (c + 1) buf st acc) =
            Res.bind (sliceFrom buf st) (fun rem =>
              Res.bind (eRun n (.frame rem)) (fun frame_len =>
                Res.bind (sliceGet buf st (st + frame_len)) (fun sl =>
                  Res.bind (dRun fm n (.frame sl)) (fun g =>
                    dRun fm n (.children c buf (st + frame_len) (acc ++ [g])))))) := rfl
        rw [e3] at h
        cases h0 : sliceFrom buf st with
        | ok rem =>
          rw [h0] at h
          simp only [Res.bind_ok] at h
          cases h1 : eRun n (.frame rem) with
          | ok fl =>
            rw [h1] at h
            simp only [Res.bind_ok] at h
            cases h2 : sliceGet buf st (st + fl) with
            | ok sl =>
              rw [h2] at h
              simp only [Res.bind_ok] at h
              cases h3 : dRun fm n (.frame sl) with
              | ok g =>
                rw [h3] at h
                simp only [Res.bind_ok] at h
                have hg : setsSortedFrame g = true := ihF sl g h3
                have hacc2 : setsSortedFrames (acc ++ [g]) = true := by
                  rw [setsSortedFrames_append]
                  simp [hacc, hg, setsSortedFrames]
                exact ihC c buf (st + fl) (acc ++ [g]) f h hacc2
              | err er =>
                rw [h3] at h
                simp only [Res.bind_err] at h
                exact nomatch h
              | panic =>
                rw [h3] at h
                simp only [Res.bind_panic] at h
                exact nomatch h
            | err er =>
              rw [h2] at h
              simp only [Res.bind_err] at h
              exact nomatch h
            | panic =>
              rw [h2] at h
              simp only [Res.bind_panic] at h
              exact nomatch h
          | err er =>
            rw [h1] at h
            simp only [Res.bind_err] at h
            exact nomatch h
          | panic =>
            rw [h1] at h
            simp only [Res.bind_panic] at h
            exact nomatch h
        | err er =>
          rw [h0] at h
          simp only [Res.bind_err] at h
          exact nomatch h
        | panic =>
          rw [h0] at h
          simp only [Res.bind_panic] at h
          exact nomatch h
    · -- entries loop
      intro c buf st acc f h hacc
      cases c with
      | zero =>
        have h2 : Res.ok (RespFrame.map acc) = Res.ok f := h
        injection h2 with h3
        rw [← h3]
        exact hacc
      | succ c =>
        have e4 : dRun fm (n + 1) (.entries (c + 1) buf st acc) =
            Res.bind (sliceFrom buf st) (fun rem =>
              Res.bind (expectLenLine1 rem) (fun key_len =>
                Res.bind (sliceGet buf st (st + key_len)) (fun ksl =>
                  Res.bind (SimpleString.decode ksl) (fun key =>
                    Res.bind (sliceFrom buf (st + key_len)) (fun rem2 =>
                      Res.bind (eRun n (.frame rem2)) (fun value_len =>
                        Res.bind (sliceGet buf (st + key_len) (st + key_len + value_len))
                          (fun vsl =>
                            Res.bind (dRun fm n (.frame vsl)) (fun value =>
                              dRun fm n (.entries c buf (st + key_len + value_len)
                                (RespMap.insert key value acc)))))))))) := rfl
        rw [e4] at h
        cases h0 : sliceFrom buf st with
        | ok rem =>
          rw [h0] at h
          simp only [Res.bind_ok] at h
          cases h1 : expectLenLine1 rem with
          | ok key_len =>
            rw [h1] at h
            simp only [Res.bind_ok] at h
            cases h2 : sliceGet buf st (st + key_len) with
            | ok ksl =>
              rw [h2] at h
              simp only [Res.bind_ok] at h
              cases h3 : SimpleString.decode ksl with
              | ok key =>
                rw [h3] at h
                simp only [Res.bind_ok] at h
                cases h4 : sliceFrom buf (st + key_len) with
                | ok rem2 =>
                  rw [h4] at h
                  simp only [Res.bind_ok] at h
                  cases h5 : eRun n (.frame rem2) with
                  | ok value_len =>
                    rw [h5] at h
                    simp only [Res.bind_ok] at h
                    cases h6 : sliceGet buf (st + key_len) (st + key_len + value_len) with
                    | ok vsl =>
                      rw [h6] at h
                      simp only [Res.bind_ok] at h
                      cases h7 : dRun fm n (.frame vsl) with
                      | ok value =>
                        rw [h7] at h
                        simp only [Res.bind_ok] at h
                        have hv : setsSortedFrame value = true := ihF vsl value h7
                        exact ihE2 c buf (st + key_len + value_len)
                          (RespMap.insert key value acc) f h
                          (setsSortedEntries_insert key value acc hacc hv)
                      | err er =>
                        rw [h7] at h
                        simp only [Res.bind_err] at h
                        exact nomatch h
                      | panic =>
                        rw [h7] at h
                        simp only [Res.bind_panic] at h
                        exact nomatch h
                    | err er =>
                      rw [h6] at h
                      simp only [Res.bind_err] at h
                      exact nomatch h
                    | panic =>
                      rw [h6] at h
                      simp only [Res.bind_panic] at h
                      exact nomatch h
                  | err er =>
                    rw [h5] at h
                    simp only [Res.bind_err] at h
                    exact nomatch h
                  | panic =>
                    rw [h5] at h
                    simp only [Res.bind_panic] at h
                    exact nomatch h
                | err er =>
                  rw [h4] at h
                  simp only [Res.bind_err] at h
                  exact nomatch h
                | panic =>
                  rw [h4] at h
                  simp only [Res.bind_panic] at h
                  exact nomatch h
              | err er =>
                rw [h3] at h
                simp only [Res.bind_err] at h
                exact nomatch h
              | panic =>
                rw [h3] at h
                simp only [Res.bind_panic] at h
                exact nomatch h
            | err er =>
              rw [h2] at h
              simp only [Res.bind_err] at h
              exact nomatch h
            | panic =>
              rw [h2] at h
              simp only [Res.bind_panic] at h
              exact nomatch h
          | err er =>
            rw [h1] at h
            simp only [Res.bind_err] at h
            exact nomatch h
          | panic =>
            rw [h1] at h
            simp only [Res.bind_panic] at h
            exact nomatch h
        | err er =>
          rw [h0] at h
          simp only [Res.bind_err] at h
          exact nomatch h
        | panic =>
          rw [h0] at h
          simp only [Res.bind_panic] at h
          exact nomatch h
    · -- setChildren loop
      intro c buf st acc f h hacc hpw
      cases c with
      | zero =>
        have h2 : Res.ok (RespFrame.set acc) = Res.ok f := h
        injection h2 with h3
        rw [← h3]
        have hp : pairwiseLtB cmpFrame acc = true := (pairwiseLtB_iff acc).mpr hpw
        show (pairwiseLtB cmpFrame acc && setsSortedFrames acc) = true
        rw [hp, hacc]
        rfl
      | succ c =>
        have e5 : dRun fm (n + 1) (.setChildren (c + 1) buf st acc) =
            Res.bind (sliceFrom buf st) (fun rem =>
              Res.bind (eRun n (.frame rem)) (fun frame_len =>
                Res.bind (sliceGet buf st (st + frame_len)) (fun sl =>
                  Res.bind (dRun fm n (.frame sl)) (fun g =>
                    dRun fm n (.setChildren c buf (st + frame_len)
                      (RespSet.insert g acc)))))) := rfl
        rw [e5] at h
        cases h0 : sliceFrom buf st with
        | ok rem =>
          rw [h0] at h
          simp only [Res.bind_ok] at h
          cases h1 : eRun n (.frame rem) with
          | ok fl =>
            rw [h1] at h
            simp only [Res.bind_ok] at h
            cases h2 : sliceGet buf st (st + fl) with
            | ok sl =>
              rw [h2] at h
              simp only [Res.bind_ok] at h
              cases h3 : dRun fm n (.frame sl) with
              | ok g =>
                rw [h3] at h
                simp only [Res.bind_ok] at h
                have hg : setsSortedFrame g = true := ihF sl g h3
                exact ihSC c buf (st + fl) (RespSet.insert g acc) f h
                  (setsSortedFrames_insert g acc hacc hg)
                  (RespSet.insert_pairwise g acc hpw)
              | err er =>
                rw [h3] at h
                simp only [Res.bind_err] at h
                exact nomatch h
              | panic =>
                rw [h3] at h
                simp only [Res.bind_panic] at h
                exact nomatch h
            | err er =>
              rw [h2] at h
              simp only [Res.bind_err] at h
              exact nomatch h
            | panic =>
              rw [h2] at h
              simp only [Res.bind_panic] at h
              exact nomatch h
          | err er =>
            rw [h1] at h
            simp only [Res.bind_err] at h
            exact nomatch h
          | panic =>
            rw [h1] at h
            simp only [Res.bind_panic] at h
            exact nomatch h
        | err er =>
          rw [h0] at h
          simp only [Res.bind_err] at h
          exact nomatch h
        | panic =>
          rw [h0] at h
          simp only [Res.bind_panic] at h
          exact nomatch h


/-! ## Sorted insertion for the backend hash tables -/

theorem respMap_mem_insert (k : List Nat) (v : RespFrame) (z : List Nat × RespFrame)
    (l : List (List Nat × RespFrame)) (h : z ∈ RespMap.insert k v l) :
    z.1 = k ∨ z ∈ l := by
  induction l with
  | nil =>
    simp [RespMap.insert] at h
    left
    rw [h]
  | cons y ys ih =>
    obtain ⟨k2, v2⟩ := y
    rcases hc : cmpBytes k k2 with _ | _ | _ <;> simp only [RespMap.insert, hc] at h
    · rcases List.mem_cons.mp h with h1 | h1
      · left
        rw [h1]
      · right
        exact h1
    · have hk : k = k2 := (cmpBytes_eq_iff k k2).mp hc
      rcases List.mem_cons.mp h with h1 | h1
      · left
        rw [h1]
        exact hk.symm
      · right
        exact List.mem_cons_of_mem _ h1
    · rcases List.mem_cons.mp h with h1 | h1
      · right
        rw [h1]
        exact List.mem_cons_self _ _
      · rcases ih h1 with h2 | h2
        · left
          exact h2
        · right
          exact List.mem_cons_of_mem _ h2

theorem RespMap.insert_pairwiseKeys (k : List Nat) (v : RespFrame)
    (l : List (List Nat × RespFrame))
    (hl : l.Pairwise (fun a b => cmpBytes a.1 b.1 = .lt)) :
    (RespMap.insert k v l).Pairwise (fun a b => cmpBytes a.1 b.1 = .lt) := by
  induction l with
  | nil => simp [RespMap.insert]
  | cons y ys ih =>
    obtain ⟨k2, v2⟩ := y
    rw [List.pairwise_cons] at hl
    obtain ⟨hy, hys⟩ := hl
    rcases hc : cmpBytes k k2 with _ | _ | _ <;> simp only [RespMap.insert, hc]
    · rw [List.pairwise_cons]
      refine ⟨?_, by rw [List.pairwise_cons]; exact ⟨hy, hys⟩⟩
      intro z hz
      rcases List.mem_cons.mp hz with heq | hz2
      · subst heq
        exact hc
      · exact cmpBytes_trans k k2 z.1 hc (hy z hz2)
    · rw [List.pairwise_cons]
      exact ⟨hy, hys⟩
    · rw [List.pairwise_cons]
      refine ⟨?_, ih hys⟩
      intro z hz
      rcases respMap_mem_insert k v z ys hz with heq | hz2
      · rw [heq, cmpBytes_swap k2 k, hc]
        rfl
      · exact hy z hz2

/-! # Claim theorems -/

/-- C1: the unconditional round trip `decode (encode f) = f` fails — the
`BulkString`/`BulkError` encoders interpolate the lossily decoded payload
while declaring the original byte length, so a non-UTF-8 payload such as
`[255]` produces a frame whose declared length disagrees with its data and
decoding reports `InvalidFrameLength`.  The round trip does hold for every
well-formed frame (UTF-8, CRLF-free payloads within the machine-integer
bounds, canonically formatted doubles). -/
theorem C1_encode_decode_roundtrip :
    (∀ (fm : List Nat → Option (List Nat)) (f : RespFrame), wfFrame fm f = true →
      RespFrame.decode fm (RespFrame.encode f) = .ok f)
    ∧ RespFrame.decode (fun _ => none) (RespFrame.encode (.bulkString [255])) =
        .err .invalidFrameLength :=
  ⟨decode_encode, by rfl⟩

theorem C1_encode_decode_roundtrip_witness :
    wfFrame (fun _ => none) (.simpleString [79, 75]) = true ∧
    RespFrame.decode (fun _ => none) (RespFrame.encode (.simpleString [79, 75])) =
      .ok (.simpleString [79, 75]) :=
  ⟨rfl, C1_encode_decode_roundtrip.1 (fun _ => none) (.simpleString [79, 75]) rfl⟩

/-- C2: the decoders never consume input — no `advance`/`split_to` occurs in
`decode.rs` — so even after a successful decode of `encode f` the codec
returns the buffer with all bytes still present, not with the frame's bytes
removed. -/
theorem C2_decode_consumes_nothing :
    (∀ (fm : List Nat → Option (List Nat)) (f : RespFrame), wfFrame fm f = true →
      RespFrameCodec.decode fm (RespFrame.encode f) =
        .ok (some f, RespFrame.encode f))
    ∧ RespFrameCodec.decode (fun _ => none) [43, 79, 75, 13, 10] =
        .ok (some (.simpleString [79, 75]), [43, 79, 75, 13, 10]) := by
  constructor
  · intro fm f hwf
    unfold RespFrameCodec.decode
    rw [decode_encode fm f hwf]
  · rfl

theorem C2_decode_consumes_nothing_witness :
    wfFrame (fun _ => none) RespFrame.null = true ∧
    RespFrameCodec.decode (fun _ => none) (RespFrame.encode .null) =
      .ok (some .null, RespFrame.encode .null) :=
  ⟨rfl, C2_decode_consumes_nothing.1 (fun _ => none) .null rfl⟩

/-- C3: `expect_length (encode f) = len (encode f)` fails for a `BulkString`
whose payload contains CRLF — `find_crlf` locates the second CRLF inside the
payload, so `"$4\r\na\r\nb\r\n"` (10 bytes) is sized as 7.  The identity
does hold for every well-formed frame (CRLF-free payloads), with anything
appended after the encoding. -/
theorem C3_expect_length_encode :
    (∀ (fm : List Nat → Option (List Nat)) (f : RespFrame) (rest : List Nat) (n : Nat),
      wfFrame fm f = true → (RespFrame.encode f).length + 1 ≤ n →
      RespFrame.expect_length n (RespFrame.encode f ++ rest) =
        .ok (RespFrame.encode f).length)
    ∧ (RespFrame.encode (.bulkString [97, 13, 10, 98])).length = 10
    ∧ RespFrame.expect_length 20 (RespFrame.encode (.bulkString [97, 13, 10, 98])) =
        .ok 7 := by
  refine ⟨?_, by rfl, by rfl⟩
  intro fm f rest n hwf hn
  exact expect_length_encode n fm f rest hwf hn

theorem C3_expect_length_encode_witness :
    wfFrame (fun _ => none) RespFrame.null = true ∧
    (RespFrame.encode RespFrame.null).length + 1 ≤ 4 ∧
    RespFrame.expect_length 4 (RespFrame.encode .null ++ []) =
      .ok (RespFrame.encode RespFrame.null).length :=
  ⟨rfl, by decide, C3_expect_length_encode.1 (fun _ => none) .null [] 4 rfl (by decide)⟩

/-- C4: decoding the strict prefix `"%1\r\n"` of a map encoding does not
return `Incomplete`: `RespMap::decode` calls `SimpleString::expect_length` on
the empty slice after the header, where `find_crlf` computes `0..len - 1` on
an empty buffer and panics (usize underflow), so decode panics instead. -/
theorem C4_map_header_panics :
    (∃ t, t ≠ ([] : List Nat) ∧
      [37, 49, 13, 10] ++ t = RespFrame.encode (.map [([97], .null)]))
    ∧ RespFrame.decode (fun _ => none) [37, 49, 13, 10] = .panic :=
  ⟨⟨[43, 97, 13, 10, 95, 13, 10], by decide, by rfl⟩, by rfl⟩

/-- C5: when a well-formed frame is not a valid command, `frame_handler`
propagates the `CommandError` through `?`, which returns from
`process_stream`: the connection loop terminates, no `SimpleError` is
written, and subsequent frames are not processed. -/
theorem C5_invalid_command_closes_connection :
    (∀ (b : Backend) (f : RespFrame) (fs : List RespFrame) (e : CommandError),
      Command.tryFromFrame f = .err e →
      processFrames b (f :: fs) = ([], .errored e))
    ∧ processFrames Backend.empty
        [.array [.bulkString [101, 99, 104, 111]],
         .array [.bulkString bGET, .bulkString [107]]] =
        ([], .errored .invalidCommand) := by
  constructor
  · intro b f fs e he
    unfold processFrames frame_handler
    rw [he]
    rfl
  · rfl

theorem C5_invalid_command_closes_connection_witness :
    Command.tryFromFrame (.array []) = .err .invalidCommand ∧
    processFrames Backend.empty [.array [], .null] = ([], .errored .invalidCommand) :=
  ⟨rfl, C5_invalid_command_closes_connection.1 Backend.empty (.array []) [.null]
    .invalidCommand rfl⟩

/-- C6: the command dispatch compares the first element byte-for-byte against
exactly five lowercase verbs (`get`, `set`, `hget`, `hset`, `hgetall`): the
lowercase verb parses, but the uppercase spelling `"GET"` and the
spec-claimed verb `"echo"` are rejected with `InvalidCommand` — the match is
not case-insensitive and the registered set has five members, not nine. -/
theorem C6_dispatch_byte_exact :
    (∀ (k : List Nat), validUtf8 k = true →
      Command.tryFromArray [.bulkString bGET, .bulkString k] = .ok (.get ⟨k⟩))
    ∧ Command.tryFromArray [.bulkString [71, 69, 84], .bulkString [107]] =
        .err .invalidCommand
    ∧ Command.tryFromArray [.bulkString [101, 99, 104, 111], .bulkString [107]] =
        .err .invalidCommand := by
  refine ⟨?_, by rfl, by rfl⟩
  intro k hk
  have e : Command.tryFromArray [.bulkString bGET, .bulkString k] =
      Res.bind (Get.tryFrom [.bulkString bGET, .bulkString k]) (fun c => .ok (.get c)) :=
    rfl
  have e2 : Get.tryFrom [.bulkString bGET, .bulkString k] =
      Res.bind (fromUtf8 k) (fun k2 => .ok ⟨k2⟩) := rfl
  rw [e, e2]
  unfold fromUtf8
  rw [if_pos hk]
  rfl

theorem C6_dispatch_byte_exact_witness :
    validUtf8 [107] = true ∧
    Command.tryFromArray [.bulkString bGET, .bulkString [107]] = .ok (.get ⟨[107]⟩) :=
  ⟨rfl, C6_dispatch_byte_exact.1 [107] rfl⟩

/-- C7: `hgetall` on a missing key returns `Null`; the backend's per-key hash
table is an ordered field map whose sorted order `hset` preserves, so
`hgetall` returns field/value pairs sorted by field — in particular the
spec's scenario (`HSET map hello world`, `HSET map hello1 world1`,
`HGETALL map`) answers `+OK`, `+OK` and the 4-element array
`hello world hello1 world1`, whose encoding is the spec's expected reply. -/
theorem C7_hgetall_sorted :
    (∀ (b : Backend) (k : List Nat), b.hgetall k = none →
      (HGetAll.execute ⟨k, false⟩ b).1 = .null)
    ∧ (∀ (k : List Nat) (v : RespFrame) (l : List (List Nat × RespFrame)),
        l.Pairwise (fun a b => cmpBytes a.1 b.1 = .lt) →
        (RespMap.insert k v l).Pairwise (fun a b => cmpBytes a.1 b.1 = .lt))
    ∧ processFrames Backend.empty
        [.array [.bulkString bHSET, .bulkString [109, 97, 112],
           .bulkString [104, 101, 108, 108, 111],
           .bulkString [119, 111, 114, 108, 100]],
         .array [.bulkString bHSET, .bulkString [109, 97, 112],
           .bulkString [104, 101, 108, 108, 111, 49],
           .bulkString [119, 111, 114, 108, 100, 49]],
         .array [.bulkString bHGETALL, .bulkString [109, 97, 112]]] =
        ([.simpleString bOK, .simpleString bOK,
          .array [.bulkString [104, 101, 108, 108, 111],
            .bulkString [119, 111, 114, 108, 100],
            .bulkString [104, 101, 108, 108, 111, 49],
            .bulkString [119, 111, 114, 108, 100, 49]]], .clean)
    ∧ RespFrame.encode (.array [.bulkString [104, 101, 108, 108, 111],
        .bulkString [119, 111, 114, 108, 100],
        .bulkString [104, 101, 108, 108, 111, 49],
        .bulkString [119, 111, 114, 108, 100, 49]]) =
        [42, 52, 13, 10, 36, 53, 13, 10, 104, 101, 108, 108, 111, 13, 10, 36, 53, 13,
         10, 119, 111, 114, 108, 100, 13, 10, 36, 54, 13, 10, 104, 101, 108, 108, 111,
         49, 13, 10, 36, 54, 13, 10, 119, 111, 114, 108, 100, 49, 13, 10] := by
  refine ⟨?_, RespMap.insert_pairwiseKeys, by rfl, by rfl⟩
  intro b k h
  simp [HGetAll.execute, h]

theorem C7_hgetall_sorted_witness :
    Backend.hgetall Backend.empty [107] = none ∧
    (HGetAll.execute ⟨[107], false⟩ Backend.empty).1 = .null :=
  ⟨rfl, C7_hgetall_sorted.1 Backend.empty [107] rfl⟩

/-- C8: `find_crlf` panics on the empty buffer — `for i in 0..buf.len() - 1`
underflows in `usize` — contradicting "must not panic on empty buffers"; a
single-byte buffer is fine (`0..0` is empty, yielding `None`), and on a
buffer that does contain CRLF it returns the index of the `\r` of the
first occurrence. -/
theorem C8_find_crlf_empty_panics :
    find_crlf [] 1 = .panic
    ∧ (∀ b : Nat, find_crlf [b] 1 = .ok none)
    ∧ (∀ (s t : List Nat), noCRLF s = true →
        find_crlf (s ++ 13 :: 10 :: t) 1 = .ok (some s.length)) :=
  ⟨rfl, fun _ => rfl, find_crlf_first⟩

theorem C8_find_crlf_empty_panics_witness :
    noCRLF [97] = true ∧
    find_crlf ([97] ++ 13 :: 10 :: []) 1 = .ok (some ([97] : List Nat).length) :=
  ⟨rfl, C8_find_crlf_empty_panics.2.2 [97] [] rfl⟩

/-- C9: `HMGet::try_from` passes `arr_len - 1` as the expected argument
count, so its length check `arr.len() != keys.len() + n_args` compares
`arr_len` with itself and never fails: an array holding only the verb and a
key — zero fields — is accepted as `HMGet {key, fields: []}` rather than
rejected with `InvalidArguments`.  (A non-`BulkString` element after the key
is still rejected.) -/
theorem C9_hmget_accepts_zero_fields :
    (∀ k : List Nat, validUtf8 k = true →
      HMGet.tryFrom [.bulkString bHMGET, .bulkString k] = .ok ⟨k, []⟩)
    ∧ HMGet.tryFrom [.bulkString bHMGET, .bulkString [107, 101, 121]] =
        .ok ⟨[107, 101, 121], []⟩
    ∧ HMGet.tryFrom [.bulkString bHMGET, .bulkString [107, 101, 121], .null] =
        .err .invalidArguments := by
  refine ⟨?_, by rfl, by rfl⟩
  intro k hk
  have e : HMGet.tryFrom [.bulkString bHMGET, .bulkString k] =
      Res.bind (fromUtf8 k)
        (fun k2 => Res.bind (hmgetFields []) (fun fs => .ok ⟨k2, fs⟩)) := rfl
  rw [e]
  unfold fromUtf8
  rw [if_pos hk]
  rfl

theorem C9_hmget_accepts_zero_fields_witness :
    validUtf8 [107] = true ∧
    HMGet.tryFrom [.bulkString bHMGET, .bulkString [107]] = .ok ⟨[107], []⟩ :=
  ⟨rfl, C9_hmget_accepts_zero_fields.1 [107] rfl⟩

/-- C10: every frame the decoder returns has all of its sets strictly sorted
under the derived total frame order, hence duplicate-free; decoding the wire
form `"~2\r\n+a\r\n+a\r\n"` (declared count 2, duplicate elements)
succeeds with a one-element set, and re-encoding it declares count 1. -/
theorem C10_decoded_sets_sorted :
    (∀ (fm : List Nat → Option (List Nat)) (n : Nat) (buf : List Nat) (f : RespFrame),
      dRun fm n (.frame buf) = .ok f → setsSortedFrame f = true)
    ∧ (∀ (fm : List Nat → Option (List Nat)) (n : Nat) (buf : List Nat)
        (s : List RespFrame), dRun fm n (.frame buf) = .ok (.set s) → s.Nodup)
    ∧ RespFrame.decode (fun _ => none)
        [126, 50, 13, 10, 43, 97, 13, 10, 43, 97, 13, 10] =
        .ok (.set [.simpleString [97]])
    ∧ RespFrame.encode (.set [.simpleString [97]]) = [126, 49, 13, 10, 43, 97, 13, 10] := by
  refine ⟨fun fm n buf f h => (dRun_setsSorted fm n).1 buf f h, ?_, by rfl, by rfl⟩
  intro fm n buf s h
  have h2 := (dRun_setsSorted fm n).1 buf (.set s) h
  have h4 : (pairwiseLtB cmpFrame s && setsSortedFrames s) = true := h2
  simp at h4
  exact pairwiseLt_nodup s ((pairwiseLtB_iff s).mp h4.1)

theorem C10_decoded_sets_sorted_witness :
    dRun (fun _ => none) 12 (.frame [95, 13, 10]) = .ok .null ∧
    setsSortedFrame RespFrame.null = true :=
  ⟨rfl, C10_decoded_sets_sorted.1 (fun _ => none) 12 [95, 13, 10] .null rfl⟩


/-! ## Counterexample computations for the corrected claims -/

/-- C1's counterexample: the non-UTF-8 bulk payload `[255]` does not round
trip — decoding its encoding reports `InvalidFrameLength`. -/
theorem C1_counterexample :
    RespFrame.decode (fun _ => none) (RespFrame.encode (.bulkString [255])) =
      .err .invalidFrameLength := by
  rfl

/-- C3's counterexample: the encoding of `BulkString "a\r\nb"` is 10 bytes
but `expect_length` sizes it as 7. -/
theorem C3_counterexample :
    RespFrame.expect_length 20 (RespFrame.encode (.bulkString [97, 13, 10, 98])) =
      .ok 7 ∧
    (RespFrame.encode (.bulkString [97, 13, 10, 98])).length = 10 :=
  ⟨rfl, rfl⟩

/-- C5's counterexample: an unknown verb (`echo`) terminates the connection
loop with the error — no `SimpleError` reply is produced and the following
well-formed `get` request is never processed. -/
theorem C5_counterexample :
    processFrames Backend.empty
      [.array [.bulkString [101, 99, 104, 111]],
       .array [.bulkString bGET, .bulkString [107]]] =
      ([], .errored .invalidCommand) := by
  rfl

/-- C6's counterexample: the uppercase spelling `GET` and the spec-registered
verb `echo` are both rejected as `InvalidCommand`. -/
theorem C6_counterexample :
    Command.tryFromArray [.bulkString [71, 69, 84], .bulkString [107]] =
      .err .invalidCommand ∧
    Command.tryFromArray [.bulkString [101, 99, 104, 111], .bulkString [107]] =
      .err .invalidCommand :=
  ⟨rfl, rfl⟩

/-- C9's counterexample: `["hmget", "key"]` — zero fields — is accepted. -/
theorem C9_counterexample :
    HMGet.tryFrom [.bulkString bHMGET, .bulkString [107, 101, 121]] =
      .ok ⟨[107, 101, 121], []⟩ := by
  rfl

end SimpleRedis
